import Mathlib

/-!
# The glyph-arrangement cache

A shallow embedding of `GlyphArrangementCache` (files
`modules/juce_graphics/fonts/GlyphArrangementCache.h` and `.cpp`) and the
properties of its lookup, insertion and eviction protocol.

Conventions of the embedding.

* A hash map is an association list searched front to back with the key
  type's `operator==`; the hash only decides where the table looks, so it
  does not appear in the lookup semantics.
* The object's fields are the fields of the structure
  `GlyphArrangementCache`; a member function takes the object and returns
  a `Step`: the object afterwards, what was returned, and how often the
  layout was computed and the timer started.
* `Font`, `GlyphArrangement` and the methods of `GlyphArrangement` are not
  part of these files: they are parameters (`Font` with decidable equality,
  standing for `Font::operator==`).
* All operations are taken to run on the message thread.
-/

namespace juce

/-! ## Value types used in keys -/

/-- A C++ `float` as far as the cache is concerned: the cache stores floats,
compares them with `==` and hands them to the layout functions. A float is
represented by the number it denotes (both zeros denote `0`), an infinity, or
NaN; a layout function, taking a `CFloat`, depends on a float through this
value only. -/
inductive CFloat where
  | finite (v : ℚ)
  | posInf
  | negInf
  | nan
  deriving DecidableEq

/-- The comparison `a == b` on `float`: NaN compares unequal to everything,
itself included; otherwise two floats are equal when they denote the same
value. -/
def CFloat.opEq (a b : CFloat) : Bool :=
  match a, b with
  | CFloat.nan, _ => false
  | _, CFloat.nan => false
  | x, y => decide (x = y)

/-- The comparison `a == b` on `int`. -/
def intEq (a b : Int) : Bool := decide (a = b)

/-- The comparison `a == b` on `bool`. -/
def boolEq (a b : Bool) : Bool := decide (a = b)

/-- The type `Justification`: a wrapper around its integer flags. -/
structure Justification where
  flags : Int
  deriving DecidableEq

/-- The accessor `Justification::getFlags`. -/
def Justification.getFlags (j : Justification) : Int := j.flags

/-- The comparison `Justification::operator==`: equal flags. -/
def Justification.opEq (a other : Justification) : Bool :=
  intEq a.flags other.flags

/-- The type `Rectangle<T>`: position, width and height. -/
structure Rectangle (T : Type) where
  x : T
  y : T
  w : T
  h : T
  deriving DecidableEq

/-- The accessor `Rectangle::getX`. -/
def Rectangle.getX {T : Type} (r : Rectangle T) : T := r.x

/-- The accessor `Rectangle::getY`. -/
def Rectangle.getY {T : Type} (r : Rectangle T) : T := r.y

/-- The accessor `Rectangle::getWidth`. -/
def Rectangle.getWidth {T : Type} (r : Rectangle T) : T := r.w

/-- The accessor `Rectangle::getHeight`. -/
def Rectangle.getHeight {T : Type} (r : Rectangle T) : T := r.h

/-- The comparison `Rectangle<T>::operator==`: position, width and height
compared with the `==` of `T`. -/
def Rectangle.opEq {T : Type} (eqT : T → T → Bool) (a other : Rectangle T) : Bool :=
  eqT a.x other.x && eqT a.y other.y && eqT a.w other.w && eqT a.h other.h

/-! ## The key types -/

/-- The key of the single-line family. -/
structure StartXAndBaselineY where
  startX : Int := 0
  baselineY : Int := 0
  deriving DecidableEq

/-- The comparison `StartXAndBaselineY::operator==`. -/
def StartXAndBaselineY.opEq (a other : StartXAndBaselineY) : Bool :=
  intEq a.startX other.startX && intEq a.baselineY other.baselineY

/-- The key of the multi-line family. -/
structure MultiLineTextKey where
  startXAndBaselineY : StartXAndBaselineY
  maximumLineWidth : Int := 0
  justification : Justification := { flags := 0 }
  leading : CFloat := CFloat.finite 0
  deriving DecidableEq

/-- The comparison `MultiLineTextKey::operator==`. -/
def MultiLineTextKey.opEq (a other : MultiLineTextKey) : Bool :=
  StartXAndBaselineY.opEq a.startXAndBaselineY other.startXAndBaselineY
    && intEq a.maximumLineWidth other.maximumLineWidth
    && Justification.opEq a.justification other.justification
    && CFloat.opEq a.leading other.leading

/-- The type `RectangleAndJustification<T>`. -/
structure RectangleAndJustification (T : Type) where
  area : Rectangle T
  justification : Justification
  deriving DecidableEq

/-- The comparison `RectangleAndJustification<T>::operator==`. -/
def RectangleAndJustification.opEq {T : Type} (eqT : T → T → Bool)
    (a other : RectangleAndJustification T) : Bool :=
  Rectangle.opEq eqT a.area other.area
    && Justification.opEq a.justification other.justification

/-- The key of the family of texts fitted into an area with an ellipsis. -/
structure TextKey where
  rectangleAndJustification : RectangleAndJustification CFloat
  useEllipsesIfTooBig : Bool := false
  deriving DecidableEq

/-- The comparison `TextKey::operator==`. -/
def TextKey.opEq (a other : TextKey) : Bool :=
  RectangleAndJustification.opEq CFloat.opEq a.rectangleAndJustification
      other.rectangleAndJustification
    && boolEq a.useEllipsesIfTooBig other.useEllipsesIfTooBig

/-- The key of the family of fitted texts. -/
structure FittedTextKey where
  rectangleAndJustification : RectangleAndJustification Int
  maximumNumberOfLines : Int := 0
  minimumHorizontalScale : CFloat := CFloat.finite 0
  deriving DecidableEq

/-- The comparison `FittedTextKey::operator==`. -/
def FittedTextKey.opEq (a other : FittedTextKey) : Bool :=
  RectangleAndJustification.opEq intEq a.rectangleAndJustification
      other.rectangleAndJustification
    && intEq a.maximumNumberOfLines other.maximumNumberOfLines
    && CFloat.opEq a.minimumHorizontalScale other.minimumHorizontalScale

/-! ## Hash maps -/

/-- The alias `unordered_map<K, V, H>`: the entries of the map. -/
abbrev unordered_map (K V : Type) := List (K × V)

/-- The member `find(key)`: the value of the first entry whose key compares
equal to `key`, or `none` for `end()`. -/
def unordered_map.find {K V : Type} (eq : K → K → Bool) :
    unordered_map K V → K → Option V
  | [], _ => none
  | (k, v) :: rest, key =>
    if eq key k then some v else unordered_map.find eq rest key

/-- The member `insert({key, value})`: adds the entry unless an entry with an
equal key exists. -/
def unordered_map.insert {K V : Type} (eq : K → K → Bool)
    (m : unordered_map K V) (key : K) (value : V) : unordered_map K V :=
  match unordered_map.find eq m key with
  | some _ => m
  | none => m ++ [(key, value)]

/-- The member `emplace(key, value)` followed by `.first->second`: the map
afterwards and the value at the returned iterator (the existing one when an
entry with an equal key exists). -/
def unordered_map.emplace {K V : Type} (eq : K → K → Bool)
    (m : unordered_map K V) (key : K) (value : V) : unordered_map K V × V :=
  match unordered_map.find eq m key with
  | some v => (m, v)
  | none => (m ++ [(key, value)], value)

/-- A write through a reference to the value found under `key`: the value of
the first entry whose key compares equal to `key` becomes `value`. -/
def unordered_map.assign {K V : Type} (eq : K → K → Bool) :
    unordered_map K V → K → V → unordered_map K V
  | [], _, _ => []
  | (k, v) :: rest, key, value =>
    if eq key k then (k, value) :: rest
    else (k, v) :: unordered_map.assign eq rest key value

/-- The member `size()`. -/
def unordered_map.size {K V : Type} (m : unordered_map K V) : Nat := m.length

/-- The table type `Cache<KeyType>`: Font, then text, then key. -/
abbrev Cache (Font K G : Type) :=
  unordered_map Font (unordered_map String (unordered_map K G))

/-- The comparison `Font::operator==`. -/
def fontEq {Font : Type} [DecidableEq Font] (a b : Font) : Bool := decide (a = b)

/-- The comparison `String::operator==`. -/
def stringEq (a b : String) : Bool := decide (a = b)

/-- The static member template `find`: looks up the Font, then the text,
inserting an empty map where one is missing. Returns the table afterwards and
the innermost map the returned reference designates. -/
def find {Font K G : Type} [DecidableEq Font] (cache : Cache Font K G)
    (font : Font) (text : String) : Cache Font K G × unordered_map K G :=
  let cache1 :=
    match unordered_map.find fontEq cache font with
    | some _ => cache
    | none => unordered_map.insert fontEq cache font []
  let byText := (unordered_map.find fontEq cache1 font).getD []
  let byText1 :=
    match unordered_map.find stringEq byText text with
    | some _ => byText
    | none => unordered_map.insert stringEq byText text []
  (unordered_map.assign fontEq cache1 font byText1,
    (unordered_map.find stringEq byText1 text).getD [])

/-- A write through the reference that `find` returned for `font` and `text`:
the innermost map there becomes `inner`. -/
def store {Font K G : Type} [DecidableEq Font] (cache : Cache Font K G)
    (font : Font) (text : String) (inner : unordered_map K G) : Cache Font K G :=
  unordered_map.assign fontEq cache font
    (unordered_map.assign stringEq
      ((unordered_map.find fontEq cache font).getD []) text inner)

/-- The static member template `getCacheSize`: the loop over the Font
buckets and their text buckets, adding the size of each innermost map. The
running total is a `size_t`; it cannot wrap, each counted entry being a
distinct object in memory, so it is a natural number here. -/
def getCacheSize {Font K G : Type} (cache : Cache Font K G) : Nat :=
  cache.foldl
    (fun cacheSize p1 => p1.2.foldl (fun acc p2 => acc + unordered_map.size p2.2) cacheSize)
    0

/-! ## The external layout functions and the timer -/

/-- Modelled from the spec: the external, deterministic layout function
family, that is the type `GlyphArrangement` (here `G`) with its default
constructor and the member functions the cache calls on it. Each member
function is a function of the arrangement it is called on and of its
arguments, returning the arrangement afterwards. The arguments have the types
of the expressions the cache passes. -/
structure GlyphArrangementOps (Font G : Type) where
  /-- The default constructor: an arrangement without glyphs. -/
  empty : G
  /-- The member `addLineOfText (font, text, x, y)`. -/
  addLineOfText : G → Font → String → Int → Int → G
  /-- The member `addJustifiedText (font, text, x, y, maxLineWidth, justification)`. -/
  addJustifiedText : G → Font → String → Int → Int → Int → Justification → G
  /-- The member `addCurtailedLineOfText (font, text, x, y, maxWidthPixels, useEllipsis)`. -/
  addCurtailedLineOfText : G → Font → String → CFloat → CFloat → CFloat → Bool → G
  /-- The member `getNumGlyphs ()`. -/
  getNumGlyphs : G → Int
  /-- The member `justifyGlyphs (startIndex, numGlyphs, x, y, width, height, justification)`. -/
  justifyGlyphs : G → Int → Int → CFloat → CFloat → CFloat → CFloat → Justification → G
  /-- The member `addFittedText (font, text, x, y, width, height, justification,
  maximumLinesToUse, minimumHorizontalScale)`. -/
  addFittedText : G → Font → String → Int → Int → Int → Int → Justification → Int → CFloat → G

/-- The constant `timerIntervalMilliseconds`. -/
def timerIntervalMilliseconds : Int := 5000

/-- The object: the four tables, and the state of the base class `Timer`.
Modelled from the spec: the timer is a periodic-callback primitive that is
armed with an interval and can be cancelled; `timer` is `none` while it is
not running and `some interval` while it is. -/
structure GlyphArrangementCache (Font G : Type) where
  singleLineTexts : Cache Font StartXAndBaselineY G
  multiLineTexts : Cache Font MultiLineTextKey G
  texts : Cache Font TextKey G
  fittedTexts : Cache Font FittedTextKey G
  timer : Option Int

/-- The member `Timer::isTimerRunning`. -/
def GlyphArrangementCache.isTimerRunning {Font G : Type}
    (self : GlyphArrangementCache Font G) : Bool :=
  self.timer.isSome

/-- The member `Timer::startTimer`. -/
def GlyphArrangementCache.startTimer {Font G : Type}
    (self : GlyphArrangementCache Font G) (intervalInMilliseconds : Int) :
    GlyphArrangementCache Font G :=
  { self with timer := some intervalInMilliseconds }

/-- The member `Timer::stopTimer`. -/
def GlyphArrangementCache.stopTimer {Font G : Type}
    (self : GlyphArrangementCache Font G) : GlyphArrangementCache Font G :=
  { self with timer := none }

/-- The object as the defaulted constructor leaves it: four empty tables, the
timer not running. -/
def GlyphArrangementCache.create {Font G : Type} : GlyphArrangementCache Font G :=
  { singleLineTexts := [], multiLineTexts := [], texts := [], fittedTexts := [],
    timer := none }

/-- What a call of a query method did: the object afterwards, the arrangement
the returned reference designates, the number of times the layout was
computed, and the intervals of the calls of `startTimer`, in order. -/
structure Step (Font G : Type) where
  cache : GlyphArrangementCache Font G
  result : G
  layoutCalls : Nat
  startTimerCalls : List Int

/-! ## The query methods -/

/-- The member `getSingleLineText`. -/
def GlyphArrangementCache.getSingleLineText {Font G : Type} [DecidableEq Font]
    (L : GlyphArrangementOps Font G) (self : GlyphArrangementCache Font G)
    (font : Font) (text : String) (startX baselineY : Int) : Step Font G :=
  let (table, cache) := find self.singleLineTexts font text
  let key : StartXAndBaselineY := { startX := startX, baselineY := baselineY }
  match unordered_map.find StartXAndBaselineY.opEq cache key with
  | none =>
    let arr := L.addLineOfText L.empty font text startX baselineY
    let (cache1, it) := unordered_map.emplace StartXAndBaselineY.opEq cache key arr
    let self1 := { self with singleLineTexts := store table font text cache1 }
    if self1.isTimerRunning then
      { cache := self1, result := it, layoutCalls := 1, startTimerCalls := [] }
    else
      { cache := self1.startTimer timerIntervalMilliseconds, result := it,
        layoutCalls := 1, startTimerCalls := [timerIntervalMilliseconds] }
  | some it =>
    { cache := { self with singleLineTexts := table }, result := it,
      layoutCalls := 0, startTimerCalls := [] }

/-- The member `getMultiLineText`, as defined in the `.cpp` file (six
parameters; the key is built from three initialisers, so its `leading` keeps
its default). -/
def GlyphArrangementCache.getMultiLineText {Font G : Type} [DecidableEq Font]
    (L : GlyphArrangementOps Font G) (self : GlyphArrangementCache Font G)
    (font : Font) (text : String) (startX baselineY maximumLineWidth : Int)
    (justification : Justification) : Step Font G :=
  let (table, cache) := find self.multiLineTexts font text
  let key : MultiLineTextKey :=
    { startXAndBaselineY := { startX := startX, baselineY := baselineY },
      maximumLineWidth := maximumLineWidth, justification := justification }
  match unordered_map.find MultiLineTextKey.opEq cache key with
  | none =>
    let arr := L.addJustifiedText L.empty font text startX baselineY maximumLineWidth
      justification
    let (cache1, it) := unordered_map.emplace MultiLineTextKey.opEq cache key arr
    let self1 := { self with multiLineTexts := store table font text cache1 }
    if self1.isTimerRunning then
      { cache := self1, result := it, layoutCalls := 1, startTimerCalls := [] }
    else
      { cache := self1.startTimer timerIntervalMilliseconds, result := it,
        layoutCalls := 1, startTimerCalls := [timerIntervalMilliseconds] }
  | some it =>
    { cache := { self with multiLineTexts := table }, result := it,
      layoutCalls := 0, startTimerCalls := [] }

/-- The member `getText`. -/
def GlyphArrangementCache.getText {Font G : Type} [DecidableEq Font]
    (L : GlyphArrangementOps Font G) (self : GlyphArrangementCache Font G)
    (font : Font) (text : String) (area : Rectangle CFloat)
    (justificationType : Justification) (useEllipsesIfTooBig : Bool) : Step Font G :=
  let (table, cache) := find self.texts font text
  let key : TextKey :=
    { rectangleAndJustification := { area := area, justification := justificationType },
      useEllipsesIfTooBig := useEllipsesIfTooBig }
  match unordered_map.find TextKey.opEq cache key with
  | none =>
    let arr0 := L.addCurtailedLineOfText L.empty font text (CFloat.finite 0)
      (CFloat.finite 0) area.getWidth useEllipsesIfTooBig
    let arr := L.justifyGlyphs arr0 0 (L.getNumGlyphs arr0) area.getX area.getY
      area.getWidth area.getHeight justificationType
    let (cache1, it) := unordered_map.emplace TextKey.opEq cache key arr
    let self1 := { self with texts := store table font text cache1 }
    if self1.isTimerRunning then
      { cache := self1, result := it, layoutCalls := 1, startTimerCalls := [] }
    else
      { cache := self1.startTimer timerIntervalMilliseconds, result := it,
        layoutCalls := 1, startTimerCalls := [timerIntervalMilliseconds] }
  | some it =>
    { cache := { self with texts := table }, result := it,
      layoutCalls := 0, startTimerCalls := [] }

/-- The member `getFittedText`. -/
def GlyphArrangementCache.getFittedText {Font G : Type} [DecidableEq Font]
    (L : GlyphArrangementOps Font G) (self : GlyphArrangementCache Font G)
    (font : Font) (text : String) (area : Rectangle Int)
    (justification : Justification) (maximumNumberOfLines : Int)
    (minimumHorizontalScale : CFloat) : Step Font G :=
  let (table, cache) := find self.fittedTexts font text
  let key : FittedTextKey :=
    { rectangleAndJustification := { area := area, justification := justification },
      maximumNumberOfLines := maximumNumberOfLines,
      minimumHorizontalScale := minimumHorizontalScale }
  match unordered_map.find FittedTextKey.opEq cache key with
  | none =>
    let arr := L.addFittedText L.empty font text area.getX area.getY area.getWidth
      area.getHeight justification maximumNumberOfLines minimumHorizontalScale
    let (cache1, it) := unordered_map.emplace FittedTextKey.opEq cache key arr
    let self1 := { self with fittedTexts := store table font text cache1 }
    if self1.isTimerRunning then
      { cache := self1, result := it, layoutCalls := 1, startTimerCalls := [] }
    else
      { cache := self1.startTimer timerIntervalMilliseconds, result := it,
        layoutCalls := 1, startTimerCalls := [timerIntervalMilliseconds] }
  | some it =>
    { cache := { self with fittedTexts := table }, result := it,
      layoutCalls := 0, startTimerCalls := [] }

/-! ## Clearing, status and the timer callback -/

/-- The member `clear`. -/
def GlyphArrangementCache.clear {Font G : Type}
    (self : GlyphArrangementCache Font G) : GlyphArrangementCache Font G :=
  let self1 : GlyphArrangementCache Font G := { self with singleLineTexts := [] }
  let self2 : GlyphArrangementCache Font G := { self1 with multiLineTexts := [] }
  let self3 : GlyphArrangementCache Font G := { self2 with texts := [] }
  let self4 : GlyphArrangementCache Font G := { self3 with fittedTexts := [] }
  self4.stopTimer

/-- The member `getStatus`, a `const` member function: it reads the object and
returns a string; a `size_t` is appended in decimal. -/
def GlyphArrangementCache.getStatus {Font G : Type}
    (self : GlyphArrangementCache Font G) : String :=
  let s := "GlyphArrangementCache status: "
  let s := s ++ "singleLineTexts: "
  let s := s ++ toString (getCacheSize self.singleLineTexts)
  let s := s ++ ". multiLineTexts: "
  let s := s ++ toString (getCacheSize self.multiLineTexts)
  let s := s ++ ". texts: "
  let s := s ++ toString (getCacheSize self.texts)
  let s := s ++ ". fittedTexts: "
  let s := s ++ toString (getCacheSize self.fittedTexts)
  s

/-- The member `timerCallback`. -/
def GlyphArrangementCache.timerCallback {Font G : Type}
    (self : GlyphArrangementCache Font G) : GlyphArrangementCache Font G :=
  self.clear

/-! ## Observers used in the statements -/

/-- The entry a table holds for `font`, `text` and `key`: what the three
lookups (Font, then text, then key) find, without inserting anything. -/
def Cache.entry {Font K G : Type} [DecidableEq Font] (eq : K → K → Bool)
    (cache : Cache Font K G) (font : Font) (text : String) (key : K) : Option G :=
  match unordered_map.find fontEq cache font with
  | none => none
  | some byText =>
    match unordered_map.find stringEq byText text with
    | none => none
    | some inner => unordered_map.find eq inner key

/-- The sum of `f` over the values of a map. -/
def unordered_map.total {K V : Type} (f : V → Nat) (m : unordered_map K V) : Nat :=
  (m.map (fun p => f p.2)).sum

/-- The map in which the value under `key` is `g` of what was found there: the
first entry with an equal key is overwritten, or a new entry is added. -/
def unordered_map.alter {K V : Type} (eq : K → K → Bool) (m : unordered_map K V)
    (key : K) (g : Option V → V) : unordered_map K V :=
  match unordered_map.find eq m key with
  | some v => unordered_map.assign eq m key (g (some v))
  | none => m ++ [(key, g none)]

/-- The table in which the innermost map for `font` and `text` has the entry
`(key, arr)` added at its end, the two outer buckets being created when they
are missing. -/
def Cache.added {Font K G : Type} [DecidableEq Font] (cache : Cache Font K G)
    (font : Font) (text : String) (key : K) (arr : G) : Cache Font K G :=
  unordered_map.alter fontEq cache font (fun byText =>
    unordered_map.alter stringEq (byText.getD []) text (fun inner =>
      inner.getD [] ++ [(key, arr)]))

/-- The body the four query methods share, on one table: the table
afterwards, the arrangement returned, and whether the lookup missed. -/
def consult {Font K G : Type} [DecidableEq Font] (eq : K → K → Bool)
    (tbl : Cache Font K G) (font : Font) (text : String) (key : K) (arr : G) :
    Cache Font K G × G × Bool :=
  let (table, cache) := find tbl font text
  match unordered_map.find eq cache key with
  | none =>
    let (cache1, it) := unordered_map.emplace eq cache key arr
    (store table font text cache1, it, true)
  | some it => (table, it, false)

/-! ## The reference layouts, operations and runs -/

/-- Modelled from the spec: `layout(font, text, params)` of the single-line
family, computed afresh: a new arrangement to which the line is added. -/
def GlyphArrangementOps.singleLineText {Font G : Type} (L : GlyphArrangementOps Font G)
    (font : Font) (text : String) (startX baselineY : Int) : G :=
  L.addLineOfText L.empty font text startX baselineY

/-- Modelled from the spec: `layout(font, text, params)` of the multi-line
family, computed afresh. -/
def GlyphArrangementOps.multiLineText {Font G : Type} (L : GlyphArrangementOps Font G)
    (font : Font) (text : String) (startX baselineY maximumLineWidth : Int)
    (justification : Justification) : G :=
  L.addJustifiedText L.empty font text startX baselineY maximumLineWidth justification

/-- Modelled from the spec: `layout(font, text, params)` of the family of
texts fitted into an area with an ellipsis, computed afresh: the curtailed
line at the origin, then all its glyphs justified into the area. -/
def GlyphArrangementOps.text {Font G : Type} (L : GlyphArrangementOps Font G)
    (font : Font) (text : String) (area : Rectangle CFloat)
    (justificationType : Justification) (useEllipsesIfTooBig : Bool) : G :=
  let line := L.addCurtailedLineOfText L.empty font text (CFloat.finite 0)
    (CFloat.finite 0) area.w useEllipsesIfTooBig
  L.justifyGlyphs line 0 (L.getNumGlyphs line) area.x area.y area.w area.h
    justificationType

/-- Modelled from the spec: `layout(font, text, params)` of the family of
fitted texts, computed afresh. -/
def GlyphArrangementOps.fittedText {Font G : Type} (L : GlyphArrangementOps Font G)
    (font : Font) (text : String) (area : Rectangle Int)
    (justification : Justification) (maximumNumberOfLines : Int)
    (minimumHorizontalScale : CFloat) : G :=
  L.addFittedText L.empty font text area.x area.y area.w area.h justification
    maximumNumberOfLines minimumHorizontalScale

/-- A call of one of the operations of the object, with its arguments. -/
inductive Op (Font : Type) where
  | getSingleLineText (font : Font) (text : String) (startX baselineY : Int)
  | getMultiLineText (font : Font) (text : String)
      (startX baselineY maximumLineWidth : Int) (justification : Justification)
  | getText (font : Font) (text : String) (area : Rectangle CFloat)
      (justificationType : Justification) (useEllipsesIfTooBig : Bool)
  | getFittedText (font : Font) (text : String) (area : Rectangle Int)
      (justification : Justification) (maximumNumberOfLines : Int)
      (minimumHorizontalScale : CFloat)
  | clear
  | timerCallback
  | getStatus

/-- What a call of an operation did: the object afterwards, the arrangement
returned (by a query), the string returned (by `getStatus`), the number of
times the layout was computed and the intervals of the calls of `startTimer`. -/
structure Effect (Font G : Type) where
  cache : GlyphArrangementCache Font G
  arrangement : Option G
  status : Option String
  layoutCalls : Nat
  startTimerCalls : List Int

/-- The effect of a query from its `Step`. -/
def Step.toEffect {Font G : Type} (r : Step Font G) : Effect Font G :=
  { cache := r.cache, arrangement := some r.result, status := none,
    layoutCalls := r.layoutCalls, startTimerCalls := r.startTimerCalls }

/-- The call `op` made on the object `self`. -/
def Op.exec {Font G : Type} [DecidableEq Font] (L : GlyphArrangementOps Font G)
    (op : Op Font) (self : GlyphArrangementCache Font G) : Effect Font G :=
  match op with
  | Op.getSingleLineText font text startX baselineY =>
    (self.getSingleLineText L font text startX baselineY).toEffect
  | Op.getMultiLineText font text startX baselineY maximumLineWidth justification =>
    (self.getMultiLineText L font text startX baselineY maximumLineWidth
      justification).toEffect
  | Op.getText font text area justificationType useEllipsesIfTooBig =>
    (self.getText L font text area justificationType useEllipsesIfTooBig).toEffect
  | Op.getFittedText font text area justification maximumNumberOfLines
      minimumHorizontalScale =>
    (self.getFittedText L font text area justification maximumNumberOfLines
      minimumHorizontalScale).toEffect
  | Op.clear =>
    { cache := self.clear, arrangement := none, status := none, layoutCalls := 0,
      startTimerCalls := [] }
  | Op.timerCallback =>
    { cache := self.timerCallback, arrangement := none, status := none,
      layoutCalls := 0, startTimerCalls := [] }
  | Op.getStatus =>
    { cache := self, arrangement := none, status := some self.getStatus,
      layoutCalls := 0, startTimerCalls := [] }

/-- The object after the calls `ops`, made in order on `self`. -/
def run {Font G : Type} [DecidableEq Font] (L : GlyphArrangementOps Font G) :
    List (Op Font) → GlyphArrangementCache Font G → GlyphArrangementCache Font G
  | [], self => self
  | op :: ops, self => run L ops (op.exec L self).cache

/-- The effects of the calls `ops`, made in order on `self`. -/
def effects {Font G : Type} [DecidableEq Font] (L : GlyphArrangementOps Font G) :
    List (Op Font) → GlyphArrangementCache Font G → List (Effect Font G)
  | [], _ => []
  | op :: ops, self => op.exec L self :: effects L ops (op.exec L self).cache

/-- The states the object can be in: those that calls of the operations
produce from the freshly created object. -/
def Reachable {Font G : Type} [DecidableEq Font] (L : GlyphArrangementOps Font G)
    (self : GlyphArrangementCache Font G) : Prop :=
  ∃ ops : List (Op Font), self = run L ops GlyphArrangementCache.create

/-- Whether the call is one of the four query methods. -/
def Op.isQuery {Font : Type} : Op Font → Bool
  | Op.getSingleLineText _ _ _ _ => true
  | Op.getMultiLineText _ _ _ _ _ _ => true
  | Op.getText _ _ _ _ _ => true
  | Op.getFittedText _ _ _ _ _ _ => true
  | _ => false

/-- Whether the call empties the tables: `clear` or the timer callback. -/
def Op.isClearing {Font : Type} : Op Font → Bool
  | Op.clear => true
  | Op.timerCallback => true
  | _ => false

/-- The arrangement the layout function produces for the arguments of a
query, computed afresh. -/
def Op.fresh {Font G : Type} (L : GlyphArrangementOps Font G) : Op Font → Option G
  | Op.getSingleLineText font text startX baselineY =>
    some (L.singleLineText font text startX baselineY)
  | Op.getMultiLineText font text startX baselineY maximumLineWidth justification =>
    some (L.multiLineText font text startX baselineY maximumLineWidth justification)
  | Op.getText font text area justificationType useEllipsesIfTooBig =>
    some (L.text font text area justificationType useEllipsesIfTooBig)
  | Op.getFittedText font text area justification maximumNumberOfLines
      minimumHorizontalScale =>
    some (L.fittedText font text area justification maximumNumberOfLines
      minimumHorizontalScale)
  | _ => none

/-- The entry the object holds for the arguments of a query, in the table of
the query's family. -/
def Op.entry {Font G : Type} [DecidableEq Font] (op : Op Font)
    (self : GlyphArrangementCache Font G) : Option G :=
  match op with
  | Op.getSingleLineText font text startX baselineY =>
    Cache.entry StartXAndBaselineY.opEq self.singleLineTexts font text
      { startX := startX, baselineY := baselineY }
  | Op.getMultiLineText font text startX baselineY maximumLineWidth justification =>
    Cache.entry MultiLineTextKey.opEq self.multiLineTexts font text
      { startXAndBaselineY := { startX := startX, baselineY := baselineY },
        maximumLineWidth := maximumLineWidth, justification := justification }
  | Op.getText font text area justificationType useEllipsesIfTooBig =>
    Cache.entry TextKey.opEq self.texts font text
      { rectangleAndJustification := { area := area, justification := justificationType },
        useEllipsesIfTooBig := useEllipsesIfTooBig }
  | Op.getFittedText font text area justification maximumNumberOfLines
      minimumHorizontalScale =>
    Cache.entry FittedTextKey.opEq self.fittedTexts font text
      { rectangleAndJustification := { area := area, justification := justification },
        maximumNumberOfLines := maximumNumberOfLines,
        minimumHorizontalScale := minimumHorizontalScale }
  | _ => none

/-- Whether the query `later` looks up what the query `earlier` stored: the
same family, an equal font, an equal text, and a key that compares equal
(the key of `later` against the stored key of `earlier`). -/
def Op.sameEntry {Font : Type} [DecidableEq Font] : Op Font → Op Font → Bool
  | Op.getSingleLineText f t x y, Op.getSingleLineText f1 t1 x1 y1 =>
    fontEq f1 f && stringEq t1 t
      && StartXAndBaselineY.opEq { startX := x1, baselineY := y1 }
          { startX := x, baselineY := y }
  | Op.getMultiLineText f t x y w j, Op.getMultiLineText f1 t1 x1 y1 w1 j1 =>
    fontEq f1 f && stringEq t1 t
      && MultiLineTextKey.opEq
          { startXAndBaselineY := { startX := x1, baselineY := y1 },
            maximumLineWidth := w1, justification := j1 }
          { startXAndBaselineY := { startX := x, baselineY := y },
            maximumLineWidth := w, justification := j }
  | Op.getText f t a j e, Op.getText f1 t1 a1 j1 e1 =>
    fontEq f1 f && stringEq t1 t
      && TextKey.opEq
          { rectangleAndJustification := { area := a1, justification := j1 },
            useEllipsesIfTooBig := e1 }
          { rectangleAndJustification := { area := a, justification := j },
            useEllipsesIfTooBig := e }
  | Op.getFittedText f t a j n m, Op.getFittedText f1 t1 a1 j1 n1 m1 =>
    fontEq f1 f && stringEq t1 t
      && FittedTextKey.opEq
          { rectangleAndJustification := { area := a1, justification := j1 },
            maximumNumberOfLines := n1, minimumHorizontalScale := m1 }
          { rectangleAndJustification := { area := a, justification := j },
            maximumNumberOfLines := n, minimumHorizontalScale := m }
  | _, _ => false

/-- The calls made since the most recent `clear` or timer callback (all of
them when there was none). -/
def sinceClear {Font : Type} (ops : List (Op Font)) : List (Op Font) :=
  (ops.reverse.takeWhile (fun op => !op.isClearing)).reverse

/-- The total number of layout computations during the calls `ops`, made in
order on `self`: the recompute count of a counting layout stub. -/
def recomputeCount {Font G : Type} [DecidableEq Font] (L : GlyphArrangementOps Font G)
    (ops : List (Op Font)) (self : GlyphArrangementCache Font G) : Nat :=
  ((effects L ops self).map (fun e => e.layoutCalls)).sum

/-- The four query families, in the order of the four tables. -/
inductive Family where
  | singleLineTexts
  | multiLineTexts
  | texts
  | fittedTexts
  deriving DecidableEq

/-- The family whose table a query uses. -/
def Op.family {Font : Type} : Op Font → Option Family
  | Op.getSingleLineText _ _ _ _ => some Family.singleLineTexts
  | Op.getMultiLineText _ _ _ _ _ _ => some Family.multiLineTexts
  | Op.getText _ _ _ _ _ => some Family.texts
  | Op.getFittedText _ _ _ _ _ _ => some Family.fittedTexts
  | _ => none

/-- The entry count of a family: `getCacheSize` of its table. -/
def GlyphArrangementCache.count {Font G : Type} (self : GlyphArrangementCache Font G) :
    Family → Nat
  | Family.singleLineTexts => getCacheSize self.singleLineTexts
  | Family.multiLineTexts => getCacheSize self.multiLineTexts
  | Family.texts => getCacheSize self.texts
  | Family.fittedTexts => getCacheSize self.fittedTexts

/-- Whether a query has no NaN among its floating-point parameters. -/
def Op.nanFree {Font : Type} : Op Font → Bool
  | Op.getText _ _ area _ _ =>
    decide (area.x ≠ CFloat.nan) && decide (area.y ≠ CFloat.nan)
      && decide (area.w ≠ CFloat.nan) && decide (area.h ≠ CFloat.nan)
  | Op.getFittedText _ _ _ _ _ minimumHorizontalScale =>
    decide (minimumHorizontalScale ≠ CFloat.nan)
  | _ => true

/-- Every entry of `self`, in each of the four tables, is an entry of `after`
with the same arrangement. -/
def GlyphArrangementCache.keptIn {Font G : Type} [DecidableEq Font]
    (self after : GlyphArrangementCache Font G) : Prop :=
  (∀ font text key v,
      Cache.entry StartXAndBaselineY.opEq self.singleLineTexts font text key = some v →
      Cache.entry StartXAndBaselineY.opEq after.singleLineTexts font text key = some v)
  ∧ (∀ font text key v,
      Cache.entry MultiLineTextKey.opEq self.multiLineTexts font text key = some v →
      Cache.entry MultiLineTextKey.opEq after.multiLineTexts font text key = some v)
  ∧ (∀ font text key v,
      Cache.entry TextKey.opEq self.texts font text key = some v →
      Cache.entry TextKey.opEq after.texts font text key = some v)
  ∧ (∀ font text key v,
      Cache.entry FittedTextKey.opEq self.fittedTexts font text key = some v →
      Cache.entry FittedTextKey.opEq after.fittedTexts font text key = some v)

/-- Every entry the object holds for the arguments of a query is the
arrangement the layout function produces for those arguments. -/
def GlyphArrangementCache.Sound {Font G : Type} [DecidableEq Font]
    (L : GlyphArrangementOps Font G) (self : GlyphArrangementCache Font G) : Prop :=
  ∀ (q : Op Font) (v : G), q.entry self = some v → some v = q.fresh L

/-- A layout stub for the examples: fonts are numbered, an arrangement is
its number of glyphs, and every piece of text added contributes one glyph for
each of its characters. -/
def stubOps : GlyphArrangementOps Nat Nat :=
  { empty := 0
    addLineOfText := fun g _ text _ _ => g + text.length
    addJustifiedText := fun g _ text _ _ _ _ => g + text.length
    addCurtailedLineOfText := fun g _ text _ _ _ _ => g + text.length
    getNumGlyphs := fun g => g
    justifyGlyphs := fun g _ _ _ _ _ _ _ => g
    addFittedText := fun g _ text _ _ _ _ _ _ _ => g + text.length }

/-- The intervals of all calls of `startTimer` during the calls `ops`, made
in order on `self`. -/
def startTimerCalls {Font G : Type} [DecidableEq Font] (L : GlyphArrangementOps Font G) :
    List (Op Font) → GlyphArrangementCache Font G → List Int
  | [], _ => []
  | op :: ops, self =>
    (op.exec L self).startTimerCalls ++ startTimerCalls L ops (op.exec L self).cache

/-! ## Fonts and their hash -/

/-- The static member `hash_combine`, in `size_t` arithmetic: the arguments
and every intermediate result are taken modulo `2 ^ 64`. -/
def hash_combine (a b : Nat) : Nat :=
  (a % 2 ^ 64) ^^^
    ((b % 2 ^ 64 + 0x9e3779b9 + ((a % 2 ^ 64) <<< 6) + ((a % 2 ^ 64) >>> 2)) % 2 ^ 64)

/-- Modelled from the spec: the value type `Font`, declared outside these
files, as far as the cache and its hash read it: a typeface name, a height and
style flags. Two fonts are equal as Fonts when their whole state is equal. -/
structure FontState where
  typefaceName : String
  height : CFloat
  styleFlags : Int
  deriving DecidableEq

/-- The accessor `Font::getTypefaceName`. -/
def FontState.getTypefaceName (font : FontState) : String := font.typefaceName

/-- The accessor `Font::getHeight`. -/
def FontState.getHeight (font : FontState) : CFloat := font.height

/-- The accessor `Font::getStyleFlags`. -/
def FontState.getStyleFlags (font : FontState) : Int := font.styleFlags

/-- The function object `FontHash`. The standard hashes `std::hash<int>` and
`std::hash<float>` are left to the implementation by the language; they are
the parameters `hashInt` and `hashFloat`. -/
def FontHash (hashInt : Int → Nat) (hashFloat : CFloat → Nat) (font : FontState) : Nat :=
  hash_combine (hashInt (font.getTypefaceName.length : Nat))
    (hash_combine (hashFloat font.getHeight) (hashInt font.getStyleFlags))

/-- The same call with another Font. -/
def Op.withFont {Font : Type} (font : Font) : Op Font → Op Font
  | Op.getSingleLineText _ text startX baselineY =>
    Op.getSingleLineText font text startX baselineY
  | Op.getMultiLineText _ text startX baselineY maximumLineWidth justification =>
    Op.getMultiLineText font text startX baselineY maximumLineWidth justification
  | Op.getText _ text area justificationType useEllipsesIfTooBig =>
    Op.getText font text area justificationType useEllipsesIfTooBig
  | Op.getFittedText _ text area justification maximumNumberOfLines
      minimumHorizontalScale =>
    Op.getFittedText font text area justification maximumNumberOfLines
      minimumHorizontalScale
  | Op.clear => Op.clear
  | Op.timerCallback => Op.timerCallback
  | Op.getStatus => Op.getStatus

/-- A layout stub for the examples with fonts: an arrangement is the list of
the pieces of text added to it, each with the typeface name of its font. -/
def fontStubOps : GlyphArrangementOps FontState (List (String × String)) :=
  { empty := []
    addLineOfText := fun g font text _ _ => g ++ [(font.typefaceName, text)]
    addJustifiedText := fun g font text _ _ _ _ => g ++ [(font.typefaceName, text)]
    addCurtailedLineOfText := fun g font text _ _ _ _ => g ++ [(font.typefaceName, text)]
    getNumGlyphs := fun g => (g.length : Nat)
    justifyGlyphs := fun g _ _ _ _ _ _ _ => g
    addFittedText := fun g font text _ _ _ _ _ _ _ => g ++ [(font.typefaceName, text)] }

/-! ## The singleton and the thread assertion -/

/-- Modelled from the spec: the shared-instance access that the macro
`JUCE_DECLARE_SINGLETON (Classname, doNotRecreateAfterDeletion)` declares and
`JUCE_IMPLEMENT_SINGLETON` defines, outside these files. The holder has the
shared instance, if there is one, and remembers whether one was ever created. -/
structure SingletonHolder (T : Type) where
  object : Option T
  createdOnceAlready : Bool

/-- The holder at the start of the process: no instance yet. -/
def SingletonHolder.initial {T : Type} : SingletonHolder T :=
  { object := none, createdOnceAlready := false }

/-- Modelled from the spec: a request for the shared instance. The instance is
created lazily, on the first request; a request made while no instance exists
creates one, unless the class was declared with `doNotRecreateAfterDeletion`
and an instance was created before, in which case there is none to return.
Returns the holder afterwards and the instance returned. -/
def SingletonHolder.get {T : Type} (doNotRecreateAfterDeletion : Bool) (construct : T)
    (holder : SingletonHolder T) : SingletonHolder T × Option T :=
  match holder.object with
  | some x => (holder, some x)
  | none =>
    if doNotRecreateAfterDeletion && holder.createdOnceAlready then (holder, none)
    else ({ object := some construct, createdOnceAlready := true }, some construct)

/-- Modelled from the spec: `clearSingletonInstance`, by which the instance
that is being destroyed leaves the holder. -/
def SingletonHolder.clearSingletonInstance {T : Type} (holder : SingletonHolder T) :
    SingletonHolder T :=
  { holder with object := none }

/-- The second argument of `JUCE_DECLARE_SINGLETON` in the class definition. -/
def GlyphArrangementCache.doNotRecreateAfterDeletion : Bool := false

/-- The static member `getInstance` that the declaration gives the class. -/
def GlyphArrangementCache.getInstance {Font G : Type}
    (holder : SingletonHolder (GlyphArrangementCache Font G)) :
    SingletonHolder (GlyphArrangementCache Font G) × Option (GlyphArrangementCache Font G) :=
  SingletonHolder.get GlyphArrangementCache.doNotRecreateAfterDeletion
    GlyphArrangementCache.create holder

/-- The destructor `~GlyphArrangementCache`, run when the instance is deleted
at shutdown. -/
def GlyphArrangementCache.destroy {Font G : Type}
    (holder : SingletonHolder (GlyphArrangementCache Font G)) :
    SingletonHolder (GlyphArrangementCache Font G) :=
  holder.clearSingletonInstance

/-- Modelled from the spec: the macro `JUCE_ASSERT_MESSAGE_THREAD`, an
assertion, in a checked build, that the calling thread is the message thread.
The result is whether the assertion fails. -/
def JUCE_ASSERT_MESSAGE_THREAD (calledOnMessageThread : Bool) : Bool :=
  !calledOnMessageThread

/-- Whether a call hits the failure of a thread assertion, when it is made on
the message thread or on another thread: the four query methods and `clear`
begin with `JUCE_ASSERT_MESSAGE_THREAD`, the timer callback calls `clear`, and
the body of `getStatus` has no assertion. -/
def Op.assertionFails {Font : Type} (op : Op Font) (calledOnMessageThread : Bool) : Bool :=
  match op with
  | Op.getSingleLineText _ _ _ _ => JUCE_ASSERT_MESSAGE_THREAD calledOnMessageThread
  | Op.getMultiLineText _ _ _ _ _ _ => JUCE_ASSERT_MESSAGE_THREAD calledOnMessageThread
  | Op.getText _ _ _ _ _ => JUCE_ASSERT_MESSAGE_THREAD calledOnMessageThread
  | Op.getFittedText _ _ _ _ _ _ => JUCE_ASSERT_MESSAGE_THREAD calledOnMessageThread
  | Op.clear => JUCE_ASSERT_MESSAGE_THREAD calledOnMessageThread
  | Op.timerCallback => JUCE_ASSERT_MESSAGE_THREAD calledOnMessageThread
  | Op.getStatus => false

/-- The total entry count of the four tables. -/
def GlyphArrangementCache.totalCount {Font G : Type} (self : GlyphArrangementCache Font G) :
    Nat :=
  self.count Family.singleLineTexts + self.count Family.multiLineTexts
    + self.count Family.texts + self.count Family.fittedTexts

deriving instance DecidableEq for Op

/-- The distinct (font, text, key) tuples queried in a family since the most
recent `clear` or timer callback (or since creation): the queries of the
family among the calls since then, as a set. -/
def tuplesQueried {Font : Type} [DecidableEq Font] (fam : Family) (ops : List (Op Font)) :
    Finset (Op Font) :=
  ((sinceClear ops).filter (fun q => decide (q.family = some fam))).toFinset

/-- The table stores the entry `(key, arr)` in the innermost map of a bucket
for `text` inside a bucket for `font`. -/
def Cache.Stores {Font K G : Type} (cache : Cache Font K G) (font : Font) (text : String)
    (key : K) (arr : G) : Prop :=
  ∃ byText inner, (font, byText) ∈ cache ∧ (text, inner) ∈ byText ∧ (key, arr) ∈ inner

/-- The number of Font buckets of a table. -/
def Cache.fontBuckets {Font K G : Type} (cache : Cache Font K G) : Nat :=
  unordered_map.size cache

/-- The number of (Font, text) buckets of a table. -/
def Cache.textBuckets {Font K G : Type} (cache : Cache Font K G) : Nat :=
  unordered_map.total unordered_map.size cache

/-- No bucket of the table is empty: every Font bucket has a text bucket and
every innermost map has an entry. -/
def Cache.NoEmptyBuckets {Font K G : Type} (cache : Cache Font K G) : Prop :=
  ∀ p1 ∈ cache, p1.2 ≠ [] ∧ ∀ p2 ∈ p1.2, p2.2 ≠ []

/-- Every key stored in the table of the multi-line family has the default
`leading`. -/
def Cache.LeadingIsDefault {Font G : Type} (cache : Cache Font MultiLineTextKey G) : Prop :=
  ∀ p1 ∈ cache, ∀ p2 ∈ p1.2, ∀ p3 ∈ p2.2, p3.1.leading = CFloat.finite 0

/-- Every entry stored in `self`, in each of the four tables, whether a lookup
can find it or not, is stored in `after` with the same arrangement. -/
def GlyphArrangementCache.storedIn {Font G : Type}
    (self after : GlyphArrangementCache Font G) : Prop :=
  (∀ font text key v, Cache.Stores self.singleLineTexts font text key v →
      Cache.Stores after.singleLineTexts font text key v)
  ∧ (∀ font text key v, Cache.Stores self.multiLineTexts font text key v →
      Cache.Stores after.multiLineTexts font text key v)
  ∧ (∀ font text key v, Cache.Stores self.texts font text key v →
      Cache.Stores after.texts font text key v)
  ∧ (∀ font text key v, Cache.Stores self.fittedTexts font text key v →
      Cache.Stores after.fittedTexts font text key v)

/-! ## Facts about the maps -/

theorem unordered_map.find_append {K V : Type} (eq : K → K → Bool) (m : unordered_map K V)
    (k : K) (v : V) (key : K) :
    unordered_map.find eq (m ++ [(k, v)]) key =
      match unordered_map.find eq m key with
      | some x => some x
      | none => if eq key k then some v else none := by
  induction m with
  | nil => simp [unordered_map.find]
  | cons p rest ih =>
    obtain ⟨k0, v0⟩ := p
    by_cases h : eq key k0 = true
    · simp [unordered_map.find, h]
    · simpa [unordered_map.find, h] using ih

theorem unordered_map.assign_same {K V : Type} (eq : K → K → Bool) (m : unordered_map K V)
    (key : K) (v : V) (h : unordered_map.find eq m key = some v) :
    unordered_map.assign eq m key v = m := by
  induction m with
  | nil => simp [unordered_map.find] at h
  | cons p rest ih =>
    obtain ⟨k0, v0⟩ := p
    by_cases hk : eq key k0 = true
    · simp [unordered_map.find, hk] at h
      simp [unordered_map.assign, hk, h]
    · simp [unordered_map.find, hk] at h
      simp [unordered_map.assign, hk, ih h]

theorem unordered_map.assign_absent {K V : Type} (eq : K → K → Bool) (m : unordered_map K V)
    (key : K) (v : V) (h : unordered_map.find eq m key = none) :
    unordered_map.assign eq m key v = m := by
  induction m with
  | nil => rfl
  | cons p rest ih =>
    obtain ⟨k0, v0⟩ := p
    by_cases hk : eq key k0 = true
    · simp [unordered_map.find, hk] at h
    · simp [unordered_map.find, hk] at h
      simp [unordered_map.assign, hk, ih h]

theorem unordered_map.assign_assign {K V : Type} (eq : K → K → Bool) (m : unordered_map K V)
    (key : K) (v w : V) :
    unordered_map.assign eq (unordered_map.assign eq m key v) key w =
      unordered_map.assign eq m key w := by
  induction m with
  | nil => rfl
  | cons p rest ih =>
    obtain ⟨k0, v0⟩ := p
    by_cases hk : eq key k0 = true
    · simp [unordered_map.assign, hk]
    · simp [unordered_map.assign, hk, ih]

theorem unordered_map.assign_append_absent {K V : Type} (eq : K → K → Bool) (m : unordered_map K V)
    (key : K) (v w : V) (h : unordered_map.find eq m key = none)
    (hk : eq key key = true) :
    unordered_map.assign eq (m ++ [(key, v)]) key w = m ++ [(key, w)] := by
  induction m with
  | nil => simp [unordered_map.assign, hk]
  | cons p rest ih =>
    obtain ⟨k0, v0⟩ := p
    by_cases hk0 : eq key k0 = true
    · simp [unordered_map.find, hk0] at h
    · simp [unordered_map.find, hk0] at h
      simp [unordered_map.assign, hk0, ih h]

theorem unordered_map.find_assign {K V : Type} [DecidableEq K] (m : unordered_map K V)
    (key : K) (v : V) (k : K) :
    unordered_map.find (fun a b => decide (a = b)) (unordered_map.assign (fun a b => decide (a = b)) m key v) k =
      if k = key then (unordered_map.find (fun a b => decide (a = b)) m key).map (fun _ => v)
      else unordered_map.find (fun a b => decide (a = b)) m k := by
  induction m with
  | nil => simp [unordered_map.assign, unordered_map.find]
  | cons p rest ih =>
    obtain ⟨k0, v0⟩ := p
    by_cases hk : key = k0
    · subst hk
      by_cases hkk : k = key
      · simp [unordered_map.assign, unordered_map.find, hkk]
      · simp [unordered_map.assign, unordered_map.find, hkk]
    · by_cases hkk : k = key
      · subst hkk
        simp [unordered_map.assign, unordered_map.find, hk, ih]
      · by_cases hk0 : k = k0
        · subst hk0
          simp [unordered_map.assign, unordered_map.find, hk, hkk]
        · simp [unordered_map.assign, unordered_map.find, hk, hkk, hk0, ih]

theorem unordered_map.find_alter {K V : Type} [DecidableEq K] (m : unordered_map K V)
    (key : K) (g : Option V → V) (k : K) :
    unordered_map.find (fun a b => decide (a = b)) (unordered_map.alter (fun a b => decide (a = b)) m key g) k =
      if k = key then some (g (unordered_map.find (fun a b => decide (a = b)) m key))
      else unordered_map.find (fun a b => decide (a = b)) m k := by
  unfold unordered_map.alter
  cases h : unordered_map.find (fun a b => decide (a = b)) m key with
  | none =>
    by_cases hk : k = key
    · subst hk
      simp [unordered_map.find_append, h]
    · simp only [unordered_map.find_append, hk, if_false, decide_False]
      cases unordered_map.find (fun a b => decide (a = b)) m k <;> simp
  | some v =>
    simp [unordered_map.find_assign, h]

theorem unordered_map.total_append {K V : Type}
    (f : V → Nat) (m : unordered_map K V) (k : K) (v : V) :
    unordered_map.total f (m ++ [(k, v)]) = unordered_map.total f m + f v := by
  simp [unordered_map.total]

theorem unordered_map.total_assign {K V : Type} (eq : K → K → Bool) (f : V → Nat)
    (m : unordered_map K V) (key : K) (v w : V)
    (h : unordered_map.find eq m key = some v) :
    unordered_map.total f (unordered_map.assign eq m key w) + f v =
      unordered_map.total f m + f w := by
  induction m with
  | nil => simp [unordered_map.find] at h
  | cons p rest ih =>
    obtain ⟨k0, v0⟩ := p
    by_cases hk : eq key k0 = true
    · simp [unordered_map.find, hk] at h
      subst h
      simp [unordered_map.assign, unordered_map.total, hk]
      omega
    · simp [unordered_map.find, hk] at h
      have := ih h
      simp [unordered_map.assign, unordered_map.total, hk] at this ⊢
      omega

theorem unordered_map.total_alter {K V : Type} (eq : K → K → Bool) (f : V → Nat)
    (m : unordered_map K V) (key : K) (g : Option V → V) :
    unordered_map.total f (unordered_map.alter eq m key g)
        + (match unordered_map.find eq m key with
           | some v => f v
           | none => 0) =
      unordered_map.total f m + f (g (unordered_map.find eq m key)) := by
  unfold unordered_map.alter
  cases h : unordered_map.find eq m key with
  | none => simp [unordered_map.total_append]
  | some v => simpa using unordered_map.total_assign eq f m key v (g (some v)) h

/-! ## Facts about the tables -/

theorem getCacheSize_eq_total {Font K G : Type} (cache : Cache Font K G) :
    getCacheSize cache =
      unordered_map.total (unordered_map.total unordered_map.size) cache := by
  have inner : ∀ (m : unordered_map String (unordered_map K G)) (n : Nat),
      m.foldl (fun acc p2 => acc + unordered_map.size p2.2) n =
        n + unordered_map.total unordered_map.size m := by
    intro m
    induction m with
    | nil => intro n; simp [unordered_map.total]
    | cons p rest ih =>
      intro n
      simp only [List.foldl_cons, ih, unordered_map.total, List.map_cons, List.sum_cons]
      omega
  have outer : ∀ (c : Cache Font K G) (n : Nat),
      c.foldl (fun cacheSize p1 =>
          cacheSize + unordered_map.total unordered_map.size p1.2) n =
        n + unordered_map.total (unordered_map.total unordered_map.size) c := by
    intro c
    induction c with
    | nil => intro n; simp [unordered_map.total]
    | cons p rest ih =>
      intro n
      rw [List.foldl_cons, ih]
      simp only [unordered_map.total, List.map_cons, List.sum_cons]
      omega
  have hfun : (fun (cacheSize : Nat) (p1 : Font × unordered_map String (unordered_map K G)) =>
      p1.2.foldl (fun acc p2 => acc + unordered_map.size p2.2) cacheSize) =
      (fun cacheSize p1 => cacheSize + unordered_map.total unordered_map.size p1.2) := by
    funext n p1
    exact inner p1.2 n
  unfold getCacheSize
  rw [hfun, outer cache 0]
  omega

theorem consult_hit {Font K G : Type} [DecidableEq Font]
    (eq : K → K → Bool) (tbl : Cache Font K G) (font : Font)
    (text : String) (key : K) (arr v : G)
    (h : Cache.entry eq tbl font text key = some v) :
    consult eq tbl font text key arr = (tbl, v, false) := by
  unfold Cache.entry at h
  cases h1 : unordered_map.find fontEq tbl font with
  | none => simp [h1] at h
  | some byText =>
    simp only [h1] at h
    cases h2 : unordered_map.find stringEq byText text with
    | none => simp [h2] at h
    | some inner =>
      simp only [h2] at h
      simp [consult, find, h1, h2, h, unordered_map.assign_same]

theorem consult_miss {Font K G : Type} [DecidableEq Font]
    (eq : K → K → Bool) (tbl : Cache Font K G) (font : Font)
    (text : String) (key : K) (arr : G)
    (h : Cache.entry eq tbl font text key = none) :
    consult eq tbl font text key arr = (Cache.added tbl font text key arr, arr, true) := by
  unfold Cache.entry at h
  have hf : ∀ (m : Cache Font K G) (x : unordered_map String (unordered_map K G)),
      unordered_map.find fontEq (unordered_map.assign fontEq m font x) font =
        (unordered_map.find fontEq m font).map (fun _ => x) := by
    intro m x
    simpa [fontEq] using unordered_map.find_assign m font x font
  have hs : ∀ (m : unordered_map String (unordered_map K G)) (x : unordered_map K G),
      unordered_map.find stringEq (unordered_map.assign stringEq m text x) text =
        (unordered_map.find stringEq m text).map (fun _ => x) := by
    intro m x
    simpa [stringEq] using unordered_map.find_assign m text x text
  cases h1 : unordered_map.find fontEq tbl font with
  | none =>
    simp [consult, find, store, Cache.added, unordered_map.alter, unordered_map.insert,
      unordered_map.emplace, h1, unordered_map.find_append, unordered_map.find, fontEq,
      stringEq, unordered_map.assign, unordered_map.assign_append_absent]
  | some byText =>
    simp only [h1] at h
    cases h2 : unordered_map.find stringEq byText text with
    | none =>
      simp [consult, find, store, Cache.added, unordered_map.alter, unordered_map.insert,
        unordered_map.emplace, h1, h2, unordered_map.find_append, unordered_map.find,
        hf, unordered_map.assign_assign, unordered_map.assign_append_absent, stringEq]
    | some inner =>
      simp only [h2] at h
      simp [consult, find, store, Cache.added, unordered_map.alter, unordered_map.insert,
        unordered_map.emplace, h1, h2, h, unordered_map.assign_same, hf, hs]

theorem Cache.entry_added {Font K G : Type} [DecidableEq Font]
    (eq : K → K → Bool) (tbl : Cache Font K G) (font : Font)
    (text : String) (key : K) (arr : G) (font1 : Font) (text1 : String) (key1 : K) :
    Cache.entry eq (Cache.added tbl font text key arr) font1 text1 key1 =
      if font1 = font ∧ text1 = text then
        match Cache.entry eq tbl font text key1 with
        | some x => some x
        | none => if eq key1 key then some arr else none
      else Cache.entry eq tbl font1 text1 key1 := by
  have hF : (fontEq : Font → Font → Bool) = fun a b => decide (a = b) := rfl
  have hS : stringEq = fun a b => decide (a = b) := rfl
  unfold Cache.entry Cache.added
  rw [hF, hS, unordered_map.find_alter]
  by_cases hf : font1 = font
  · subst hf
    simp only [if_true, true_and, unordered_map.find_alter]
    by_cases ht : text1 = text
    · subst ht
      simp only [if_true, unordered_map.find_append]
      cases unordered_map.find (fun a b => decide (a = b)) tbl font1 with
      | none => simp [unordered_map.find]
      | some byText =>
        simp only [Option.getD_some]
        cases unordered_map.find (fun a b => decide (a = b)) byText text1 with
        | none => simp [unordered_map.find]
        | some inner => simp
    · simp only [ht, if_false]
      cases unordered_map.find (fun a b => decide (a = b)) tbl font1 with
      | none => simp [unordered_map.find]
      | some byText => simp
  · simp [hf]

theorem getCacheSize_added {Font K G : Type} [DecidableEq Font] (tbl : Cache Font K G) (font : Font)
    (text : String) (key : K) (arr : G) :
    getCacheSize (Cache.added tbl font text key arr) = getCacheSize tbl + 1 := by
  rw [getCacheSize_eq_total, getCacheSize_eq_total]
  unfold Cache.added
  have h1 := unordered_map.total_alter fontEq
    (unordered_map.total (unordered_map.size : unordered_map K G → Nat)) tbl font
    (fun byText => unordered_map.alter stringEq (byText.getD []) text (fun inner =>
      inner.getD [] ++ [(key, arr)]))
  have h2 : ∀ m : unordered_map String (unordered_map K G),
      unordered_map.total (unordered_map.size : unordered_map K G → Nat)
        (unordered_map.alter stringEq m text (fun inner => inner.getD [] ++ [(key, arr)])) =
      unordered_map.total unordered_map.size m + 1 := by
    intro m
    have h3 := unordered_map.total_alter stringEq
      (unordered_map.size : unordered_map K G → Nat) m text
      (fun inner => inner.getD [] ++ [(key, arr)])
    cases h4 : unordered_map.find stringEq m text with
    | none =>
      simp only [h4, unordered_map.size, Option.getD_none, List.nil_append,
        List.length_singleton] at h3
      omega
    | some c =>
      simp only [h4, unordered_map.size, Option.getD_some, List.length_append,
        List.length_singleton] at h3
      omega
  simp only [h2] at h1
  cases h5 : unordered_map.find fontEq tbl font with
  | none =>
    simp only [h5, Option.getD_none, unordered_map.total, List.map_nil, List.sum_nil] at h1
    simp only [unordered_map.total]
    omega
  | some v =>
    simp only [h5, Option.getD_some] at h1
    omega

/-! ## The query methods on a hit and on a miss -/

theorem GlyphArrangementCache.getSingleLineText_hit {Font G : Type} [DecidableEq Font]
    (L : GlyphArrangementOps Font G)
    (self : GlyphArrangementCache Font G) (font : Font) (text : String)
    (startX baselineY : Int) (v : G)
    (h : Cache.entry StartXAndBaselineY.opEq self.singleLineTexts font text
      { startX := startX, baselineY := baselineY } = some v) :
    self.getSingleLineText L font text startX baselineY =
      { cache := self, result := v, layoutCalls := 0, startTimerCalls := [] } := by
  have hc := consult_hit StartXAndBaselineY.opEq self.singleLineTexts font text
    { startX := startX, baselineY := baselineY }
    (L.singleLineText font text startX baselineY) v h
  unfold consult at hc
  unfold GlyphArrangementCache.getSingleLineText
  generalize find self.singleLineTexts font text = p at hc ⊢
  obtain ⟨table, cache⟩ := p
  simp only at hc ⊢
  cases hfind : unordered_map.find StartXAndBaselineY.opEq cache
      { startX := startX, baselineY := baselineY } with
  | none => simp [hfind] at hc
  | some it =>
    simp only [hfind, Prod.mk.injEq, and_true] at hc
    simp [hc.1, hc.2]

theorem GlyphArrangementCache.getSingleLineText_miss {Font G : Type} [DecidableEq Font]
    (L : GlyphArrangementOps Font G)
    (self : GlyphArrangementCache Font G) (font : Font) (text : String)
    (startX baselineY : Int)
    (h : Cache.entry StartXAndBaselineY.opEq self.singleLineTexts font text
      { startX := startX, baselineY := baselineY } = none) :
    self.getSingleLineText L font text startX baselineY =
      { cache :=
          { self with
            singleLineTexts := Cache.added self.singleLineTexts font text
              { startX := startX, baselineY := baselineY }
              (L.singleLineText font text startX baselineY),
            timer := some (self.timer.getD timerIntervalMilliseconds) },
        result := L.singleLineText font text startX baselineY,
        layoutCalls := 1,
        startTimerCalls := if self.timer.isSome then [] else [timerIntervalMilliseconds] } := by
  have hc := consult_miss StartXAndBaselineY.opEq self.singleLineTexts font text
    { startX := startX, baselineY := baselineY }
    (L.singleLineText font text startX baselineY) h
  unfold consult at hc
  unfold GlyphArrangementCache.getSingleLineText
  generalize find self.singleLineTexts font text = p at hc ⊢
  obtain ⟨table, cache⟩ := p
  simp only at hc ⊢
  cases hfind : unordered_map.find StartXAndBaselineY.opEq cache
      { startX := startX, baselineY := baselineY } with
  | some it => simp [hfind] at hc
  | none =>
    simp only [hfind, Prod.mk.injEq, and_true] at hc
    unfold GlyphArrangementOps.singleLineText at hc
    cases ht : self.timer <;>
      simp [hc.1, hc.2, ht, GlyphArrangementCache.isTimerRunning,
        GlyphArrangementCache.startTimer, GlyphArrangementOps.singleLineText]

theorem GlyphArrangementCache.getMultiLineText_hit {Font G : Type} [DecidableEq Font]
    (L : GlyphArrangementOps Font G)
    (self : GlyphArrangementCache Font G) (font : Font) (text : String)
    (startX baselineY maximumLineWidth : Int) (justification : Justification) (v : G)
    (h : Cache.entry MultiLineTextKey.opEq self.multiLineTexts font text
      { startXAndBaselineY := { startX := startX, baselineY := baselineY },
                maximumLineWidth := maximumLineWidth, justification := justification } = some v) :
    self.getMultiLineText L font text startX baselineY maximumLineWidth justification =
      { cache := self, result := v, layoutCalls := 0, startTimerCalls := [] } := by
  have hc := consult_hit MultiLineTextKey.opEq self.multiLineTexts font text
    { startXAndBaselineY := { startX := startX, baselineY := baselineY },
                maximumLineWidth := maximumLineWidth, justification := justification }
    (L.multiLineText font text startX baselineY maximumLineWidth justification) v h
  unfold consult at hc
  unfold GlyphArrangementCache.getMultiLineText
  generalize find self.multiLineTexts font text = p at hc ⊢
  obtain ⟨table, cache⟩ := p
  simp only at hc ⊢
  cases hfind : unordered_map.find MultiLineTextKey.opEq cache
      { startXAndBaselineY := { startX := startX, baselineY := baselineY },
                maximumLineWidth := maximumLineWidth, justification := justification } with
  | none => simp [hfind] at hc
  | some it =>
    simp only [hfind, Prod.mk.injEq, and_true] at hc
    simp [hc.1, hc.2]

theorem GlyphArrangementCache.getMultiLineText_miss {Font G : Type} [DecidableEq Font]
    (L : GlyphArrangementOps Font G)
    (self : GlyphArrangementCache Font G) (font : Font) (text : String)
    (startX baselineY maximumLineWidth : Int) (justification : Justification)
    (h : Cache.entry MultiLineTextKey.opEq self.multiLineTexts font text
      { startXAndBaselineY := { startX := startX, baselineY := baselineY },
                maximumLineWidth := maximumLineWidth, justification := justification } = none) :
    self.getMultiLineText L font text startX baselineY maximumLineWidth justification =
      { cache :=
          { self with
            multiLineTexts := Cache.added self.multiLineTexts font text
              { startXAndBaselineY := { startX := startX, baselineY := baselineY },
                maximumLineWidth := maximumLineWidth, justification := justification }
              (L.multiLineText font text startX baselineY maximumLineWidth justification),
            timer := some (self.timer.getD timerIntervalMilliseconds) },
        result := L.multiLineText font text startX baselineY maximumLineWidth justification,
        layoutCalls := 1,
        startTimerCalls := if self.timer.isSome then [] else [timerIntervalMilliseconds] } := by
  have hc := consult_miss MultiLineTextKey.opEq self.multiLineTexts font text
    { startXAndBaselineY := { startX := startX, baselineY := baselineY },
                maximumLineWidth := maximumLineWidth, justification := justification }
    (L.multiLineText font text startX baselineY maximumLineWidth justification) h
  unfold consult at hc
  unfold GlyphArrangementCache.getMultiLineText
  generalize find self.multiLineTexts font text = p at hc ⊢
  obtain ⟨table, cache⟩ := p
  simp only at hc ⊢
  cases hfind : unordered_map.find MultiLineTextKey.opEq cache
      { startXAndBaselineY := { startX := startX, baselineY := baselineY },
                maximumLineWidth := maximumLineWidth, justification := justification } with
  | some it => simp [hfind] at hc
  | none =>
    simp only [hfind, Prod.mk.injEq, and_true] at hc
    unfold GlyphArrangementOps.multiLineText at hc
    cases ht : self.timer <;>
      simp [hc.1, hc.2, ht, GlyphArrangementCache.isTimerRunning,
        GlyphArrangementCache.startTimer, GlyphArrangementOps.multiLineText,
        Rectangle.getX, Rectangle.getY, Rectangle.getWidth, Rectangle.getHeight]

theorem GlyphArrangementCache.getText_hit {Font G : Type} [DecidableEq Font]
    (L : GlyphArrangementOps Font G)
    (self : GlyphArrangementCache Font G) (font : Font) (text : String)
    (area : Rectangle CFloat) (justificationType : Justification)
    (useEllipsesIfTooBig : Bool) (v : G)
    (h : Cache.entry TextKey.opEq self.texts font text
      { rectangleAndJustification := { area := area, justification := justificationType },
                useEllipsesIfTooBig := useEllipsesIfTooBig } = some v) :
    self.getText L font text area justificationType useEllipsesIfTooBig =
      { cache := self, result := v, layoutCalls := 0, startTimerCalls := [] } := by
  have hc := consult_hit TextKey.opEq self.texts font text
    { rectangleAndJustification := { area := area, justification := justificationType },
                useEllipsesIfTooBig := useEllipsesIfTooBig }
    (L.text font text area justificationType useEllipsesIfTooBig) v h
  unfold consult at hc
  unfold GlyphArrangementCache.getText
  generalize find self.texts font text = p at hc ⊢
  obtain ⟨table, cache⟩ := p
  simp only at hc ⊢
  cases hfind : unordered_map.find TextKey.opEq cache
      { rectangleAndJustification := { area := area, justification := justificationType },
                useEllipsesIfTooBig := useEllipsesIfTooBig } with
  | none => simp [hfind] at hc
  | some it =>
    simp only [hfind, Prod.mk.injEq, and_true] at hc
    simp [hc.1, hc.2]

theorem GlyphArrangementCache.getText_miss {Font G : Type} [DecidableEq Font]
    (L : GlyphArrangementOps Font G)
    (self : GlyphArrangementCache Font G) (font : Font) (text : String)
    (area : Rectangle CFloat) (justificationType : Justification)
    (useEllipsesIfTooBig : Bool)
    (h : Cache.entry TextKey.opEq self.texts font text
      { rectangleAndJustification := { area := area, justification := justificationType },
                useEllipsesIfTooBig := useEllipsesIfTooBig } = none) :
    self.getText L font text area justificationType useEllipsesIfTooBig =
      { cache :=
          { self with
            texts := Cache.added self.texts font text
              { rectangleAndJustification := { area := area, justification := justificationType },
                useEllipsesIfTooBig := useEllipsesIfTooBig }
              (L.text font text area justificationType useEllipsesIfTooBig),
            timer := some (self.timer.getD timerIntervalMilliseconds) },
        result := L.text font text area justificationType useEllipsesIfTooBig,
        layoutCalls := 1,
        startTimerCalls := if self.timer.isSome then [] else [timerIntervalMilliseconds] } := by
  have hc := consult_miss TextKey.opEq self.texts font text
    { rectangleAndJustification := { area := area, justification := justificationType },
                useEllipsesIfTooBig := useEllipsesIfTooBig }
    (L.text font text area justificationType useEllipsesIfTooBig) h
  unfold consult at hc
  unfold GlyphArrangementCache.getText
  generalize find self.texts font text = p at hc ⊢
  obtain ⟨table, cache⟩ := p
  simp only at hc ⊢
  cases hfind : unordered_map.find TextKey.opEq cache
      { rectangleAndJustification := { area := area, justification := justificationType },
                useEllipsesIfTooBig := useEllipsesIfTooBig } with
  | some it => simp [hfind] at hc
  | none =>
    simp only [hfind, Prod.mk.injEq, and_true] at hc
    unfold GlyphArrangementOps.text at hc
    cases ht : self.timer <;>
      simp [hc.1, hc.2, ht, GlyphArrangementCache.isTimerRunning,
        GlyphArrangementCache.startTimer, GlyphArrangementOps.text,
        Rectangle.getX, Rectangle.getY, Rectangle.getWidth, Rectangle.getHeight]

theorem GlyphArrangementCache.getFittedText_hit {Font G : Type} [DecidableEq Font]
    (L : GlyphArrangementOps Font G)
    (self : GlyphArrangementCache Font G) (font : Font) (text : String)
    (area : Rectangle Int) (justification : Justification)
    (maximumNumberOfLines : Int) (minimumHorizontalScale : CFloat) (v : G)
    (h : Cache.entry FittedTextKey.opEq self.fittedTexts font text
      { rectangleAndJustification := { area := area, justification := justification },
                maximumNumberOfLines := maximumNumberOfLines,
                minimumHorizontalScale := minimumHorizontalScale } = some v) :
    self.getFittedText L font text area justification maximumNumberOfLines minimumHorizontalScale =
      { cache := self, result := v, layoutCalls := 0, startTimerCalls := [] } := by
  have hc := consult_hit FittedTextKey.opEq self.fittedTexts font text
    { rectangleAndJustification := { area := area, justification := justification },
                maximumNumberOfLines := maximumNumberOfLines,
                minimumHorizontalScale := minimumHorizontalScale }
    (L.fittedText font text area justification maximumNumberOfLines minimumHorizontalScale) v h
  unfold consult at hc
  unfold GlyphArrangementCache.getFittedText
  generalize find self.fittedTexts font text = p at hc ⊢
  obtain ⟨table, cache⟩ := p
  simp only at hc ⊢
  cases hfind : unordered_map.find FittedTextKey.opEq cache
      { rectangleAndJustification := { area := area, justification := justification },
                maximumNumberOfLines := maximumNumberOfLines,
                minimumHorizontalScale := minimumHorizontalScale } with
  | none => simp [hfind] at hc
  | some it =>
    simp only [hfind, Prod.mk.injEq, and_true] at hc
    simp [hc.1, hc.2]

theorem GlyphArrangementCache.getFittedText_miss {Font G : Type} [DecidableEq Font]
    (L : GlyphArrangementOps Font G)
    (self : GlyphArrangementCache Font G) (font : Font) (text : String)
    (area : Rectangle Int) (justification : Justification)
    (maximumNumberOfLines : Int) (minimumHorizontalScale : CFloat)
    (h : Cache.entry FittedTextKey.opEq self.fittedTexts font text
      { rectangleAndJustification := { area := area, justification := justification },
                maximumNumberOfLines := maximumNumberOfLines,
                minimumHorizontalScale := minimumHorizontalScale } = none) :
    self.getFittedText L font text area justification maximumNumberOfLines minimumHorizontalScale =
      { cache :=
          { self with
            fittedTexts := Cache.added self.fittedTexts font text
              { rectangleAndJustification := { area := area, justification := justification },
                maximumNumberOfLines := maximumNumberOfLines,
                minimumHorizontalScale := minimumHorizontalScale }
              (L.fittedText font text area justification maximumNumberOfLines minimumHorizontalScale),
            timer := some (self.timer.getD timerIntervalMilliseconds) },
        result := L.fittedText font text area justification maximumNumberOfLines minimumHorizontalScale,
        layoutCalls := 1,
        startTimerCalls := if self.timer.isSome then [] else [timerIntervalMilliseconds] } := by
  have hc := consult_miss FittedTextKey.opEq self.fittedTexts font text
    { rectangleAndJustification := { area := area, justification := justification },
                maximumNumberOfLines := maximumNumberOfLines,
                minimumHorizontalScale := minimumHorizontalScale }
    (L.fittedText font text area justification maximumNumberOfLines minimumHorizontalScale) h
  unfold consult at hc
  unfold GlyphArrangementCache.getFittedText
  generalize find self.fittedTexts font text = p at hc ⊢
  obtain ⟨table, cache⟩ := p
  simp only at hc ⊢
  cases hfind : unordered_map.find FittedTextKey.opEq cache
      { rectangleAndJustification := { area := area, justification := justification },
                maximumNumberOfLines := maximumNumberOfLines,
                minimumHorizontalScale := minimumHorizontalScale } with
  | some it => simp [hfind] at hc
  | none =>
    simp only [hfind, Prod.mk.injEq, and_true] at hc
    unfold GlyphArrangementOps.fittedText at hc
    cases ht : self.timer <;>
      simp [hc.1, hc.2, ht, GlyphArrangementCache.isTimerRunning,
        GlyphArrangementCache.startTimer, GlyphArrangementOps.fittedText,
        Rectangle.getX, Rectangle.getY, Rectangle.getWidth, Rectangle.getHeight]

/-! ## Key comparison -/

theorem CFloat.float_eq_of_opEq {a b : CFloat} (h : CFloat.opEq a b = true) : a = b := by
  cases a <;> cases b <;> simp_all [CFloat.opEq]

theorem CFloat.opEq_self {a : CFloat} (h : a ≠ CFloat.nan) : CFloat.opEq a a = true := by
  cases a <;> simp_all [CFloat.opEq]

theorem StartXAndBaselineY.startXY_eq_of_opEq {a b : StartXAndBaselineY}
    (h : StartXAndBaselineY.opEq a b = true) : a = b := by
  cases a; cases b
  simp_all [StartXAndBaselineY.opEq, intEq]

theorem MultiLineTextKey.multiLineKey_eq_of_opEq {a b : MultiLineTextKey}
    (h : MultiLineTextKey.opEq a b = true) : a = b := by
  obtain ⟨a1, a2, ⟨a3⟩, a4⟩ := a
  obtain ⟨b1, b2, ⟨b3⟩, b4⟩ := b
  simp only [MultiLineTextKey.opEq, Justification.opEq, intEq, Bool.and_eq_true,
    decide_eq_true_eq] at h
  obtain ⟨⟨⟨h1, h2⟩, h3⟩, h4⟩ := h
  rw [StartXAndBaselineY.startXY_eq_of_opEq h1, h2, h3, CFloat.float_eq_of_opEq h4]

theorem TextKey.textKey_eq_of_opEq {a b : TextKey} (h : TextKey.opEq a b = true) : a = b := by
  obtain ⟨⟨⟨ax, ay, aw, ah⟩, ⟨aj⟩⟩, ae⟩ := a
  obtain ⟨⟨⟨bx, bY, bw, bh⟩, ⟨bj⟩⟩, be⟩ := b
  simp only [TextKey.opEq, RectangleAndJustification.opEq, Rectangle.opEq,
    Justification.opEq, intEq, boolEq, Bool.and_eq_true, decide_eq_true_eq] at h
  obtain ⟨⟨⟨⟨⟨h1, h2⟩, h3⟩, h4⟩, h5⟩, h6⟩ := h
  rw [CFloat.float_eq_of_opEq h1, CFloat.float_eq_of_opEq h2, CFloat.float_eq_of_opEq h3,
    CFloat.float_eq_of_opEq h4, h5, h6]

theorem FittedTextKey.fittedKey_eq_of_opEq {a b : FittedTextKey}
    (h : FittedTextKey.opEq a b = true) : a = b := by
  obtain ⟨⟨⟨ax, ay, aw, ah⟩, ⟨aj⟩⟩, an, am⟩ := a
  obtain ⟨⟨⟨bx, bY, bw, bh⟩, ⟨bj⟩⟩, bn, bm⟩ := b
  simp only [FittedTextKey.opEq, RectangleAndJustification.opEq, Rectangle.opEq,
    Justification.opEq, intEq, Bool.and_eq_true, decide_eq_true_eq] at h
  obtain ⟨⟨⟨⟨⟨⟨h1, h2⟩, h3⟩, h4⟩, h5⟩, h6⟩, h7⟩ := h
  rw [h1, h2, h3, h4, h5, h6, CFloat.float_eq_of_opEq h7]

theorem Op.eq_of_sameEntry {Font : Type} [DecidableEq Font] {q q1 : Op Font}
    (h : q.sameEntry q1 = true) : q = q1 := by
  cases q <;> cases q1 <;> simp only [Op.sameEntry, Bool.and_eq_true, fontEq, stringEq,
    decide_eq_true_eq, Bool.false_eq_true] at h
  · obtain ⟨⟨h1, h2⟩, h3⟩ := h
    have := StartXAndBaselineY.startXY_eq_of_opEq h3
    simp only [StartXAndBaselineY.mk.injEq] at this
    simp [h1, h2, this.1, this.2]
  · obtain ⟨⟨h1, h2⟩, h3⟩ := h
    have := MultiLineTextKey.multiLineKey_eq_of_opEq h3
    simp only [MultiLineTextKey.mk.injEq, StartXAndBaselineY.mk.injEq] at this
    simp [h1, h2, this.1.1, this.1.2, this.2.1, this.2.2.1]
  · obtain ⟨⟨h1, h2⟩, h3⟩ := h
    have := TextKey.textKey_eq_of_opEq h3
    simp only [TextKey.mk.injEq, RectangleAndJustification.mk.injEq] at this
    simp [h1, h2, this.1.1, this.1.2, this.2]
  · obtain ⟨⟨h1, h2⟩, h3⟩ := h
    have := FittedTextKey.fittedKey_eq_of_opEq h3
    simp only [FittedTextKey.mk.injEq, RectangleAndJustification.mk.injEq] at this
    simp [h1, h2, this.1.1, this.1.2, this.2.1, this.2.2]

theorem Op.sameEntry_self {Font : Type} [DecidableEq Font] {q : Op Font}
    (hq : q.isQuery = true) (hn : q.nanFree = true) : q.sameEntry q = true := by
  cases q <;> simp only [Op.isQuery] at hq <;>
    simp only [Op.nanFree, Bool.and_eq_true, decide_eq_true_eq] at hn <;>
    simp [Op.sameEntry, fontEq, stringEq, StartXAndBaselineY.opEq, MultiLineTextKey.opEq,
      TextKey.opEq, FittedTextKey.opEq, RectangleAndJustification.opEq, Rectangle.opEq,
      Justification.opEq, intEq, boolEq, CFloat.opEq_self, CFloat.opEq, *]

/-! ## The operations on a hit and on a miss -/

theorem Op.exec_hit {Font G : Type} [DecidableEq Font]
    (L : GlyphArrangementOps Font G) (self : GlyphArrangementCache Font G)
    (q : Op Font) (v : G) (h : q.entry self = some v) :
    q.exec L self =
      { cache := self, arrangement := some v, status := none, layoutCalls := 0,
        startTimerCalls := [] } := by
  cases q <;> simp only [Op.entry] at h
  · simp [Op.exec, Step.toEffect, GlyphArrangementCache.getSingleLineText_hit L self _ _ _ _ v h]
  · simp [Op.exec, Step.toEffect, GlyphArrangementCache.getMultiLineText_hit L self _ _ _ _ _ _ v h]
  · simp [Op.exec, Step.toEffect, GlyphArrangementCache.getText_hit L self _ _ _ _ _ v h]
  · simp [Op.exec, Step.toEffect, GlyphArrangementCache.getFittedText_hit L self _ _ _ _ _ _ v h]
  all_goals exact absurd h (by simp)

theorem Op.exec_miss {Font G : Type} [DecidableEq Font]
    (L : GlyphArrangementOps Font G) (self : GlyphArrangementCache Font G)
    (q : Op Font) (hq : q.isQuery = true) (h : q.entry self = none) :
    (q.exec L self).arrangement = q.fresh L
      ∧ (q.exec L self).layoutCalls = 1
      ∧ (q.exec L self).startTimerCalls =
          (if self.timer.isSome then [] else [timerIntervalMilliseconds])
      ∧ (q.exec L self).cache.timer = some (self.timer.getD timerIntervalMilliseconds) := by
  cases q <;> simp only [Op.isQuery, Bool.false_eq_true] at hq <;> simp only [Op.entry] at h
  · simp [Op.exec, Step.toEffect, Op.fresh,
      GlyphArrangementCache.getSingleLineText_miss L self _ _ _ _ h]
  · simp [Op.exec, Step.toEffect, Op.fresh,
      GlyphArrangementCache.getMultiLineText_miss L self _ _ _ _ _ _ h]
  · simp [Op.exec, Step.toEffect, Op.fresh,
      GlyphArrangementCache.getText_miss L self _ _ _ _ _ h]
  · simp [Op.exec, Step.toEffect, Op.fresh,
      GlyphArrangementCache.getFittedText_miss L self _ _ _ _ _ _ h]

theorem option_match_none {α : Type} (o : Option α) :
    (match o with
      | some x => some x
      | none => none) = o := by
  cases o <;> rfl

theorem Op.entry_after_miss {Font G : Type} [DecidableEq Font] (L : GlyphArrangementOps Font G)
    (self : GlyphArrangementCache Font G) (q : Op Font) (hq : q.isQuery = true)
    (h : q.entry self = none) (q1 : Op Font) :
    q1.entry (q.exec L self).cache =
      match q1.entry self with
      | some x => some x
      | none => if q.sameEntry q1 = true then q.fresh L else none := by
  cases q <;> simp only [Op.isQuery, Bool.false_eq_true] at hq <;> simp only [Op.entry] at h
  · rw [Op.exec, GlyphArrangementCache.getSingleLineText_miss L self _ _ _ _ h]
    cases q1 <;> simp only [Op.entry, Step.toEffect, Op.sameEntry, Op.fresh,
      Cache.entry_added, Bool.and_eq_true, fontEq, stringEq, decide_eq_true_eq]
    · split_ifs <;> simp_all [option_match_none]
    all_goals (split <;> simp_all)
  · rw [Op.exec, GlyphArrangementCache.getMultiLineText_miss L self _ _ _ _ _ _ h]
    cases q1 <;> simp only [Op.entry, Step.toEffect, Op.sameEntry, Op.fresh,
      Cache.entry_added, Bool.and_eq_true, fontEq, stringEq, decide_eq_true_eq]
    · split <;> simp_all
    · split_ifs <;> simp_all [option_match_none]
    all_goals (split <;> simp_all)
  · rw [Op.exec, GlyphArrangementCache.getText_miss L self _ _ _ _ _ h]
    cases q1 <;> simp only [Op.entry, Step.toEffect, Op.sameEntry, Op.fresh,
      Cache.entry_added, Bool.and_eq_true, fontEq, stringEq, decide_eq_true_eq]
    · split <;> simp_all
    · split <;> simp_all
    · split_ifs <;> simp_all [option_match_none]
    all_goals (split <;> simp_all)
  · rw [Op.exec, GlyphArrangementCache.getFittedText_miss L self _ _ _ _ _ _ h]
    cases q1 <;> simp only [Op.entry, Step.toEffect, Op.sameEntry, Op.fresh,
      Cache.entry_added, Bool.and_eq_true, fontEq, stringEq, decide_eq_true_eq]
    · split <;> simp_all
    · split <;> simp_all
    · split <;> simp_all
    · split_ifs <;> simp_all [option_match_none]
    all_goals (split <;> simp_all)

theorem Op.exec_layoutCalls {Font G : Type} [DecidableEq Font] (L : GlyphArrangementOps Font G)
    (self : GlyphArrangementCache Font G) (q : Op Font) (hq : q.isQuery = true) :
    (q.exec L self).layoutCalls = if (q.entry self).isSome then 0 else 1 := by
  cases h : q.entry self with
  | none => simpa using (Op.exec_miss L self q hq h).2.1
  | some v => simp [Op.exec_hit L self q v h]

theorem Op.count_after_miss {Font G : Type} [DecidableEq Font] (L : GlyphArrangementOps Font G)
    (self : GlyphArrangementCache Font G) (q : Op Font) (hq : q.isQuery = true)
    (h : q.entry self = none) (fam : Family) :
    (q.exec L self).cache.count fam =
      self.count fam + (if q.family = some fam then 1 else 0) := by
  cases q <;> simp only [Op.isQuery, Bool.false_eq_true] at hq <;> simp only [Op.entry] at h
  · rw [Op.exec, GlyphArrangementCache.getSingleLineText_miss L self _ _ _ _ h]
    cases fam <;> simp [GlyphArrangementCache.count, Op.family, Step.toEffect,
      getCacheSize_added]
  · rw [Op.exec, GlyphArrangementCache.getMultiLineText_miss L self _ _ _ _ _ _ h]
    cases fam <;> simp [GlyphArrangementCache.count, Op.family, Step.toEffect,
      getCacheSize_added]
  · rw [Op.exec, GlyphArrangementCache.getText_miss L self _ _ _ _ _ h]
    cases fam <;> simp [GlyphArrangementCache.count, Op.family, Step.toEffect,
      getCacheSize_added]
  · rw [Op.exec, GlyphArrangementCache.getFittedText_miss L self _ _ _ _ _ _ h]
    cases fam <;> simp [GlyphArrangementCache.count, Op.family, Step.toEffect,
      getCacheSize_added]

theorem Cache.entry_added_of_entry {Font K G : Type} [DecidableEq Font]
    (eq : K → K → Bool) (tbl : Cache Font K G)
    (font : Font) (text : String) (key : K) (arr : G) (font1 : Font) (text1 : String)
    (key1 : K) (v : G) (h : Cache.entry eq tbl font1 text1 key1 = some v) :
    Cache.entry eq (Cache.added tbl font text key arr) font1 text1 key1 = some v := by
  rw [Cache.entry_added]
  by_cases hft : font1 = font ∧ text1 = text
  · rw [if_pos hft]
    obtain ⟨rfl, rfl⟩ := hft
    simp [h]
  · rw [if_neg hft]
    exact h

theorem GlyphArrangementCache.keptIn_refl {Font G : Type} [DecidableEq Font]
    (self : GlyphArrangementCache Font G) :
    self.keptIn self :=
  ⟨fun _ _ _ _ h => h, fun _ _ _ _ h => h, fun _ _ _ _ h => h, fun _ _ _ _ h => h⟩

theorem Op.keptIn_exec {Font G : Type} [DecidableEq Font] (L : GlyphArrangementOps Font G)
    (self : GlyphArrangementCache Font G) (q : Op Font) (hq : q.isQuery = true) :
    self.keptIn (q.exec L self).cache := by
  cases h : q.entry self with
  | some v =>
    rw [Op.exec_hit L self q v h]
    exact GlyphArrangementCache.keptIn_refl self
  | none =>
    cases q <;> simp only [Op.isQuery, Bool.false_eq_true] at hq <;>
      simp only [Op.entry] at h
    · rw [Op.exec, GlyphArrangementCache.getSingleLineText_miss L self _ _ _ _ h]
      exact ⟨fun _ _ _ _ h1 => Cache.entry_added_of_entry _ _ _ _ _ _ _ _ _ _ h1,
        fun _ _ _ _ h1 => h1, fun _ _ _ _ h1 => h1, fun _ _ _ _ h1 => h1⟩
    · rw [Op.exec, GlyphArrangementCache.getMultiLineText_miss L self _ _ _ _ _ _ h]
      exact ⟨fun _ _ _ _ h1 => h1,
        fun _ _ _ _ h1 => Cache.entry_added_of_entry _ _ _ _ _ _ _ _ _ _ h1,
        fun _ _ _ _ h1 => h1, fun _ _ _ _ h1 => h1⟩
    · rw [Op.exec, GlyphArrangementCache.getText_miss L self _ _ _ _ _ h]
      exact ⟨fun _ _ _ _ h1 => h1, fun _ _ _ _ h1 => h1,
        fun _ _ _ _ h1 => Cache.entry_added_of_entry _ _ _ _ _ _ _ _ _ _ h1,
        fun _ _ _ _ h1 => h1⟩
    · rw [Op.exec, GlyphArrangementCache.getFittedText_miss L self _ _ _ _ _ _ h]
      exact ⟨fun _ _ _ _ h1 => h1, fun _ _ _ _ h1 => h1, fun _ _ _ _ h1 => h1,
        fun _ _ _ _ h1 => Cache.entry_added_of_entry _ _ _ _ _ _ _ _ _ _ h1⟩

/-! ## Runs -/

theorem GlyphArrangementCache.clear_eq_create {Font G : Type}
    (self : GlyphArrangementCache Font G) :
    self.clear = GlyphArrangementCache.create := rfl

theorem Op.entry_create {Font G : Type} [DecidableEq Font] (q : Op Font) :
    q.entry (GlyphArrangementCache.create : GlyphArrangementCache Font G) = none := by
  cases q <;> rfl

theorem run_append {Font G : Type} [DecidableEq Font]
    (L : GlyphArrangementOps Font G) (ops : List (Op Font)) (op : Op Font)
    (self : GlyphArrangementCache Font G) :
    run L (ops ++ [op]) self = (op.exec L (run L ops self)).cache := by
  induction ops generalizing self with
  | nil => rfl
  | cons o rest ih => simpa [run] using ih (o.exec L self).cache

theorem GlyphArrangementCache.sound_create {Font G : Type} [DecidableEq Font]
    (L : GlyphArrangementOps Font G) :
    (GlyphArrangementCache.create : GlyphArrangementCache Font G).Sound L := by
  intro q v h
  rw [Op.entry_create] at h
  exact absurd h (by simp)

theorem GlyphArrangementCache.sound_exec {Font G : Type} [DecidableEq Font]
    (L : GlyphArrangementOps Font G)
    (self : GlyphArrangementCache Font G) (hs : self.Sound L) (op : Op Font) :
    (op.exec L self).cache.Sound L := by
  by_cases hq : op.isQuery = true
  · cases h : op.entry self with
    | some v =>
      rw [Op.exec_hit L self op v h]
      exact hs
    | none =>
      intro q1 v1 h1
      rw [Op.entry_after_miss L self op hq h q1] at h1
      cases h2 : q1.entry self with
      | some x =>
        simp only [h2] at h1
        rw [← h1]
        exact hs q1 x h2
      | none =>
        simp only [h2] at h1
        by_cases h3 : op.sameEntry q1 = true
        · rw [if_pos h3] at h1
          rw [← Op.eq_of_sameEntry h3, h1]
        · rw [if_neg h3] at h1
          exact absurd h1 (by simp)
  · cases op <;> simp only [Op.isQuery, not_true_eq_false] at hq
    · exact GlyphArrangementCache.sound_create L
    · exact GlyphArrangementCache.sound_create L
    · exact hs

theorem GlyphArrangementCache.sound_run {Font G : Type} [DecidableEq Font]
    (L : GlyphArrangementOps Font G)
    (ops : List (Op Font)) (self : GlyphArrangementCache Font G) (hs : self.Sound L) :
    (run L ops self).Sound L := by
  induction ops generalizing self with
  | nil => exact hs
  | cons o rest ih => exact ih (o.exec L self).cache (GlyphArrangementCache.sound_exec L self hs o)

/-! ## The claims -/

theorem Op.exec_arrangement_of_sound {Font G : Type} [DecidableEq Font]
    (L : GlyphArrangementOps Font G)
    (self : GlyphArrangementCache Font G) (hs : self.Sound L) (q : Op Font)
    (hq : q.isQuery = true) : (q.exec L self).arrangement = q.fresh L := by
  cases h : q.entry self with
  | some v =>
    rw [Op.exec_hit L self q v h]
    exact hs q v h
  | none => exact (Op.exec_miss L self q hq h).1

theorem Reachable.sound {Font G : Type} [DecidableEq Font] (L : GlyphArrangementOps Font G)
    (self : GlyphArrangementCache Font G) (h : Reachable L self) : self.Sound L := by
  obtain ⟨ops, rfl⟩ := h
  exact GlyphArrangementCache.sound_run L ops _ (GlyphArrangementCache.sound_create L)

/-- C1: in every state reachable from the freshly created cache by calls of
the four query methods, `clear`, the timer callback (and `getStatus`), each of
the four query methods returns exactly the arrangement that the layout
function produces for the call's own font, text and parameters, on a hit as
on a miss. -/
theorem C1_query_returns_own_layout {Font G : Type} [DecidableEq Font]
    (L : GlyphArrangementOps Font G)
    (self : GlyphArrangementCache Font G) (h : Reachable L self) :
    (∀ font text startX baselineY,
        (self.getSingleLineText L font text startX baselineY).result =
          L.singleLineText font text startX baselineY)
    ∧ (∀ font text startX baselineY maximumLineWidth justification,
        (self.getMultiLineText L font text startX baselineY maximumLineWidth
            justification).result =
          L.multiLineText font text startX baselineY maximumLineWidth justification)
    ∧ (∀ font text area justificationType useEllipsesIfTooBig,
        (self.getText L font text area justificationType useEllipsesIfTooBig).result =
          L.text font text area justificationType useEllipsesIfTooBig)
    ∧ (∀ font text area justification maximumNumberOfLines minimumHorizontalScale,
        (self.getFittedText L font text area justification maximumNumberOfLines
            minimumHorizontalScale).result =
          L.fittedText font text area justification maximumNumberOfLines
            minimumHorizontalScale) := by
  have hs := Reachable.sound L self h
  refine ⟨?_, ?_, ?_, ?_⟩
  · intro font text startX baselineY
    simpa [Op.exec, Step.toEffect, Op.fresh] using
      Op.exec_arrangement_of_sound L self hs
        (Op.getSingleLineText font text startX baselineY) rfl
  · intro font text startX baselineY maximumLineWidth justification
    simpa [Op.exec, Step.toEffect, Op.fresh] using
      Op.exec_arrangement_of_sound L self hs
        (Op.getMultiLineText font text startX baselineY maximumLineWidth justification) rfl
  · intro font text area justificationType useEllipsesIfTooBig
    simpa [Op.exec, Step.toEffect, Op.fresh] using
      Op.exec_arrangement_of_sound L self hs
        (Op.getText font text area justificationType useEllipsesIfTooBig) rfl
  · intro font text area justification maximumNumberOfLines minimumHorizontalScale
    simpa [Op.exec, Step.toEffect, Op.fresh] using
      Op.exec_arrangement_of_sound L self hs
        (Op.getFittedText font text area justification maximumNumberOfLines
          minimumHorizontalScale) rfl

/-- C1, at the state after two single-line queries and one fitted-text query
with the stub layout: the state is reachable and a repeated single-line query
(a hit) returns the five glyphs of a fresh layout of "Hello". -/
theorem C1_query_returns_own_layout_witness :
    Reachable stubOps
        (run stubOps
          [Op.getSingleLineText 1 "Hello" 0 10, Op.getSingleLineText 1 "Hello" 5 10,
            Op.getFittedText 1 "Hi" { x := 0, y := 0, w := 10, h := 10 } { flags := 1 } 2
              (CFloat.finite 1)]
          GlyphArrangementCache.create)
    ∧ ((run stubOps
          [Op.getSingleLineText 1 "Hello" 0 10, Op.getSingleLineText 1 "Hello" 5 10,
            Op.getFittedText 1 "Hi" { x := 0, y := 0, w := 10, h := 10 } { flags := 1 } 2
              (CFloat.finite 1)]
          GlyphArrangementCache.create).getSingleLineText stubOps 1 "Hello" 0 10).result
        = 5 :=
  ⟨⟨_, rfl⟩, (C1_query_returns_own_layout stubOps _ ⟨_, rfl⟩).1 1 "Hello" 0 10⟩

theorem Op.fresh_of_isQuery {Font G : Type} (L : GlyphArrangementOps Font G) (q : Op Font)
    (hq : q.isQuery = true) : ∃ a, q.fresh L = some a := by
  cases q <;> simp only [Op.isQuery, Bool.false_eq_true] at hq <;> exact ⟨_, rfl⟩

/-- C2 (amended): for every state and every query none of whose floating-point
parameters is NaN, calling the same query method twice in a row returns equal
arrangements, and the second call computes no layout, starts no timer and
leaves the whole object (the four tables and the timer) exactly as the first
call left it. -/
theorem C2_repeated_query_is_hit {Font G : Type} [DecidableEq Font] (L : GlyphArrangementOps Font G)
    (self : GlyphArrangementCache Font G) (q : Op Font) (hq : q.isQuery = true)
    (hn : q.nanFree = true) :
    (q.exec L (q.exec L self).cache).arrangement = (q.exec L self).arrangement
    ∧ (q.exec L (q.exec L self).cache).layoutCalls = 0
    ∧ (q.exec L (q.exec L self).cache).startTimerCalls = []
    ∧ (q.exec L (q.exec L self).cache).cache = (q.exec L self).cache := by
  cases h : q.entry self with
  | some v =>
    rw [Op.exec_hit L self q v h]
    simp only
    rw [Op.exec_hit L self q v h]
    simp
  | none =>
    obtain ⟨a, ha⟩ := Op.fresh_of_isQuery L q hq
    have h1 : q.entry (q.exec L self).cache = some a := by
      rw [Op.entry_after_miss L self q hq h q, h]
      simp [Op.sameEntry_self hq hn, ha]
    rw [Op.exec_hit L (q.exec L self).cache q a h1]
    simp [(Op.exec_miss L self q hq h).1, ha]

/-- C2 (amended), at the freshly created cache and a fitted-text query with
minimum horizontal scale 1, with the stub layout. -/
theorem C2_repeated_query_is_hit_witness :
    ((Op.getFittedText 1 "Hello" { x := 0, y := 0, w := 10, h := 10 } { flags := 1 } 1
        (CFloat.finite 1)).exec stubOps
      ((Op.getFittedText 1 "Hello" { x := 0, y := 0, w := 10, h := 10 } { flags := 1 } 1
        (CFloat.finite 1)).exec stubOps GlyphArrangementCache.create).cache).layoutCalls = 0 :=
  (C2_repeated_query_is_hit stubOps GlyphArrangementCache.create
    (Op.getFittedText 1 "Hello" { x := 0, y := 0, w := 10, h := 10 } { flags := 1 } 1
      (CFloat.finite 1)) rfl (by decide)).2.1

/-- C2 as stated fails: with a NaN minimum horizontal scale, the key of
`getFittedText` does not compare equal to itself, so the immediate repeat of
the call on the freshly created cache is a miss again: the layout is computed
a second time and the family holds two entries instead of one. -/
theorem C2_counterexample :
    (((GlyphArrangementCache.create.getFittedText stubOps 1 "Hello"
          { x := 0, y := 0, w := 10, h := 10 } { flags := 1 } 1 CFloat.nan).cache.getFittedText
        stubOps 1 "Hello" { x := 0, y := 0, w := 10, h := 10 } { flags := 1 } 1
        CFloat.nan).layoutCalls = 1)
    ∧ getCacheSize (GlyphArrangementCache.create.getFittedText stubOps 1 "Hello"
          { x := 0, y := 0, w := 10, h := 10 } { flags := 1 } 1 CFloat.nan).cache.fittedTexts = 1
    ∧ getCacheSize ((GlyphArrangementCache.create.getFittedText stubOps 1 "Hello"
          { x := 0, y := 0, w := 10, h := 10 } { flags := 1 } 1 CFloat.nan).cache.getFittedText
        stubOps 1 "Hello" { x := 0, y := 0, w := 10, h := 10 } { flags := 1 } 1
        CFloat.nan).cache.fittedTexts = 2 := by
  refine ⟨?_, ?_, ?_⟩ <;> decide

theorem sinceClear_append {Font : Type} (ops : List (Op Font)) (op : Op Font) :
    sinceClear (ops ++ [op]) = if op.isClearing = true then [] else sinceClear ops ++ [op] := by
  by_cases h : op.isClearing = true <;> simp [sinceClear, List.takeWhile_cons, h]

theorem Op.entry_isSome_after {Font G : Type} [DecidableEq Font] (L : GlyphArrangementOps Font G)
    (self : GlyphArrangementCache Font G) (op : Op Font) (hop : op.isQuery = true)
    (q : Op Font) :
    (q.entry (op.exec L self).cache).isSome = ((q.entry self).isSome || op.sameEntry q) := by
  cases h : op.entry self with
  | some v =>
    rw [Op.exec_hit L self op v h]
    by_cases hs : op.sameEntry q = true
    · have := Op.eq_of_sameEntry hs
      subst this
      simp [h]
    · simp [hs]
  | none =>
    rw [Op.entry_after_miss L self op hop h q]
    obtain ⟨a, ha⟩ := Op.fresh_of_isQuery L op hop
    cases q.entry self with
    | some x => simp
    | none => by_cases hs : op.sameEntry q = true <;> simp [hs, ha]

theorem Op.entry_run {Font G : Type} [DecidableEq Font]
    (L : GlyphArrangementOps Font G) (ops : List (Op Font)) (q : Op Font) :
    (q.entry (run L ops GlyphArrangementCache.create)).isSome =
      (sinceClear ops).any (fun e => e.sameEntry q) := by
  induction ops using List.reverseRecOn with
  | nil => simp [run, Op.entry_create, sinceClear]
  | append_singleton ops op ih =>
    rw [run_append, sinceClear_append]
    by_cases hop : op.isQuery = true
    · have hc : ¬ op.isClearing = true := by
        cases op <;> simp_all [Op.isQuery, Op.isClearing]
      rw [if_neg hc, Op.entry_isSome_after L _ op hop q, ih]
      simp [List.any_append]
    · cases op <;> simp only [Op.isQuery, not_true_eq_false] at hop
      · simp [Op.exec, Op.isClearing, GlyphArrangementCache.clear_eq_create, Op.entry_create]
      · simp [Op.exec, Op.isClearing, GlyphArrangementCache.timerCallback,
          GlyphArrangementCache.clear_eq_create, Op.entry_create]
      · simp [Op.exec, Op.isClearing, ih, List.any_append, Op.sameEntry]

theorem recomputeCount_append {Font G : Type} [DecidableEq Font]
    (L : GlyphArrangementOps Font G) (ops : List (Op Font))
    (op : Op Font) (self : GlyphArrangementCache Font G) :
    recomputeCount L (ops ++ [op]) self =
      recomputeCount L ops self + (op.exec L (run L ops self)).layoutCalls := by
  induction ops generalizing self with
  | nil => simp [recomputeCount, effects, run]
  | cons o rest ih =>
    simp only [recomputeCount] at ih
    simp only [recomputeCount, List.cons_append, effects, run, List.map_cons,
      List.sum_cons, List.append_eq, ih]
    omega

theorem Op.mem_sinceClear_iff_entry {Font G : Type} [DecidableEq Font]
    (L : GlyphArrangementOps Font G) (ops : List (Op Font)) (q : Op Font)
    (hq : q.isQuery = true) (hn : q.nanFree = true) :
    q ∈ sinceClear ops ↔ (q.entry (run L ops GlyphArrangementCache.create)).isSome = true := by
  rw [Op.entry_run L ops q, List.any_eq_true]
  constructor
  · intro hmem
    exact ⟨q, hmem, Op.sameEntry_self hq hn⟩
  · rintro ⟨e, hmem, hs⟩
    rw [← Op.eq_of_sameEntry hs]
    exact hmem

/-- C3 (amended): after any sequence of calls on the freshly created cache, a
query none of whose floating-point parameters is NaN computes the layout
exactly once if the same query (the same family, font, text and key
parameters) was not made earlier, since the most recent `clear` or timer
callback (or since creation), and not at all otherwise. For every query, NaN
or not, the layout is computed exactly once if no earlier query of the family
since then has an equal font, an equal text and a key that compares equal
under the key's `operator==`, and not at all otherwise. In the scenario of the
specification (font `F`, text "Hello", single-line queries at (0, 10), again
at (0, 10), at (5, 10), then `clear` and (0, 10) again) the recompute counts
are 1, 1, 2 and, after the clear, 3. -/
theorem C3_layout_computed_iff_not_cached_since_clear {Font G : Type} [DecidableEq Font]
    (L : GlyphArrangementOps Font G) :
    (∀ (ops : List (Op Font)) (q : Op Font), q.isQuery = true → q.nanFree = true →
      (q.exec L (run L ops GlyphArrangementCache.create)).layoutCalls =
        if q ∈ sinceClear ops then 0 else 1)
    ∧ (∀ (ops : List (Op Font)) (q : Op Font), q.isQuery = true →
      (q.exec L (run L ops GlyphArrangementCache.create)).layoutCalls =
        if (sinceClear ops).any (fun e => e.sameEntry q) = true then 0 else 1)
    ∧ (∀ F : Font,
        recomputeCount L [Op.getSingleLineText F "Hello" 0 10] GlyphArrangementCache.create = 1
        ∧ recomputeCount L
            [Op.getSingleLineText F "Hello" 0 10, Op.getSingleLineText F "Hello" 0 10]
            GlyphArrangementCache.create = 1
        ∧ recomputeCount L
            [Op.getSingleLineText F "Hello" 0 10, Op.getSingleLineText F "Hello" 0 10,
              Op.getSingleLineText F "Hello" 5 10]
            GlyphArrangementCache.create = 2
        ∧ recomputeCount L
            [Op.getSingleLineText F "Hello" 0 10, Op.getSingleLineText F "Hello" 0 10,
              Op.getSingleLineText F "Hello" 5 10, Op.clear,
              Op.getSingleLineText F "Hello" 0 10]
            GlyphArrangementCache.create = 3) := by
  have main : ∀ (ops : List (Op Font)) (q : Op Font), q.isQuery = true →
      (q.exec L (run L ops GlyphArrangementCache.create)).layoutCalls =
        if (sinceClear ops).any (fun e => e.sameEntry q) = true then 0 else 1 := by
    intro ops q hq
    rw [Op.exec_layoutCalls L _ q hq, Op.entry_run]
  have exact : ∀ (ops : List (Op Font)) (q : Op Font), q.isQuery = true →
      q.nanFree = true →
      (q.exec L (run L ops GlyphArrangementCache.create)).layoutCalls =
        if q ∈ sinceClear ops then 0 else 1 := by
    intro ops q hq hn
    rw [Op.exec_layoutCalls L _ q hq]
    by_cases hmem : q ∈ sinceClear ops
    · rw [if_pos hmem, if_pos ((Op.mem_sinceClear_iff_entry L ops q hq hn).1 hmem)]
    · rw [if_neg hmem, if_neg (fun h => hmem ((Op.mem_sinceClear_iff_entry L ops q hq hn).2 h))]
  refine ⟨exact, main, ?_⟩
  intro F
  have h0 : recomputeCount L ([] : List (Op Font)) GlyphArrangementCache.create = 0 := rfl
  have h1 : recomputeCount L [Op.getSingleLineText F "Hello" 0 10]
      GlyphArrangementCache.create = 1 := by
    have := recomputeCount_append L [] (Op.getSingleLineText F "Hello" 0 10)
      GlyphArrangementCache.create
    rw [main [] (Op.getSingleLineText F "Hello" 0 10) rfl, h0] at this
    simpa [sinceClear] using this
  have h2 : recomputeCount L
      [Op.getSingleLineText F "Hello" 0 10, Op.getSingleLineText F "Hello" 0 10]
      GlyphArrangementCache.create = 1 := by
    have := recomputeCount_append L [Op.getSingleLineText F "Hello" 0 10]
      (Op.getSingleLineText F "Hello" 0 10) GlyphArrangementCache.create
    rw [main _ (Op.getSingleLineText F "Hello" 0 10) rfl, h1] at this
    simpa [sinceClear, Op.isClearing, Op.sameEntry, fontEq, stringEq,
      StartXAndBaselineY.opEq, intEq] using this
  have h3 : recomputeCount L
      [Op.getSingleLineText F "Hello" 0 10, Op.getSingleLineText F "Hello" 0 10,
        Op.getSingleLineText F "Hello" 5 10]
      GlyphArrangementCache.create = 2 := by
    have := recomputeCount_append L
      [Op.getSingleLineText F "Hello" 0 10, Op.getSingleLineText F "Hello" 0 10]
      (Op.getSingleLineText F "Hello" 5 10) GlyphArrangementCache.create
    rw [main _ (Op.getSingleLineText F "Hello" 5 10) rfl, h2] at this
    simpa [sinceClear, Op.isClearing, Op.sameEntry, fontEq, stringEq,
      StartXAndBaselineY.opEq, intEq] using this
  have h4 : recomputeCount L
      [Op.getSingleLineText F "Hello" 0 10, Op.getSingleLineText F "Hello" 0 10,
        Op.getSingleLineText F "Hello" 5 10, Op.clear]
      GlyphArrangementCache.create = 2 := by
    have := recomputeCount_append L
      [Op.getSingleLineText F "Hello" 0 10, Op.getSingleLineText F "Hello" 0 10,
        Op.getSingleLineText F "Hello" 5 10]
      Op.clear GlyphArrangementCache.create
    rw [h3] at this
    simpa [Op.exec] using this
  have h5 : recomputeCount L
      [Op.getSingleLineText F "Hello" 0 10, Op.getSingleLineText F "Hello" 0 10,
        Op.getSingleLineText F "Hello" 5 10, Op.clear, Op.getSingleLineText F "Hello" 0 10]
      GlyphArrangementCache.create = 3 := by
    have := recomputeCount_append L
      [Op.getSingleLineText F "Hello" 0 10, Op.getSingleLineText F "Hello" 0 10,
        Op.getSingleLineText F "Hello" 5 10, Op.clear]
      (Op.getSingleLineText F "Hello" 0 10) GlyphArrangementCache.create
    rw [main _ (Op.getSingleLineText F "Hello" 0 10) rfl, h4] at this
    simpa [sinceClear, Op.isClearing] using this
  exact ⟨h1, h2, h3, h5⟩

/-- C3 (amended), for the stub layout: after one single-line query, the same
query, which has no floating-point parameter, computes no layout. -/
theorem C3_layout_computed_iff_not_cached_since_clear_witness :
    ((Op.getSingleLineText 1 "Hello" 0 10).exec stubOps
        (run stubOps [Op.getSingleLineText 1 "Hello" 0 10]
          GlyphArrangementCache.create)).layoutCalls =
      if Op.getSingleLineText 1 "Hello" 0 10 ∈
          sinceClear [Op.getSingleLineText (1 : Nat) "Hello" 0 10] then 0 else 1 :=
  (C3_layout_computed_iff_not_cached_since_clear stubOps).1
    [Op.getSingleLineText 1 "Hello" 0 10] (Op.getSingleLineText 1 "Hello" 0 10) rfl rfl

/-- C3 as stated fails: after the fitted-text query for "Hi" with a NaN
minimum horizontal scale on the freshly created cache, the same query again
has an earlier query of its family with the same font, text and key
parameters since creation, and yet it computes the layout once more. -/
theorem C3_counterexample :
    Op.getFittedText (1 : Nat) "Hi" { x := 0, y := 0, w := 20, h := 20 } { flags := 4 } 3
        CFloat.nan ∈
      sinceClear
        [Op.getFittedText (1 : Nat) "Hi" { x := 0, y := 0, w := 20, h := 20 } { flags := 4 } 3
          CFloat.nan]
    ∧ ((Op.getFittedText 1 "Hi" { x := 0, y := 0, w := 20, h := 20 } { flags := 4 } 3
          CFloat.nan).exec stubOps
        (run stubOps
          [Op.getFittedText 1 "Hi" { x := 0, y := 0, w := 20, h := 20 } { flags := 4 } 3
            CFloat.nan]
          GlyphArrangementCache.create)).layoutCalls = 1 := by
  refine ⟨?_, ?_⟩
  · simp [sinceClear, Op.isClearing]
  · decide

/-- C4: key discrimination. Two queries of one family whose arguments differ
(in one parameter or more: the font, the text or any key parameter), made one
after the other on a state that holds an entry for neither, are both misses:
each computes the layout once, each returns the layout of its own arguments,
and afterwards the entry count of the family has grown by 2. -/
theorem C4_distinct_queries_do_not_collide {Font G : Type} [DecidableEq Font]
    (L : GlyphArrangementOps Font G)
    (self : GlyphArrangementCache Font G) (q1 q2 : Op Font) (fam : Family)
    (hf1 : q1.family = some fam) (hf2 : q2.family = some fam) (hne : q1 ≠ q2)
    (hm1 : q1.entry self = none) (hm2 : q2.entry self = none) :
    (q1.exec L self).layoutCalls = 1
    ∧ (q1.exec L self).arrangement = q1.fresh L
    ∧ (q2.exec L (q1.exec L self).cache).layoutCalls = 1
    ∧ (q2.exec L (q1.exec L self).cache).arrangement = q2.fresh L
    ∧ (q2.exec L (q1.exec L self).cache).cache.count fam = self.count fam + 2 := by
  have hq1 : q1.isQuery = true := by cases q1 <;> simp_all [Op.family, Op.isQuery]
  have hq2 : q2.isQuery = true := by cases q2 <;> simp_all [Op.family, Op.isQuery]
  have hs : ¬ q1.sameEntry q2 = true := fun h => hne (Op.eq_of_sameEntry h)
  have hm : q2.entry (q1.exec L self).cache = none := by
    rw [Op.entry_after_miss L self q1 hq1 hm1 q2, hm2]
    simp [hs]
  have e1 := Op.exec_miss L self q1 hq1 hm1
  have e2 := Op.exec_miss L (q1.exec L self).cache q2 hq2 hm
  refine ⟨e1.2.1, e1.1, e2.2.1, e2.1, ?_⟩
  rw [Op.count_after_miss L _ q2 hq2 hm fam, Op.count_after_miss L self q1 hq1 hm1 fam]
  simp [hf1, hf2]

/-- C4, for the stub layout on the freshly created cache: two single-line
queries whose `startX` differs by 1. -/
theorem C4_distinct_queries_do_not_collide_witness :
    ((Op.getSingleLineText 1 "Hello" 1 10).exec stubOps
        ((Op.getSingleLineText 1 "Hello" 0 10).exec stubOps
          GlyphArrangementCache.create).cache).cache.count Family.singleLineTexts =
      (GlyphArrangementCache.create : GlyphArrangementCache Nat Nat).count
        Family.singleLineTexts + 2 :=
  (C4_distinct_queries_do_not_collide stubOps GlyphArrangementCache.create
    (Op.getSingleLineText 1 "Hello" 0 10) (Op.getSingleLineText 1 "Hello" 1 10)
    Family.singleLineTexts rfl rfl (by simp) rfl rfl).2.2.2.2

theorem GlyphArrangementCache.getSingleLineText_frame {Font G : Type} [DecidableEq Font]
    (L : GlyphArrangementOps Font G)
    (self : GlyphArrangementCache Font G) (font : Font) (text : String)
    (startX baselineY : Int) :
    (self.getSingleLineText L font text startX baselineY).cache.multiLineTexts =
        self.multiLineTexts
    ∧ (self.getSingleLineText L font text startX baselineY).cache.texts = self.texts
    ∧ (self.getSingleLineText L font text startX baselineY).cache.fittedTexts =
        self.fittedTexts := by
  cases h : Cache.entry StartXAndBaselineY.opEq self.singleLineTexts font text
      { startX := startX, baselineY := baselineY } with
  | some v => simp [GlyphArrangementCache.getSingleLineText_hit L self _ _ _ _ v h]
  | none => simp [GlyphArrangementCache.getSingleLineText_miss L self _ _ _ _ h]

theorem GlyphArrangementCache.getMultiLineText_frame {Font G : Type} [DecidableEq Font]
    (L : GlyphArrangementOps Font G)
    (self : GlyphArrangementCache Font G) (font : Font) (text : String)
    (startX baselineY maximumLineWidth : Int) (justification : Justification) :
    (self.getMultiLineText L font text startX baselineY maximumLineWidth
        justification).cache.singleLineTexts = self.singleLineTexts
    ∧ (self.getMultiLineText L font text startX baselineY maximumLineWidth
        justification).cache.texts = self.texts
    ∧ (self.getMultiLineText L font text startX baselineY maximumLineWidth
        justification).cache.fittedTexts = self.fittedTexts := by
  cases h : Cache.entry MultiLineTextKey.opEq self.multiLineTexts font text
      { startXAndBaselineY := { startX := startX, baselineY := baselineY },
        maximumLineWidth := maximumLineWidth, justification := justification } with
  | some v => simp [GlyphArrangementCache.getMultiLineText_hit L self _ _ _ _ _ _ v h]
  | none => simp [GlyphArrangementCache.getMultiLineText_miss L self _ _ _ _ _ _ h]

theorem GlyphArrangementCache.getText_frame {Font G : Type} [DecidableEq Font]
    (L : GlyphArrangementOps Font G)
    (self : GlyphArrangementCache Font G) (font : Font) (text : String)
    (area : Rectangle CFloat) (justificationType : Justification)
    (useEllipsesIfTooBig : Bool) :
    (self.getText L font text area justificationType useEllipsesIfTooBig).cache.singleLineTexts
        = self.singleLineTexts
    ∧ (self.getText L font text area justificationType useEllipsesIfTooBig).cache.multiLineTexts
        = self.multiLineTexts
    ∧ (self.getText L font text area justificationType useEllipsesIfTooBig).cache.fittedTexts
        = self.fittedTexts := by
  cases h : Cache.entry TextKey.opEq self.texts font text
      { rectangleAndJustification := { area := area, justification := justificationType },
        useEllipsesIfTooBig := useEllipsesIfTooBig } with
  | some v => simp [GlyphArrangementCache.getText_hit L self _ _ _ _ _ v h]
  | none => simp [GlyphArrangementCache.getText_miss L self _ _ _ _ _ h]

theorem GlyphArrangementCache.getFittedText_frame {Font G : Type} [DecidableEq Font]
    (L : GlyphArrangementOps Font G)
    (self : GlyphArrangementCache Font G) (font : Font) (text : String)
    (area : Rectangle Int) (justification : Justification) (maximumNumberOfLines : Int)
    (minimumHorizontalScale : CFloat) :
    (self.getFittedText L font text area justification maximumNumberOfLines
        minimumHorizontalScale).cache.singleLineTexts = self.singleLineTexts
    ∧ (self.getFittedText L font text area justification maximumNumberOfLines
        minimumHorizontalScale).cache.multiLineTexts = self.multiLineTexts
    ∧ (self.getFittedText L font text area justification maximumNumberOfLines
        minimumHorizontalScale).cache.texts = self.texts := by
  cases h : Cache.entry FittedTextKey.opEq self.fittedTexts font text
      { rectangleAndJustification := { area := area, justification := justification },
        maximumNumberOfLines := maximumNumberOfLines,
        minimumHorizontalScale := minimumHorizontalScale } with
  | some v => simp [GlyphArrangementCache.getFittedText_hit L self _ _ _ _ _ _ v h]
  | none => simp [GlyphArrangementCache.getFittedText_miss L self _ _ _ _ _ _ h]

theorem Op.entry_other_family {Font G : Type} [DecidableEq Font] (L : GlyphArrangementOps Font G)
    (self : GlyphArrangementCache Font G) (q q1 : Op Font) (hq : q.isQuery = true)
    (hf : q.family ≠ q1.family) :
    q1.entry (q.exec L self).cache = q1.entry self
    ∧ ∀ fam, q1.family = some fam → (q.exec L self).cache.count fam = self.count fam := by
  cases q <;> simp only [Op.isQuery, Bool.false_eq_true] at hq <;>
    cases q1 <;> simp only [Op.family, ne_eq, not_true_eq_false] at hf <;>
    refine ⟨?_, ?_⟩ <;>
    first
    | rfl
    | (intro fam hfam
       simp only [Op.family, Option.some.injEq] at hfam
       first
       | (subst hfam
          simp [Op.exec, Step.toEffect, GlyphArrangementCache.count,
            GlyphArrangementCache.getSingleLineText_frame,
            GlyphArrangementCache.getMultiLineText_frame,
            GlyphArrangementCache.getText_frame,
            GlyphArrangementCache.getFittedText_frame])
       | exact absurd hfam (by simp))
    | simp [Op.exec, Step.toEffect, Op.entry,
        GlyphArrangementCache.getSingleLineText_frame,
        GlyphArrangementCache.getMultiLineText_frame,
        GlyphArrangementCache.getText_frame,
        GlyphArrangementCache.getFittedText_frame]

/-- C5: cross-family independence. Each query method leaves the tables of the
other three families unchanged; hence a query in one family never changes
what a query of another family finds (it cannot turn a later query of another
family into a hit, nor a hit into a miss), nor the entry count of that other
family. -/
theorem C5_other_families_untouched {Font G : Type} [DecidableEq Font]
    (L : GlyphArrangementOps Font G)
    (self : GlyphArrangementCache Font G) :
    (∀ font text startX baselineY,
        (self.getSingleLineText L font text startX baselineY).cache.multiLineTexts =
            self.multiLineTexts
        ∧ (self.getSingleLineText L font text startX baselineY).cache.texts = self.texts
        ∧ (self.getSingleLineText L font text startX baselineY).cache.fittedTexts =
            self.fittedTexts)
    ∧ (∀ font text startX baselineY maximumLineWidth justification,
        (self.getMultiLineText L font text startX baselineY maximumLineWidth
            justification).cache.singleLineTexts = self.singleLineTexts
        ∧ (self.getMultiLineText L font text startX baselineY maximumLineWidth
            justification).cache.texts = self.texts
        ∧ (self.getMultiLineText L font text startX baselineY maximumLineWidth
            justification).cache.fittedTexts = self.fittedTexts)
    ∧ (∀ font text area justificationType useEllipsesIfTooBig,
        (self.getText L font text area justificationType
            useEllipsesIfTooBig).cache.singleLineTexts = self.singleLineTexts
        ∧ (self.getText L font text area justificationType
            useEllipsesIfTooBig).cache.multiLineTexts = self.multiLineTexts
        ∧ (self.getText L font text area justificationType
            useEllipsesIfTooBig).cache.fittedTexts = self.fittedTexts)
    ∧ (∀ font text area justification maximumNumberOfLines minimumHorizontalScale,
        (self.getFittedText L font text area justification maximumNumberOfLines
            minimumHorizontalScale).cache.singleLineTexts = self.singleLineTexts
        ∧ (self.getFittedText L font text area justification maximumNumberOfLines
            minimumHorizontalScale).cache.multiLineTexts = self.multiLineTexts
        ∧ (self.getFittedText L font text area justification maximumNumberOfLines
            minimumHorizontalScale).cache.texts = self.texts)
    ∧ (∀ q q1 : Op Font, q.isQuery = true → q1.isQuery = true → q.family ≠ q1.family →
        q1.entry (q.exec L self).cache = q1.entry self
        ∧ (q1.exec L (q.exec L self).cache).layoutCalls = (q1.exec L self).layoutCalls
        ∧ ∀ fam, q1.family = some fam →
            (q.exec L self).cache.count fam = self.count fam) := by
  refine ⟨GlyphArrangementCache.getSingleLineText_frame L self,
    GlyphArrangementCache.getMultiLineText_frame L self,
    GlyphArrangementCache.getText_frame L self,
    GlyphArrangementCache.getFittedText_frame L self, ?_⟩
  intro q q1 hq hq1 hf
  have h := Op.entry_other_family L self q q1 hq hf
  refine ⟨h.1, ?_, h.2⟩
  rw [Op.exec_layoutCalls L _ q1 hq1, Op.exec_layoutCalls L self q1 hq1, h.1]

/-- C5, for the stub layout: after a single-line query on the freshly created
cache, a multi-line query with the same font and text still finds nothing. -/
theorem C5_other_families_untouched_witness :
    (Op.getMultiLineText 1 "Hello" 0 10 100 { flags := 1 }).entry
        ((Op.getSingleLineText 1 "Hello" 0 10).exec stubOps
          GlyphArrangementCache.create).cache =
      (Op.getMultiLineText 1 "Hello" 0 10 100 { flags := 1 }).entry
        (GlyphArrangementCache.create : GlyphArrangementCache Nat Nat) :=
  ((C5_other_families_untouched stubOps GlyphArrangementCache.create).2.2.2.2
    (Op.getSingleLineText 1 "Hello" 0 10)
    (Op.getMultiLineText 1 "Hello" 0 10 100 { flags := 1 }) rfl rfl (by simp [Op.family])).1

/-- C6: from every state, after `clear` all four tables are empty, so that
every family has entry count 0 and `getStatus` reports 0 for each of them, and
the timer is not running. -/
theorem C6_clear_empties_everything {Font G : Type} (self : GlyphArrangementCache Font G) :
    self.clear.singleLineTexts = []
    ∧ self.clear.multiLineTexts = []
    ∧ self.clear.texts = []
    ∧ self.clear.fittedTexts = []
    ∧ (∀ fam, self.clear.count fam = 0)
    ∧ self.clear.getStatus =
        "GlyphArrangementCache status: singleLineTexts: 0. multiLineTexts: 0. texts: 0. fittedTexts: 0"
    ∧ self.clear.isTimerRunning = false := by
  refine ⟨rfl, rfl, rfl, rfl, ?_, ?_, rfl⟩
  · intro fam
    cases fam <;> rfl
  · rw [GlyphArrangementCache.clear_eq_create]
    simp only [GlyphArrangementCache.getStatus, GlyphArrangementCache.create, getCacheSize,
      List.foldl_nil]
    decide

theorem unordered_map.mem_assign_of_mem {K V : Type} (eq : K → K → Bool)
    (m : unordered_map K V) (key : K) (w : V) (p : K × V) (h : p ∈ m) :
    p ∈ unordered_map.assign eq m key w
      ∨ (unordered_map.find eq m key = some p.2
          ∧ (p.1, w) ∈ unordered_map.assign eq m key w) := by
  induction m with
  | nil => simp at h
  | cons p0 rest ih =>
    obtain ⟨k0, v0⟩ := p0
    by_cases hk : eq key k0 = true
    · rcases List.mem_cons.mp h with h0 | h0
      · right
        rw [h0]
        simp [unordered_map.find, unordered_map.assign, hk]
      · left
        simp only [unordered_map.assign, hk, if_true]
        exact List.mem_cons_of_mem _ h0
    · rcases List.mem_cons.mp h with h0 | h0
      · left
        rw [h0]
        simp [unordered_map.assign, hk]
      · rcases ih h0 with h1 | h1
        · left
          simp only [unordered_map.assign, hk, if_false]
          exact List.mem_cons_of_mem _ h1
        · right
          simp only [unordered_map.find, unordered_map.assign, hk, if_false]
          exact ⟨h1.1, List.mem_cons_of_mem _ h1.2⟩

theorem unordered_map.mem_alter_of_mem {K V : Type} (eq : K → K → Bool)
    (m : unordered_map K V) (key : K) (g : Option V → V) (p : K × V) (h : p ∈ m) :
    p ∈ unordered_map.alter eq m key g
      ∨ (p.1, g (some p.2)) ∈ unordered_map.alter eq m key g := by
  unfold unordered_map.alter
  cases hf : unordered_map.find eq m key with
  | none =>
    left
    simp [h]
  | some v =>
    simp only
    rcases unordered_map.mem_assign_of_mem eq m key (g (some v)) p h with h1 | h1
    · exact Or.inl h1
    · right
      have hv : v = p.2 := by
        have := h1.1
        rw [hf] at this
        exact Option.some.inj this
      rw [← hv]
      exact h1.2

theorem Cache.stores_added_of_stores {Font K G : Type} [DecidableEq Font]
    (tbl : Cache Font K G) (font : Font) (text : String) (key : K) (arr : G)
    (font1 : Font) (text1 : String) (key1 : K) (v : G)
    (h : Cache.Stores tbl font1 text1 key1 v) :
    Cache.Stores (Cache.added tbl font text key arr) font1 text1 key1 v := by
  obtain ⟨byText, inner, h1, h2, h3⟩ := h
  unfold Cache.Stores Cache.added
  rcases unordered_map.mem_alter_of_mem fontEq tbl font
      (fun byText => unordered_map.alter stringEq (byText.getD []) text
        (fun inner => inner.getD [] ++ [(key, arr)])) (font1, byText) h1 with h4 | h4
  · exact ⟨byText, inner, h4, h2, h3⟩
  · simp only [Option.getD_some] at h4
    rcases unordered_map.mem_alter_of_mem stringEq byText text
        (fun inner => inner.getD [] ++ [(key, arr)]) (text1, inner) h2 with h5 | h5
    · exact ⟨_, inner, h4, h5, h3⟩
    · simp only [Option.getD_some] at h5
      exact ⟨_, _, h4, h5, by simp [h3]⟩

theorem GlyphArrangementCache.storedIn_refl {Font G : Type}
    (self : GlyphArrangementCache Font G) : self.storedIn self :=
  ⟨fun _ _ _ _ h => h, fun _ _ _ _ h => h, fun _ _ _ _ h => h, fun _ _ _ _ h => h⟩

theorem Op.storedIn_exec {Font G : Type} [DecidableEq Font] (L : GlyphArrangementOps Font G)
    (self : GlyphArrangementCache Font G) (q : Op Font) (hq : q.isQuery = true) :
    self.storedIn (q.exec L self).cache := by
  cases h : q.entry self with
  | some v =>
    rw [Op.exec_hit L self q v h]
    exact GlyphArrangementCache.storedIn_refl self
  | none =>
    cases q <;> simp only [Op.isQuery, Bool.false_eq_true] at hq <;>
      simp only [Op.entry] at h
    · rw [Op.exec, GlyphArrangementCache.getSingleLineText_miss L self _ _ _ _ h]
      exact ⟨fun _ _ _ _ h1 => Cache.stores_added_of_stores _ _ _ _ _ _ _ _ _ h1,
        fun _ _ _ _ h1 => h1, fun _ _ _ _ h1 => h1, fun _ _ _ _ h1 => h1⟩
    · rw [Op.exec, GlyphArrangementCache.getMultiLineText_miss L self _ _ _ _ _ _ h]
      exact ⟨fun _ _ _ _ h1 => h1,
        fun _ _ _ _ h1 => Cache.stores_added_of_stores _ _ _ _ _ _ _ _ _ h1,
        fun _ _ _ _ h1 => h1, fun _ _ _ _ h1 => h1⟩
    · rw [Op.exec, GlyphArrangementCache.getText_miss L self _ _ _ _ _ h]
      exact ⟨fun _ _ _ _ h1 => h1, fun _ _ _ _ h1 => h1,
        fun _ _ _ _ h1 => Cache.stores_added_of_stores _ _ _ _ _ _ _ _ _ h1,
        fun _ _ _ _ h1 => h1⟩
    · rw [Op.exec, GlyphArrangementCache.getFittedText_miss L self _ _ _ _ _ _ h]
      exact ⟨fun _ _ _ _ h1 => h1, fun _ _ _ _ h1 => h1, fun _ _ _ _ h1 => h1,
        fun _ _ _ _ h1 => Cache.stores_added_of_stores _ _ _ _ _ _ _ _ _ h1⟩

/-- C7: a query never changes or removes an entry: every entry of any of the
four tables before the call is an entry afterwards, with the same arrangement,
both as what a lookup finds and as what the table stores (also under a key
that no lookup can find). When the query is a miss, exactly one entry is
added: the entry count of the family of the query grows by exactly 1 and the
other three counts are unchanged. -/
theorem C7_miss_only_adds {Font G : Type} [DecidableEq Font] (L : GlyphArrangementOps Font G)
    (self : GlyphArrangementCache Font G) (q : Op Font) (hq : q.isQuery = true) :
    self.keptIn (q.exec L self).cache
    ∧ (q.entry self = none →
        ∀ fam, (q.exec L self).cache.count fam =
          self.count fam + (if q.family = some fam then 1 else 0))
    ∧ self.storedIn (q.exec L self).cache :=
  ⟨Op.keptIn_exec L self q hq, fun h fam => Op.count_after_miss L self q hq h fam,
    Op.storedIn_exec L self q hq⟩

/-- C7, for the stub layout: a second, different single-line query after a
first one keeps the first entry. -/
theorem C7_miss_only_adds_witness :
    ((Op.getSingleLineText 1 "Hello" 0 10).exec stubOps
        GlyphArrangementCache.create).cache.keptIn
      ((Op.getSingleLineText 1 "Hello" 5 10).exec stubOps
        ((Op.getSingleLineText 1 "Hello" 0 10).exec stubOps
          GlyphArrangementCache.create).cache).cache :=
  (C7_miss_only_adds stubOps
    ((Op.getSingleLineText 1 "Hello" 0 10).exec stubOps GlyphArrangementCache.create).cache
    (Op.getSingleLineText 1 "Hello" 5 10) rfl).1

theorem Op.exec_timer {Font G : Type} [DecidableEq Font] (L : GlyphArrangementOps Font G)
    (self : GlyphArrangementCache Font G) (q : Op Font) (hq : q.isQuery = true) :
    (q.exec L self).startTimerCalls =
        (if ((q.entry self).isNone && !self.isTimerRunning) = true then [5000] else [])
    ∧ (q.exec L self).cache.timer =
        (if ((q.entry self).isNone && !self.isTimerRunning) = true then some 5000
          else self.timer) := by
  cases h : q.entry self with
  | some v => simp [Op.exec_hit L self q v h]
  | none =>
    have e := Op.exec_miss L self q hq h
    rw [e.2.2.1, e.2.2.2]
    cases ht : self.timer <;>
      simp [GlyphArrangementCache.isTimerRunning, ht, timerIntervalMilliseconds]

theorem Op.exec_of_layoutCalls_zero {Font G : Type} [DecidableEq Font]
    (L : GlyphArrangementOps Font G)
    (self : GlyphArrangementCache Font G) (q : Op Font) (hq : q.isQuery = true)
    (h0 : (q.exec L self).layoutCalls = 0) :
    (q.exec L self).cache = self ∧ (q.exec L self).startTimerCalls = [] := by
  cases h : q.entry self with
  | some v => simp [Op.exec_hit L self q v h]
  | none =>
    rw [(Op.exec_miss L self q hq h).2.1] at h0
    exact absurd h0 (by simp)

theorem Op.entry_of_layoutCalls_one {Font G : Type} [DecidableEq Font]
    (L : GlyphArrangementOps Font G)
    (self : GlyphArrangementCache Font G) (q : Op Font) (hq : q.isQuery = true)
    (h1 : (q.exec L self).layoutCalls = 1) : (q.entry self).isNone = true := by
  rw [Op.exec_layoutCalls L self q hq] at h1
  cases h : q.entry self with
  | some v => simp [h] at h1
  | none => rfl

theorem effects_running {Font G : Type} [DecidableEq Font]
    (L : GlyphArrangementOps Font G) (qs : List (Op Font))
    (hqs : ∀ q ∈ qs, q.isQuery = true) (self : GlyphArrangementCache Font G)
    (hr : self.isTimerRunning = true) :
    ∀ x ∈ effects L qs self, x.startTimerCalls = [] := by
  induction qs generalizing self with
  | nil => simp [effects]
  | cons q rest ih =>
    have hq := hqs q (List.mem_cons_self _ _)
    have ht := Op.exec_timer L self q hq
    simp only [hr, Bool.not_true, Bool.and_false, Bool.false_eq_true, if_false] at ht
    intro x hx
    simp only [effects, List.mem_cons] at hx
    rcases hx with rfl | hx
    · exact ht.1
    · refine ih (fun r hr1 => hqs r (List.mem_cons_of_mem _ hr1)) _ ?_ x hx
      simp only [GlyphArrangementCache.isTimerRunning, ht.2]
      exact hr

theorem startTimerCalls_running {Font G : Type} [DecidableEq Font]
    (L : GlyphArrangementOps Font G) (qs : List (Op Font))
    (hqs : ∀ q ∈ qs, q.isQuery = true) (self : GlyphArrangementCache Font G)
    (hr : self.isTimerRunning = true) : startTimerCalls L qs self = [] := by
  induction qs generalizing self with
  | nil => rfl
  | cons q rest ih =>
    have hq := hqs q (List.mem_cons_self _ _)
    have ht := Op.exec_timer L self q hq
    simp only [hr, Bool.not_true, Bool.and_false, Bool.false_eq_true, if_false] at ht
    have hr1 : (q.exec L self).cache.isTimerRunning = true := by
      simp only [GlyphArrangementCache.isTimerRunning, ht.2]
      exact hr
    simp [startTimerCalls, ht.1, ih (fun r hr2 => hqs r (List.mem_cons_of_mem _ hr2)) _ hr1]

theorem startTimerCalls_stopped {Font G : Type} [DecidableEq Font]
    (L : GlyphArrangementOps Font G) (qs : List (Op Font))
    (hqs : ∀ q ∈ qs, q.isQuery = true) (self : GlyphArrangementCache Font G)
    (hr : self.isTimerRunning = false) :
    startTimerCalls L qs self = if recomputeCount L qs self = 0 then [] else [5000] := by
  induction qs generalizing self with
  | nil => rfl
  | cons q rest ih =>
    have hq := hqs q (List.mem_cons_self _ _)
    have hrest : ∀ r ∈ rest, r.isQuery = true := fun r hr2 => hqs r (List.mem_cons_of_mem _ hr2)
    have ht := Op.exec_timer L self q hq
    have hl := Op.exec_layoutCalls L self q hq
    cases h : q.entry self with
    | some v =>
      have hc : (q.exec L self).cache = self := by rw [Op.exec_hit L self q v h]
      simp only [h, Option.isSome_some, if_true] at hl
      simp only [h, Option.isNone_some, Bool.false_and, Bool.false_eq_true, if_false] at ht
      have := ih hrest self hr
      simp only [recomputeCount] at this
      simp [startTimerCalls, recomputeCount, effects, ht.1, hc, hl, this]
    | none =>
      simp only [h, Option.isSome_none, Bool.false_eq_true, if_false] at hl
      simp only [h, hr, Option.isNone_none, Bool.not_false, Bool.and_self, if_true] at ht
      have hr1 : (q.exec L self).cache.isTimerRunning = true := by
        simp [GlyphArrangementCache.isTimerRunning, ht.2]
      simp [startTimerCalls, recomputeCount, effects, ht.1, hl,
        startTimerCalls_running L rest hrest _ hr1]

theorem effects_first_miss {Font G : Type} [DecidableEq Font]
    (L : GlyphArrangementOps Font G) (qs : List (Op Font))
    (hqs : ∀ q ∈ qs, q.isQuery = true) (self : GlyphArrangementCache Font G)
    (hr : self.isTimerRunning = false) (pre : List (Effect Font G)) (e : Effect Font G)
    (post : List (Effect Font G)) (hsplit : effects L qs self = pre ++ e :: post)
    (hpre : ∀ x ∈ pre, x.layoutCalls = 0) (he : e.layoutCalls = 1) :
    e.startTimerCalls = [5000]
      ∧ (∀ x ∈ pre, x.startTimerCalls = []) ∧ (∀ x ∈ post, x.startTimerCalls = []) := by
  induction qs generalizing self pre with
  | nil => simp [effects] at hsplit
  | cons q rest ih =>
    have hq := hqs q (List.mem_cons_self _ _)
    have hrest : ∀ r ∈ rest, r.isQuery = true := fun r hr2 => hqs r (List.mem_cons_of_mem _ hr2)
    cases pre with
    | nil =>
      simp only [effects, List.nil_append, List.cons.injEq] at hsplit
      obtain ⟨h1, h2⟩ := hsplit
      subst h1
      have hn := Op.entry_of_layoutCalls_one L self q hq he
      have ht := Op.exec_timer L self q hq
      simp only [hn, hr, Bool.not_false, Bool.and_self, if_true] at ht
      refine ⟨ht.1, by simp, ?_⟩
      rw [← h2]
      exact effects_running L rest hrest _
        (by simp [GlyphArrangementCache.isTimerRunning, ht.2])
    | cons p pre1 =>
      simp only [effects, List.cons_append, List.cons.injEq] at hsplit
      obtain ⟨h1, h2⟩ := hsplit
      have hp0 : (q.exec L self).layoutCalls = 0 := by
        rw [h1]
        exact hpre p (List.mem_cons_self _ _)
      have hz := Op.exec_of_layoutCalls_zero L self q hq hp0
      rw [hz.1] at h2
      have := ih hrest self hr pre1 h2 (fun x hx => hpre x (List.mem_cons_of_mem _ hx))
      refine ⟨this.1, ?_, this.2.2⟩
      intro x hx
      simp only [List.mem_cons] at hx
      rcases hx with rfl | hx
      · rw [← h1]
        exact hz.2
      · exact this.2.1 x hx

/-- C8: the timer interval is 5000 ms, and a query calls `startTimer` (once,
with 5000) exactly when it is a miss and the timer is not running; a miss
while the timer runs and a hit make no call and leave the timer as it is.
Hence in a run of queries that starts with the timer not running (no `clear`
or timer callback in between), `startTimer` is called exactly once if some
query of the run is a miss and never otherwise; the call is made by the first
miss, no query before or after it making one; and in a run that follows a
`clear` the first query is that miss. -/
theorem C8_timer_started_once_by_first_miss {Font G : Type} [DecidableEq Font]
    (L : GlyphArrangementOps Font G) :
    timerIntervalMilliseconds = 5000
    ∧ (∀ (self : GlyphArrangementCache Font G) (q : Op Font), q.isQuery = true →
        (q.exec L self).startTimerCalls =
            (if ((q.entry self).isNone && !self.isTimerRunning) = true then [5000] else [])
        ∧ (q.exec L self).cache.timer =
            (if ((q.entry self).isNone && !self.isTimerRunning) = true then some 5000
              else self.timer))
    ∧ (∀ (self : GlyphArrangementCache Font G) (qs : List (Op Font)),
        (∀ q ∈ qs, q.isQuery = true) → self.isTimerRunning = false →
        startTimerCalls L qs self = if recomputeCount L qs self = 0 then [] else [5000])
    ∧ (∀ (self : GlyphArrangementCache Font G) (qs : List (Op Font)),
        (∀ q ∈ qs, q.isQuery = true) → self.isTimerRunning = false →
        ∀ (pre : List (Effect Font G)) (e : Effect Font G) (post : List (Effect Font G)),
          effects L qs self = pre ++ e :: post →
          (∀ x ∈ pre, x.layoutCalls = 0) → e.layoutCalls = 1 →
          e.startTimerCalls = [5000]
            ∧ (∀ x ∈ pre, x.startTimerCalls = []) ∧ (∀ x ∈ post, x.startTimerCalls = []))
    ∧ (∀ (self : GlyphArrangementCache Font G) (q : Op Font) (rest : List (Op Font)),
        q.isQuery = true → (∀ r ∈ rest, r.isQuery = true) →
        (q.exec L self.clear).layoutCalls = 1
          ∧ startTimerCalls L (q :: rest) self.clear = [5000]) := by
  refine ⟨rfl, fun self q hq => Op.exec_timer L self q hq,
    fun self qs hqs hr => startTimerCalls_stopped L qs hqs self hr,
    fun self qs hqs hr pre e post hsplit hpre he =>
      effects_first_miss L qs hqs self hr pre e post hsplit hpre he, ?_⟩
  intro self q rest hq hrest
  have hl : (q.exec L self.clear).layoutCalls = 1 := by
    rw [Op.exec_layoutCalls L _ q hq, GlyphArrangementCache.clear_eq_create, Op.entry_create]
    rfl
  refine ⟨hl, ?_⟩
  have hqs : ∀ r ∈ q :: rest, r.isQuery = true := by
    intro r hr
    simp only [List.mem_cons] at hr
    rcases hr with rfl | hr
    · exact hq
    · exact hrest r hr
  rw [startTimerCalls_stopped L (q :: rest) hqs self.clear rfl]
  have : recomputeCount L (q :: rest) self.clear ≠ 0 := by
    simp only [recomputeCount, effects, List.map_cons, List.sum_cons, hl]
    omega
  simp [this]

/-- C8, for the stub layout: in the run of three single-line queries that
follows a `clear` (a miss, a hit, a miss), `startTimer` is called once. -/
theorem C8_timer_started_once_by_first_miss_witness :
    startTimerCalls stubOps
        [Op.getSingleLineText 1 "Hello" 0 10, Op.getSingleLineText 1 "Hello" 0 10,
          Op.getSingleLineText 1 "Hello" 5 10]
        (GlyphArrangementCache.create : GlyphArrangementCache Nat Nat).clear = [5000] :=
  ((C8_timer_started_once_by_first_miss stubOps).2.2.2.2 GlyphArrangementCache.create
    (Op.getSingleLineText 1 "Hello" 0 10)
    [Op.getSingleLineText 1 "Hello" 0 10, Op.getSingleLineText 1 "Hello" 5 10] rfl
    (by decide)).2

/-- C9: from every state, whatever entries exist, the timer callback produces
exactly the state that `clear` produces: the four tables empty and the timer
not running. -/
theorem C9_timerCallback_is_clear {Font G : Type} (self : GlyphArrangementCache Font G) :
    self.timerCallback = self.clear
    ∧ self.timerCallback.singleLineTexts = []
    ∧ self.timerCallback.multiLineTexts = []
    ∧ self.timerCallback.texts = []
    ∧ self.timerCallback.fittedTexts = []
    ∧ self.timerCallback.isTimerRunning = false :=
  ⟨rfl, rfl, rfl, rfl, rfl, rfl⟩

/-- C10: `getStatus` leaves the object (every table and the timer) as it is
and returns "GlyphArrangementCache status: singleLineTexts: a. multiLineTexts:
b. texts: c. fittedTexts: d", where a, b, c and d are, in decimal, the entry
counts of the four tables in this order: the sum over all Font buckets and all
their text buckets of the number of keys in the bucket. -/
theorem C10_getStatus_reports_entry_counts {Font G : Type} [DecidableEq Font]
    (L : GlyphArrangementOps Font G)
    (self : GlyphArrangementCache Font G) :
    (Op.getStatus.exec L self).cache = self
    ∧ (Op.getStatus.exec L self).status = some self.getStatus
    ∧ self.getStatus =
        "GlyphArrangementCache status: singleLineTexts: "
          ++ toString ((self.singleLineTexts.map fun p1 =>
              (p1.2.map fun p2 => p2.2.length).sum).sum)
          ++ ". multiLineTexts: "
          ++ toString ((self.multiLineTexts.map fun p1 =>
              (p1.2.map fun p2 => p2.2.length).sum).sum)
          ++ ". texts: "
          ++ toString ((self.texts.map fun p1 =>
              (p1.2.map fun p2 => p2.2.length).sum).sum)
          ++ ". fittedTexts: "
          ++ toString ((self.fittedTexts.map fun p1 =>
              (p1.2.map fun p2 => p2.2.length).sum).sum) := by
  refine ⟨rfl, rfl, ?_⟩
  simp only [GlyphArrangementCache.getStatus, getCacheSize_eq_total]
  rfl

/-! ## Fonts with equal hashes, and clearing twice -/

theorem Op.withFont_ne {Font : Type} (q : Op Font) (hq : q.isQuery = true) (f1 f2 : Font)
    (hne : f1 ≠ f2) : q.withFont f1 ≠ q.withFont f2 := by
  cases q <;> simp only [Op.isQuery, Bool.false_eq_true] at hq <;>
    simp [Op.withFont, hne]

theorem Op.withFont_isQuery {Font : Type} (q : Op Font) (hq : q.isQuery = true) (f : Font) :
    (q.withFont f).isQuery = true := by
  cases q <;> simp only [Op.isQuery, Bool.false_eq_true] at hq <;> rfl

theorem Op.entry_none_after_other {Font G : Type} [DecidableEq Font]
    (L : GlyphArrangementOps Font G) (self : GlyphArrangementCache Font G) (q1 q2 : Op Font)
    (hq1 : q1.isQuery = true) (hne : q1 ≠ q2) (hm : q2.entry self = none) :
    q2.entry (q1.exec L self).cache = none := by
  have hs : ¬ q1.sameEntry q2 = true := fun h => hne (Op.eq_of_sameEntry h)
  cases h : q1.entry self with
  | some v =>
    rw [Op.exec_hit L self q1 v h]
    exact hm
  | none =>
    rw [Op.entry_after_miss L self q1 hq1 h q2, hm]
    simp [hs]

/-- C11: two fonts that are not equal as Fonts but agree on the length of the
typeface name, the height and the style flags have the same `FontHash`, and
they do not share cache entries: on a state that holds no entry for the query
with font `f2`, after the same query (same text and parameters) with font `f1`
the query with `f2` is still a miss; it computes the layout once and returns
the layout of `f2`. -/
theorem C11_equal_hash_fonts_do_not_share {G : Type}
    (L : GlyphArrangementOps FontState G) (hashInt : Int → Nat) (hashFloat : CFloat → Nat)
    (self : GlyphArrangementCache FontState G) (q : Op FontState) (f1 f2 : FontState)
    (hq : q.isQuery = true) (hne : f1 ≠ f2)
    (hlen : f1.getTypefaceName.length = f2.getTypefaceName.length)
    (hheight : f1.getHeight = f2.getHeight)
    (hflags : f1.getStyleFlags = f2.getStyleFlags)
    (hm : (q.withFont f2).entry self = none) :
    FontHash hashInt hashFloat f1 = FontHash hashInt hashFloat f2
    ∧ (q.withFont f2).entry ((q.withFont f1).exec L self).cache = none
    ∧ ((q.withFont f2).exec L ((q.withFont f1).exec L self).cache).layoutCalls = 1
    ∧ ((q.withFont f2).exec L ((q.withFont f1).exec L self).cache).arrangement =
        (q.withFont f2).fresh L := by
  have h1 := Op.entry_none_after_other L self (q.withFont f1) (q.withFont f2)
    (Op.withFont_isQuery q hq f1) (Op.withFont_ne q hq f1 f2 hne) hm
  have e := Op.exec_miss L ((q.withFont f1).exec L self).cache (q.withFont f2)
    (Op.withFont_isQuery q hq f2) h1
  refine ⟨?_, h1, e.2.1, e.1⟩
  simp only [FontHash, hlen, hheight, hflags]

/-- C11, for the fonts "Arial" and "Times" of height 12 without style flags,
on the freshly created cache: the single-line query for "Hello" with "Times"
after the same query with "Arial" returns the layout made with "Times". -/
theorem C11_equal_hash_fonts_do_not_share_witness :
    FontHash (fun i => i.toNat) (fun _ => 0)
        { typefaceName := "Arial", height := CFloat.finite 12, styleFlags := 0 } =
      FontHash (fun i => i.toNat) (fun _ => 0)
        { typefaceName := "Times", height := CFloat.finite 12, styleFlags := 0 }
    ∧ ((Op.getSingleLineText
          { typefaceName := "Times", height := CFloat.finite 12, styleFlags := 0 }
          "Hello" 0 10).exec fontStubOps
        ((Op.getSingleLineText
          { typefaceName := "Arial", height := CFloat.finite 12, styleFlags := 0 }
          "Hello" 0 10).exec fontStubOps GlyphArrangementCache.create).cache).arrangement =
      some [("Times", "Hello")] :=
  have h := C11_equal_hash_fonts_do_not_share fontStubOps (fun i => i.toNat) (fun _ => 0)
    GlyphArrangementCache.create
    (Op.getSingleLineText
      { typefaceName := "Arial", height := CFloat.finite 12, styleFlags := 0 } "Hello" 0 10)
    { typefaceName := "Arial", height := CFloat.finite 12, styleFlags := 0 }
    { typefaceName := "Times", height := CFloat.finite 12, styleFlags := 0 }
    rfl (by decide) (by decide) rfl rfl rfl
  ⟨h.1, h.2.2.2⟩

/-- C12: `clear` is safe on an empty cache and idempotent. On a state whose
four tables are empty it leaves the four tables as they are and sets the timer
to not running; for every state, clearing twice gives the state that clearing
once gives; and `clear` on the freshly created cache returns that same state. -/
theorem C12_clear_idempotent {Font G : Type} :
    (∀ self : GlyphArrangementCache Font G,
        self.singleLineTexts = [] → self.multiLineTexts = [] → self.texts = [] →
        self.fittedTexts = [] →
        self.clear.singleLineTexts = self.singleLineTexts
          ∧ self.clear.multiLineTexts = self.multiLineTexts
          ∧ self.clear.texts = self.texts
          ∧ self.clear.fittedTexts = self.fittedTexts
          ∧ self.clear.timer = none
          ∧ self.clear = { self with timer := none })
    ∧ (∀ self : GlyphArrangementCache Font G, self.clear.clear = self.clear)
    ∧ (GlyphArrangementCache.create : GlyphArrangementCache Font G).clear =
        GlyphArrangementCache.create := by
  refine ⟨?_, fun _ => rfl, rfl⟩
  intro self h1 h2 h3 h4
  refine ⟨h1.symm ▸ rfl, h2.symm ▸ rfl, h3.symm ▸ rfl, h4.symm ▸ rfl, rfl, ?_⟩
  cases self
  simp_all [GlyphArrangementCache.clear, GlyphArrangementCache.stopTimer]

/-- C12, on the empty cache whose timer runs with the stub layout types. -/
theorem C12_clear_idempotent_witness :
    ({ singleLineTexts := [], multiLineTexts := [], texts := [], fittedTexts := [],
        timer := some 5000 } : GlyphArrangementCache Nat Nat).clear.timer = none :=
  ((C12_clear_idempotent.1
    ({ singleLineTexts := [], multiLineTexts := [], texts := [], fittedTexts := [],
        timer := some 5000 } : GlyphArrangementCache Nat Nat) rfl rfl rfl rfl).2.2.2.2).1

/-! ## Degenerate inputs, the singleton, the thread assertion -/

theorem Op.exec_twice {Font G : Type} [DecidableEq Font] (L : GlyphArrangementOps Font G)
    (self : GlyphArrangementCache Font G) (q : Op Font) (hq : q.isQuery = true)
    (hn : q.nanFree = true) :
    (q.exec L (q.exec L self).cache).arrangement = (q.exec L self).arrangement
    ∧ (q.exec L (q.exec L self).cache).layoutCalls = 0
    ∧ (q.exec L (q.exec L self).cache).cache = (q.exec L self).cache := by
  cases h : q.entry self with
  | some v =>
    rw [Op.exec_hit L self q v h]
    simp only
    rw [Op.exec_hit L self q v h]
    simp
  | none =>
    obtain ⟨a, ha⟩ := Op.fresh_of_isQuery L q hq
    have h1 : q.entry (q.exec L self).cache = some a := by
      rw [Op.entry_after_miss L self q hq h q, h]
      simp [Op.sameEntry_self hq hn, ha]
    rw [Op.exec_hit L (q.exec L self).cache q a h1]
    simp [(Op.exec_miss L self q hq h).1, ha]

theorem Op.exec_arrangement_isSome {Font G : Type} [DecidableEq Font]
    (L : GlyphArrangementOps Font G) (self : GlyphArrangementCache Font G) (q : Op Font)
    (hq : q.isQuery = true) : ∃ a, (q.exec L self).arrangement = some a := by
  cases q <;> simp only [Op.isQuery, Bool.false_eq_true] at hq <;>
    exact ⟨_, rfl⟩

/-- C13 (amended): no input is rejected. For every input, empty text and a
zero-area rectangle included, a query returns an arrangement; on a miss it
returns the layout of exactly its own arguments, computed once, and the entry
count of its family grows by 1; and when none of its floating-point parameters
is NaN, the repeat of the call is a hit (no layout is computed). -/
theorem C13_no_input_is_rejected {Font G : Type} [DecidableEq Font]
    (L : GlyphArrangementOps Font G) (self : GlyphArrangementCache Font G) (q : Op Font)
    (hq : q.isQuery = true) :
    (∃ a, (q.exec L self).arrangement = some a)
    ∧ (q.entry self = none →
        (q.exec L self).arrangement = q.fresh L
        ∧ (q.exec L self).layoutCalls = 1
        ∧ ∀ fam, q.family = some fam →
            (q.exec L self).cache.count fam = self.count fam + 1)
    ∧ (q.nanFree = true → (q.exec L (q.exec L self).cache).layoutCalls = 0) := by
  refine ⟨Op.exec_arrangement_isSome L self q hq, ?_, fun hn => (Op.exec_twice L self q hq hn).2.1⟩
  intro hm
  have e := Op.exec_miss L self q hq hm
  refine ⟨e.1, e.2.1, ?_⟩
  intro fam hfam
  rw [Op.count_after_miss L self q hq hm fam]
  simp [hfam]

/-- C13 (amended), for the stub layout on the freshly created cache: `getText`
with the empty text and the zero-area rectangle at the origin is a hit when it
is repeated. -/
theorem C13_no_input_is_rejected_witness :
    ((Op.getText 1 ""
        { x := CFloat.finite 0, y := CFloat.finite 0, w := CFloat.finite 0,
          h := CFloat.finite 0 } { flags := 1 } true).exec stubOps
      ((Op.getText 1 ""
        { x := CFloat.finite 0, y := CFloat.finite 0, w := CFloat.finite 0,
          h := CFloat.finite 0 } { flags := 1 } true).exec stubOps
        GlyphArrangementCache.create).cache).layoutCalls = 0 :=
  (C13_no_input_is_rejected stubOps GlyphArrangementCache.create
    (Op.getText 1 ""
      { x := CFloat.finite 0, y := CFloat.finite 0, w := CFloat.finite 0,
        h := CFloat.finite 0 } { flags := 1 } true) rfl).2.2 (by decide)

/-- C13 as stated fails: for the empty text and a rectangle of width and
height 0 whose `x` is NaN, `getText` on the freshly created cache is a miss,
and its immediate repeat is a miss again, not a hit: the layout is computed a
second time and a second entry is added. -/
theorem C13_counterexample :
    ((GlyphArrangementCache.create.getText stubOps 1 ""
          { x := CFloat.nan, y := CFloat.finite 0, w := CFloat.finite 0,
            h := CFloat.finite 0 } { flags := 1 } true).cache.getText stubOps 1 ""
        { x := CFloat.nan, y := CFloat.finite 0, w := CFloat.finite 0,
          h := CFloat.finite 0 } { flags := 1 } true).layoutCalls = 1
    ∧ getCacheSize ((GlyphArrangementCache.create.getText stubOps 1 ""
          { x := CFloat.nan, y := CFloat.finite 0, w := CFloat.finite 0,
            h := CFloat.finite 0 } { flags := 1 } true).cache.getText stubOps 1 ""
        { x := CFloat.nan, y := CFloat.finite 0, w := CFloat.finite 0,
          h := CFloat.finite 0 } { flags := 1 } true).cache.texts = 2 := by
  refine ⟨?_, ?_⟩ <;> decide

/-- C14 (amended): the class is declared with `doNotRecreateAfterDeletion` set
to `false`, so whenever no shared instance exists, also after the instance was
destroyed, a request for the shared instance creates a new, empty cache and
returns it. -/
theorem C14_singleton_is_recreated {Font G : Type}
    (holder : SingletonHolder (GlyphArrangementCache Font G))
    (h : holder.object = none) :
    GlyphArrangementCache.doNotRecreateAfterDeletion = false
    ∧ (GlyphArrangementCache.getInstance holder).2 = some GlyphArrangementCache.create
    ∧ (GlyphArrangementCache.getInstance holder).1.object =
        some GlyphArrangementCache.create := by
  simp [GlyphArrangementCache.getInstance, SingletonHolder.get, h,
    GlyphArrangementCache.doNotRecreateAfterDeletion]

/-- C14 (amended), at the holder whose instance was created and destroyed. -/
theorem C14_singleton_is_recreated_witness :
    (GlyphArrangementCache.getInstance
        (GlyphArrangementCache.destroy
          (GlyphArrangementCache.getInstance
            (SingletonHolder.initial : SingletonHolder (GlyphArrangementCache Nat Nat))).1)).2
      = some GlyphArrangementCache.create :=
  (C14_singleton_is_recreated
    (GlyphArrangementCache.destroy
      (GlyphArrangementCache.getInstance
        (SingletonHolder.initial : SingletonHolder (GlyphArrangementCache Nat Nat))).1)
    rfl).2.1

/-- C14 as stated fails: after the shared instance was created by a first
request and destroyed, the holder remembers that an instance was created, and
yet the next request does not come back empty: it returns an instance. -/
theorem C14_counterexample :
    (GlyphArrangementCache.destroy
        (GlyphArrangementCache.getInstance
          (SingletonHolder.initial :
            SingletonHolder (GlyphArrangementCache Nat Nat))).1).createdOnceAlready = true
    ∧ ((GlyphArrangementCache.getInstance
        (GlyphArrangementCache.destroy
          (GlyphArrangementCache.getInstance
            (SingletonHolder.initial :
              SingletonHolder (GlyphArrangementCache Nat Nat))).1)).2).isSome = true :=
  ⟨rfl, rfl⟩

/-- C15, on the code: called on a thread other than the message thread,
`getStatus` hits no assertion failure, whereas each of the four query methods
and `clear` does; called on the message thread, no operation hits one. -/
theorem C15_getStatus_has_no_thread_assertion {Font : Type} :
    (Op.getStatus : Op Font).assertionFails false = false
    ∧ (∀ q : Op Font, q.isQuery = true → q.assertionFails false = true)
    ∧ (Op.clear : Op Font).assertionFails false = true
    ∧ (∀ op : Op Font, op.assertionFails true = false) := by
  refine ⟨rfl, ?_, rfl, ?_⟩
  · intro q hq
    cases q <;> simp only [Op.isQuery, Bool.false_eq_true] at hq <;> rfl
  · intro op
    cases op <;> rfl

/-! ## Invariants of the reachable states -/

theorem run_invariant {Font G : Type} [DecidableEq Font] (L : GlyphArrangementOps Font G)
    (P : GlyphArrangementCache Font G → Prop)
    (hstep : ∀ (s : GlyphArrangementCache Font G) (op : Op Font), P s → P (op.exec L s).cache)
    (ops : List (Op Font)) (self : GlyphArrangementCache Font G) (h0 : P self) :
    P (run L ops self) := by
  induction ops generalizing self with
  | nil => exact h0
  | cons o rest ih => exact ih (o.exec L self).cache (hstep self o h0)

theorem Op.family_of_isQuery {Font : Type} (q : Op Font) (hq : q.isQuery = true) :
    ∃ fam, q.family = some fam := by
  cases q <;> simp only [Op.isQuery, Bool.false_eq_true] at hq <;> exact ⟨_, rfl⟩

theorem Op.totalCount_after_miss {Font G : Type} [DecidableEq Font]
    (L : GlyphArrangementOps Font G) (self : GlyphArrangementCache Font G) (q : Op Font)
    (hq : q.isQuery = true) (h : q.entry self = none) :
    (q.exec L self).cache.totalCount = self.totalCount + 1 := by
  obtain ⟨fam, hfam⟩ := Op.family_of_isQuery q hq
  simp only [GlyphArrangementCache.totalCount, Op.count_after_miss L self q hq h, hfam,
    Option.some.injEq]
  cases fam <;> simp <;> omega

theorem Op.exec_not_query {Font G : Type} [DecidableEq Font]
    (L : GlyphArrangementOps Font G) (self : GlyphArrangementCache Font G) (op : Op Font)
    (hq : ¬ op.isQuery = true) :
    (op.exec L self).cache = GlyphArrangementCache.create ∨ (op.exec L self).cache = self := by
  cases op <;> simp only [Op.isQuery, not_true_eq_false] at hq
  · exact Or.inl rfl
  · exact Or.inl rfl
  · exact Or.inr rfl

/-- C16: in every state reachable from the freshly created cache by queries,
`clear`, timer callbacks (and `getStatus`), the timer is running if and only
if the four tables together hold at least one entry. -/
theorem C16_timer_runs_iff_not_empty {Font G : Type} [DecidableEq Font]
    (L : GlyphArrangementOps Font G) (self : GlyphArrangementCache Font G)
    (h : Reachable L self) :
    self.isTimerRunning = true ↔
      0 < getCacheSize self.singleLineTexts + getCacheSize self.multiLineTexts
        + getCacheSize self.texts + getCacheSize self.fittedTexts := by
  obtain ⟨ops, rfl⟩ := h
  refine run_invariant L
    (fun s => s.isTimerRunning = true ↔ 0 < s.totalCount) ?_ ops _ ?_
  · intro s op hs
    by_cases hq : op.isQuery = true
    · cases hh : op.entry s with
      | some v =>
        rw [Op.exec_hit L s op v hh]
        exact hs
      | none =>
        have e := Op.exec_miss L s op hq hh
        rw [Op.totalCount_after_miss L s op hq hh]
        simp [GlyphArrangementCache.isTimerRunning, e.2.2.2]
    · rcases Op.exec_not_query L s op hq with h1 | h1
      · rw [h1]
        simp [GlyphArrangementCache.isTimerRunning, GlyphArrangementCache.create,
          GlyphArrangementCache.totalCount, GlyphArrangementCache.count, getCacheSize]
      · rw [h1]
        exact hs
  · simp [GlyphArrangementCache.isTimerRunning, GlyphArrangementCache.create,
      GlyphArrangementCache.totalCount, GlyphArrangementCache.count, getCacheSize]

/-- C16, for the stub layout after a query, a `clear` and another query: the
state is reachable, and its timer runs. -/
theorem C16_timer_runs_iff_not_empty_witness :
    (run stubOps
        [Op.getSingleLineText 1 "Hello" 0 10, Op.clear,
          Op.getMultiLineText 1 "Hello" 0 10 100 { flags := 1 }]
        GlyphArrangementCache.create).isTimerRunning = true :=
  (C16_timer_runs_iff_not_empty stubOps _ ⟨_, rfl⟩).2 (by decide)

theorem tuplesQueried_append {Font : Type} [DecidableEq Font] (fam : Family)
    (ops : List (Op Font)) (op : Op Font) :
    tuplesQueried fam (ops ++ [op]) =
      if op.isClearing = true then ∅
      else if op.family = some fam then insert op (tuplesQueried fam ops)
      else tuplesQueried fam ops := by
  unfold tuplesQueried
  rw [sinceClear_append]
  by_cases hc : op.isClearing = true
  · simp [hc]
  · by_cases hf : op.family = some fam
    · simp only [hc, if_false, hf, if_true, List.filter_append]
      ext x
      simp [List.filter_cons, hf, or_comm]
    · simp [hc, hf, List.filter_append, List.filter_cons]

theorem Op.count_run {Font G : Type} [DecidableEq Font] (L : GlyphArrangementOps Font G)
    (ops : List (Op Font)) (hn : ∀ q ∈ sinceClear ops, q.nanFree = true) (fam : Family) :
    (run L ops GlyphArrangementCache.create).count fam = (tuplesQueried fam ops).card := by
  induction ops using List.reverseRecOn with
  | nil => cases fam <;> rfl
  | append_singleton ops op ih =>
    rw [run_append, tuplesQueried_append]
    by_cases hc : op.isClearing = true
    · rw [if_pos hc]
      cases op <;> simp only [Op.isClearing, Bool.false_eq_true] at hc <;>
        (cases fam <;> rfl)
    · have hs := sinceClear_append ops op
      rw [if_neg hc] at hs
      have hn1 : ∀ q ∈ sinceClear ops, q.nanFree = true :=
        fun q hq1 => hn q (by rw [hs]; simp [hq1])
      have hnop : op.nanFree = true := hn op (by rw [hs]; simp)
      have ih1 := ih hn1
      rw [if_neg hc]
      by_cases hq : op.isQuery = true
      · have hmem := Op.mem_sinceClear_iff_entry L ops op hq hnop
        cases hh : op.entry (run L ops GlyphArrangementCache.create) with
        | some v =>
          rw [Op.exec_hit L _ op v hh]
          simp only
          have hin : op ∈ sinceClear ops := hmem.2 (by simp [hh])
          by_cases hf : op.family = some fam
          · rw [if_pos hf, Finset.insert_eq_of_mem, ih1]
            simp [tuplesQueried, hin, hf]
          · rw [if_neg hf, ih1]
        | none =>
          rw [Op.count_after_miss L _ op hq hh fam, ih1]
          have hout : op ∉ sinceClear ops := fun hin => by
            have := hmem.1 hin
            simp [hh] at this
          by_cases hf : op.family = some fam
          · rw [if_pos hf, if_pos hf, Finset.card_insert_of_not_mem]
            simp [tuplesQueried, hout]
          · rw [if_neg hf, if_neg hf]
            rfl
      · cases op <;> simp only [Op.isQuery, not_true_eq_false] at hq
        · exact absurd rfl hc
        · exact absurd rfl hc
        · simpa [Op.family, Op.exec] using ih1

/-- C17 (amended): in every state reached from the freshly created cache by
calls of which the queries made since the most recent `clear` or timer
callback (or since creation) have no NaN among their floating-point
parameters, the entry count of a family (the count `getStatus` reports) equals
the number of distinct (font, text, key) tuples queried in that family since
then; and repeating a query without NaN leaves every count as it is. -/
theorem C17_count_is_number_of_distinct_tuples {Font G : Type} [DecidableEq Font]
    (L : GlyphArrangementOps Font G) :
    (∀ (ops : List (Op Font)), (∀ q ∈ sinceClear ops, q.nanFree = true) → ∀ fam : Family,
        (run L ops GlyphArrangementCache.create).count fam = (tuplesQueried fam ops).card)
    ∧ (∀ (self : GlyphArrangementCache Font G) (q : Op Font), q.isQuery = true →
        q.nanFree = true → ∀ fam : Family,
        (q.exec L (q.exec L self).cache).cache.count fam = (q.exec L self).cache.count fam) := by
  refine ⟨fun ops hn fam => Op.count_run L ops hn fam, ?_⟩
  intro self q hq hn fam
  rw [(Op.exec_twice L self q hq hn).2.2]

/-- C17 (amended), for the stub layout: after a `getText` with a NaN width, a
`clear`, and the single-line queries at (0, 10), again at (0, 10) and at
(5, 10), the single-line count is the number of distinct tuples queried since
the clear. -/
theorem C17_count_is_number_of_distinct_tuples_witness :
    (run stubOps
        [Op.getText 1 "Hello"
            { x := CFloat.finite 0, y := CFloat.finite 0, w := CFloat.nan,
              h := CFloat.finite 10 } { flags := 1 } false,
          Op.clear,
          Op.getSingleLineText 1 "Hello" 0 10, Op.getSingleLineText 1 "Hello" 0 10,
          Op.getSingleLineText 1 "Hello" 5 10]
        GlyphArrangementCache.create).count Family.singleLineTexts =
      (tuplesQueried Family.singleLineTexts
        [Op.getText 1 "Hello"
            { x := CFloat.finite 0, y := CFloat.finite 0, w := CFloat.nan,
              h := CFloat.finite 10 } { flags := 1 } false,
          Op.clear,
          Op.getSingleLineText 1 "Hello" 0 10, Op.getSingleLineText 1 "Hello" 0 10,
          Op.getSingleLineText (1 : Nat) "Hello" 5 10]).card :=
  (C17_count_is_number_of_distinct_tuples stubOps).1 _ (by decide) Family.singleLineTexts

/-- C17 as stated fails: `getText` with a NaN width, made twice on the freshly
created cache, is one tuple queried, and the family holds two entries. -/
theorem C17_counterexample :
    (run stubOps
        [Op.getText 1 "Hello"
            { x := CFloat.finite 0, y := CFloat.finite 0, w := CFloat.nan,
              h := CFloat.finite 10 } { flags := 1 } false,
          Op.getText 1 "Hello"
            { x := CFloat.finite 0, y := CFloat.finite 0, w := CFloat.nan,
              h := CFloat.finite 10 } { flags := 1 } false]
        GlyphArrangementCache.create).count Family.texts = 2
    ∧ (tuplesQueried Family.texts
        [Op.getText (1 : Nat) "Hello"
            { x := CFloat.finite 0, y := CFloat.finite 0, w := CFloat.nan,
              h := CFloat.finite 10 } { flags := 1 } false,
          Op.getText 1 "Hello"
            { x := CFloat.finite 0, y := CFloat.finite 0, w := CFloat.nan,
              h := CFloat.finite 10 } { flags := 1 } false]).card = 1 := by
  refine ⟨by decide, ?_⟩
  simp [tuplesQueried, sinceClear, Op.isClearing, Op.family]

/-! ## What the tables store -/

theorem unordered_map.mem_assign {K V : Type} (eq : K → K → Bool) (m : unordered_map K V)
    (key : K) (w : V) (p : K × V) (h : p ∈ unordered_map.assign eq m key w) :
    p ∈ m ∨ p.2 = w := by
  induction m with
  | nil => simp [unordered_map.assign] at h
  | cons p0 rest ih =>
    obtain ⟨k0, v0⟩ := p0
    by_cases hk : eq key k0 = true
    · simp only [unordered_map.assign, hk, if_true] at h
      rcases List.mem_cons.mp h with h0 | h0
      · exact Or.inr (by rw [h0])
      · exact Or.inl (List.mem_cons_of_mem _ h0)
    · simp only [unordered_map.assign, hk, if_false] at h
      rcases List.mem_cons.mp h with h0 | h0
      · exact Or.inl (by rw [h0]; exact List.mem_cons_self _ _)
      · rcases ih h0 with h1 | h1
        · exact Or.inl (List.mem_cons_of_mem _ h1)
        · exact Or.inr h1

theorem unordered_map.mem_alter {K V : Type} (eq : K → K → Bool) (m : unordered_map K V)
    (key : K) (g : Option V → V) (p : K × V) (h : p ∈ unordered_map.alter eq m key g) :
    p ∈ m ∨ p.2 = g (unordered_map.find eq m key) := by
  unfold unordered_map.alter at h
  cases hf : unordered_map.find eq m key with
  | none =>
    simp only [hf, List.mem_append, List.mem_singleton] at h
    rcases h with h | rfl
    · exact Or.inl h
    · exact Or.inr rfl
  | some v =>
    simp only [hf] at h
    exact unordered_map.mem_assign eq m key _ p h

theorem unordered_map.mem_of_find {K V : Type} (eq : K → K → Bool) (m : unordered_map K V)
    (key : K) (v : V) (h : unordered_map.find eq m key = some v) :
    ∃ k, (k, v) ∈ m ∧ eq key k = true := by
  induction m with
  | nil => simp [unordered_map.find] at h
  | cons p0 rest ih =>
    obtain ⟨k0, v0⟩ := p0
    by_cases hk : eq key k0 = true
    · simp only [unordered_map.find, hk, if_true, Option.some.injEq] at h
      subst h
      exact ⟨k0, List.mem_cons_self _ _, hk⟩
    · simp only [unordered_map.find, hk, if_false] at h
      obtain ⟨k, hmem, hk1⟩ := ih h
      exact ⟨k, List.mem_cons_of_mem _ hmem, hk1⟩

theorem unordered_map.alter_ne_nil {K V : Type} (eq : K → K → Bool) (m : unordered_map K V)
    (key : K) (g : Option V → V) : unordered_map.alter eq m key g ≠ [] := by
  unfold unordered_map.alter
  cases hf : unordered_map.find eq m key with
  | none => simp
  | some v =>
    cases m with
    | nil => simp [unordered_map.find] at hf
    | cons p0 rest =>
      obtain ⟨k0, v0⟩ := p0
      by_cases hk : eq key k0 = true <;> simp [unordered_map.assign, hk]

theorem unordered_map.mem_assign_self {K V : Type} [DecidableEq K] (m : unordered_map K V)
    (key : K) (v w : V)
    (h : unordered_map.find (fun a b => decide (a = b)) m key = some v) :
    (key, w) ∈ unordered_map.assign (fun a b => decide (a = b)) m key w := by
  induction m with
  | nil => simp [unordered_map.find] at h
  | cons p0 rest ih =>
    obtain ⟨k0, v0⟩ := p0
    by_cases hk : key = k0
    · subst hk
      simp [unordered_map.assign]
    · simp only [unordered_map.find, hk, decide_False, Bool.false_eq_true, if_false] at h
      simp only [unordered_map.assign, hk, decide_False, Bool.false_eq_true, if_false,
        List.mem_cons]
      exact Or.inr (ih h)

theorem unordered_map.mem_alter_self {K V : Type} [DecidableEq K] (m : unordered_map K V)
    (key : K) (g : Option V → V) :
    (key, g (unordered_map.find (fun a b => decide (a = b)) m key)) ∈
      unordered_map.alter (fun a b => decide (a = b)) m key g := by
  unfold unordered_map.alter
  cases hf : unordered_map.find (fun a b => decide (a = b)) m key with
  | none => simp
  | some v => exact unordered_map.mem_assign_self m key v _ hf

theorem Cache.stores_added {Font K G : Type} [DecidableEq Font] (tbl : Cache Font K G)
    (font : Font) (text : String) (key : K) (arr : G) :
    Cache.Stores (Cache.added tbl font text key arr) font text key arr := by
  have hF : (fontEq : Font → Font → Bool) = fun a b => decide (a = b) := rfl
  have hS : stringEq = fun a b => decide (a = b) := rfl
  unfold Cache.Stores Cache.added
  rw [hF, hS]
  exact ⟨_, _, unordered_map.mem_alter_self tbl font _,
    unordered_map.mem_alter_self _ text _, by simp⟩

theorem Cache.added_inner {Font K G : Type} [DecidableEq Font] (tbl : Cache Font K G)
    (font : Font) (text : String) (key : K) (arr : G) (P : unordered_map K G → Prop)
    (hall : ∀ p1 ∈ tbl, ∀ p2 ∈ p1.2, P p2.2)
    (hnew : ∀ inner, (inner = [] ∨ P inner) → P (inner ++ [(key, arr)])) :
    ∀ p1 ∈ Cache.added tbl font text key arr, ∀ p2 ∈ p1.2, P p2.2 := by
  intro p1 hp1 p2 hp2
  unfold Cache.added at hp1
  rcases unordered_map.mem_alter fontEq tbl font _ p1 hp1 with h1 | h1
  · exact hall p1 h1 p2 hp2
  · rw [h1] at hp2
    have hold : ∀ q2 ∈ (unordered_map.find fontEq tbl font).getD [], P q2.2 := by
      intro q2 hq2
      cases hf : unordered_map.find fontEq tbl font with
      | none => simp [hf] at hq2
      | some byText =>
        simp only [hf, Option.getD_some] at hq2
        obtain ⟨k, hk, _⟩ := unordered_map.mem_of_find fontEq tbl font byText hf
        exact hall (k, byText) hk q2 hq2
    rcases unordered_map.mem_alter stringEq _ text _ p2 hp2 with h2 | h2
    · exact hold p2 h2
    · rw [h2]
      apply hnew
      cases hs : unordered_map.find stringEq
          ((unordered_map.find fontEq tbl font).getD []) text with
      | none => exact Or.inl rfl
      | some inner =>
        obtain ⟨k, hk, _⟩ := unordered_map.mem_of_find stringEq _ text inner hs
        exact Or.inr (hold (k, inner) hk)

theorem Cache.added_outer_ne_nil {Font K G : Type} [DecidableEq Font] (tbl : Cache Font K G)
    (font : Font) (text : String) (key : K) (arr : G)
    (hall : ∀ p1 ∈ tbl, p1.2 ≠ []) :
    ∀ p1 ∈ Cache.added tbl font text key arr, p1.2 ≠ [] := by
  intro p1 hp1
  unfold Cache.added at hp1
  rcases unordered_map.mem_alter fontEq tbl font _ p1 hp1 with h1 | h1
  · exact hall p1 h1
  · rw [h1]
    exact unordered_map.alter_ne_nil _ _ _ _

theorem Cache.noEmptyBuckets_added {Font K G : Type} [DecidableEq Font]
    (tbl : Cache Font K G) (font : Font) (text : String) (key : K) (arr : G)
    (h : Cache.NoEmptyBuckets tbl) :
    Cache.NoEmptyBuckets (Cache.added tbl font text key arr) := by
  intro p1 hp1
  refine ⟨Cache.added_outer_ne_nil tbl font text key arr (fun q hq => (h q hq).1) p1 hp1, ?_⟩
  exact Cache.added_inner tbl font text key arr (fun inner => inner ≠ [])
    (fun q hq => (h q hq).2) (fun inner _ => by simp) p1 hp1

theorem Cache.leadingIsDefault_added {Font G : Type} [DecidableEq Font]
    (tbl : Cache Font MultiLineTextKey G) (font : Font) (text : String)
    (key : MultiLineTextKey) (arr : G) (hkey : key.leading = CFloat.finite 0)
    (h : Cache.LeadingIsDefault tbl) :
    Cache.LeadingIsDefault (Cache.added tbl font text key arr) := by
  refine Cache.added_inner tbl font text key arr
    (fun inner => ∀ p3 ∈ inner, p3.1.leading = CFloat.finite 0) h ?_
  intro inner hin p3 hp3
  simp only [List.mem_append, List.mem_singleton] at hp3
  rcases hp3 with hp3 | rfl
  · rcases hin with rfl | hin
    · simp at hp3
    · exact hin p3 hp3
  · exact hkey

theorem Cache.buckets_le {Font K G : Type} (tbl : Cache Font K G)
    (h : Cache.NoEmptyBuckets tbl) :
    Cache.fontBuckets tbl ≤ Cache.textBuckets tbl
    ∧ Cache.textBuckets tbl ≤ getCacheSize tbl := by
  rw [getCacheSize_eq_total]
  unfold Cache.fontBuckets Cache.textBuckets
  have inner : ∀ m : unordered_map String (unordered_map K G), (∀ p2 ∈ m, p2.2 ≠ []) →
      unordered_map.size m ≤ unordered_map.total unordered_map.size m := by
    intro m
    induction m with
    | nil => intro _; simp [unordered_map.size, unordered_map.total]
    | cons p rest ih =>
      intro hm
      have h1 : 1 ≤ unordered_map.size p.2 := by
        have := hm p (List.mem_cons_self _ _)
        exact List.length_pos.mpr this
      have h2 := ih (fun q hq => hm q (List.mem_cons_of_mem _ hq))
      simp only [unordered_map.size, unordered_map.total, List.length_cons, List.map_cons,
        List.sum_cons] at h1 h2 ⊢
      omega
  induction tbl with
  | nil => simp [unordered_map.size, unordered_map.total]
  | cons p rest ih =>
    have hp := h p (List.mem_cons_self _ _)
    have h1 : 1 ≤ unordered_map.size p.2 := List.length_pos.mpr hp.1
    have h2 := inner p.2 hp.2
    have h3 := ih (fun q hq => h q (List.mem_cons_of_mem _ hq))
    simp only [unordered_map.size, unordered_map.total, List.length_cons, List.map_cons,
      List.sum_cons] at h1 h2 h3 ⊢
    omega

theorem Op.exec_tables {Font G : Type} [DecidableEq Font] (L : GlyphArrangementOps Font G)
    (P1 : Cache Font StartXAndBaselineY G → Prop) (P2 : Cache Font MultiLineTextKey G → Prop)
    (P3 : Cache Font TextKey G → Prop) (P4 : Cache Font FittedTextKey G → Prop)
    (e1 : P1 []) (e2 : P2 []) (e3 : P3 []) (e4 : P4 [])
    (h1 : ∀ tbl font text key arr, P1 tbl → P1 (Cache.added tbl font text key arr))
    (h2 : ∀ tbl font text key arr, key.leading = CFloat.finite 0 → P2 tbl →
      P2 (Cache.added tbl font text key arr))
    (h3 : ∀ tbl font text key arr, P3 tbl → P3 (Cache.added tbl font text key arr))
    (h4 : ∀ tbl font text key arr, P4 tbl → P4 (Cache.added tbl font text key arr))
    (self : GlyphArrangementCache Font G) (op : Op Font)
    (hs : P1 self.singleLineTexts ∧ P2 self.multiLineTexts ∧ P3 self.texts
      ∧ P4 self.fittedTexts) :
    P1 (op.exec L self).cache.singleLineTexts ∧ P2 (op.exec L self).cache.multiLineTexts
      ∧ P3 (op.exec L self).cache.texts ∧ P4 (op.exec L self).cache.fittedTexts := by
  by_cases hq : op.isQuery = true
  · cases hh : op.entry self with
    | some v =>
      rw [Op.exec_hit L self op v hh]
      exact hs
    | none =>
      cases op <;> simp only [Op.isQuery, Bool.false_eq_true] at hq <;>
        simp only [Op.entry] at hh
      · rw [Op.exec, GlyphArrangementCache.getSingleLineText_miss L self _ _ _ _ hh]
        exact ⟨h1 _ _ _ _ _ hs.1, hs.2.1, hs.2.2.1, hs.2.2.2⟩
      · rw [Op.exec, GlyphArrangementCache.getMultiLineText_miss L self _ _ _ _ _ _ hh]
        exact ⟨hs.1, h2 _ _ _ _ _ rfl hs.2.1, hs.2.2.1, hs.2.2.2⟩
      · rw [Op.exec, GlyphArrangementCache.getText_miss L self _ _ _ _ _ hh]
        exact ⟨hs.1, hs.2.1, h3 _ _ _ _ _ hs.2.2.1, hs.2.2.2⟩
      · rw [Op.exec, GlyphArrangementCache.getFittedText_miss L self _ _ _ _ _ _ hh]
        exact ⟨hs.1, hs.2.1, hs.2.2.1, h4 _ _ _ _ _ hs.2.2.2⟩
  · rcases Op.exec_not_query L self op hq with h0 | h0
    · rw [h0]
      exact ⟨e1, e2, e3, e4⟩
    · rw [h0]
      exact hs

theorem Op.entry_after_exec {Font G : Type} [DecidableEq Font]
    (L : GlyphArrangementOps Font G) (self : GlyphArrangementCache Font G) (q : Op Font)
    (hq : q.isQuery = true) (hn : q.nanFree = true) :
    q.entry (q.exec L self).cache = (q.exec L self).arrangement := by
  cases h : q.entry self with
  | some v =>
    rw [Op.exec_hit L self q v h]
    exact h
  | none =>
    obtain ⟨a, ha⟩ := Op.fresh_of_isQuery L q hq
    rw [Op.entry_after_miss L self q hq h q, h, (Op.exec_miss L self q hq h).1]
    simp [Op.sameEntry_self hq hn]

/-- C18: the `leading` of the multi-line key plays no role. In every reachable
state every key stored in the table of the multi-line family has `leading`
equal to its default 0; two calls of `getMultiLineText` that agree on the
font, the text, `startX`, `baselineY`, `maximumLineWidth` and `justification`
share one entry (from any state, the second is a hit that returns the
arrangement of the first and changes nothing); and the key under which the
entry is found is the one made of those four key parameters and the default
`leading`. -/
theorem C18_leading_plays_no_role {Font G : Type} [DecidableEq Font]
    (L : GlyphArrangementOps Font G) :
    (∀ self : GlyphArrangementCache Font G, Reachable L self →
        Cache.LeadingIsDefault self.multiLineTexts)
    ∧ (∀ (self : GlyphArrangementCache Font G) font text startX baselineY
        maximumLineWidth justification,
        ((self.getMultiLineText L font text startX baselineY maximumLineWidth
            justification).cache.getMultiLineText L font text startX baselineY
            maximumLineWidth justification).layoutCalls = 0
        ∧ ((self.getMultiLineText L font text startX baselineY maximumLineWidth
            justification).cache.getMultiLineText L font text startX baselineY
            maximumLineWidth justification).result =
          (self.getMultiLineText L font text startX baselineY maximumLineWidth
            justification).result
        ∧ ((self.getMultiLineText L font text startX baselineY maximumLineWidth
            justification).cache.getMultiLineText L font text startX baselineY
            maximumLineWidth justification).cache =
          (self.getMultiLineText L font text startX baselineY maximumLineWidth
            justification).cache)
    ∧ (∀ (self : GlyphArrangementCache Font G) font text startX baselineY
        maximumLineWidth justification,
        Cache.entry MultiLineTextKey.opEq
          (self.getMultiLineText L font text startX baselineY maximumLineWidth
            justification).cache.multiLineTexts font text
          { startXAndBaselineY := { startX := startX, baselineY := baselineY },
            maximumLineWidth := maximumLineWidth, justification := justification,
            leading := CFloat.finite 0 } =
        some (self.getMultiLineText L font text startX baselineY maximumLineWidth
          justification).result) := by
  refine ⟨?_, ?_, ?_⟩
  · rintro self ⟨ops, rfl⟩
    have := run_invariant L
      (fun s => True ∧ Cache.LeadingIsDefault s.multiLineTexts ∧ True ∧ True)
      (fun s op hs => Op.exec_tables L (fun _ => True) Cache.LeadingIsDefault
        (fun _ => True) (fun _ => True) trivial (fun p1 hp1 => by simp at hp1) trivial trivial
        (fun _ _ _ _ _ _ => trivial)
        (fun tbl font text key arr hkey h =>
          Cache.leadingIsDefault_added tbl font text key arr hkey h)
        (fun _ _ _ _ _ _ => trivial) (fun _ _ _ _ _ _ => trivial) s op hs)
      ops GlyphArrangementCache.create
      ⟨trivial, fun p1 hp1 => by simp [GlyphArrangementCache.create] at hp1, trivial, trivial⟩
    exact this.2.1
  · intro self font text startX baselineY maximumLineWidth justification
    have h := Op.exec_twice L self
      (Op.getMultiLineText font text startX baselineY maximumLineWidth justification) rfl rfl
    simpa [Op.exec, Step.toEffect] using And.intro h.2.1 (And.intro h.1 h.2.2)
  · intro self font text startX baselineY maximumLineWidth justification
    have h := Op.entry_after_exec L self
      (Op.getMultiLineText font text startX baselineY maximumLineWidth justification) rfl rfl
    simpa [Op.exec, Step.toEffect, Op.entry] using h

/-- C18, for the stub layout after two multi-line queries: the state is
reachable and its stored multi-line keys have the default `leading`. -/
theorem C18_leading_plays_no_role_witness :
    Cache.LeadingIsDefault
      (run stubOps
        [Op.getMultiLineText 1 "Hello" 0 10 100 { flags := 1 },
          Op.getMultiLineText 1 "Hello" 0 10 200 { flags := 1 }]
        GlyphArrangementCache.create).multiLineTexts :=
  (C18_leading_plays_no_role stubOps).1 _ ⟨_, rfl⟩

/-- C19: on a miss, `getText` computes its arrangement in two steps: the
curtailed line of the text at the origin (0, 0) with maximum width
`area.width` and the given ellipsis flag, then the justification of the glyphs
from index 0, as many as the line has, into the rectangle (`area.x`, `area.y`,
`area.width`, `area.height`) with the given justification. The layout is
computed once, the value returned is the result of this composition, and it
is the value stored under the key made of the area, the justification and the
ellipsis flag; two calls with the same font, text and key compute the same
composition. -/
theorem C19_getText_composes_curtail_and_justify {Font G : Type} [DecidableEq Font]
    (L : GlyphArrangementOps Font G) (self : GlyphArrangementCache Font G) (font : Font)
    (text : String) (area : Rectangle CFloat) (justificationType : Justification)
    (useEllipsesIfTooBig : Bool)
    (hmiss : Cache.entry TextKey.opEq self.texts font text
      { rectangleAndJustification := { area := area, justification := justificationType },
        useEllipsesIfTooBig := useEllipsesIfTooBig } = none) :
    (self.getText L font text area justificationType useEllipsesIfTooBig).result =
        L.justifyGlyphs
          (L.addCurtailedLineOfText L.empty font text (CFloat.finite 0) (CFloat.finite 0)
            area.w useEllipsesIfTooBig)
          0
          (L.getNumGlyphs
            (L.addCurtailedLineOfText L.empty font text (CFloat.finite 0) (CFloat.finite 0)
              area.w useEllipsesIfTooBig))
          area.x area.y area.w area.h justificationType
    ∧ (self.getText L font text area justificationType useEllipsesIfTooBig).layoutCalls = 1
    ∧ Cache.Stores
        (self.getText L font text area justificationType useEllipsesIfTooBig).cache.texts
        font text
        { rectangleAndJustification := { area := area, justification := justificationType },
          useEllipsesIfTooBig := useEllipsesIfTooBig }
        (self.getText L font text area justificationType useEllipsesIfTooBig).result
    ∧ (∀ (area1 : Rectangle CFloat) (justificationType1 : Justification)
        (useEllipsesIfTooBig1 : Bool),
        ({ rectangleAndJustification :=
              { area := area1, justification := justificationType1 },
            useEllipsesIfTooBig := useEllipsesIfTooBig1 } : TextKey) =
          { rectangleAndJustification := { area := area, justification := justificationType },
            useEllipsesIfTooBig := useEllipsesIfTooBig } →
        L.text font text area1 justificationType1 useEllipsesIfTooBig1 =
          L.text font text area justificationType useEllipsesIfTooBig) := by
  rw [GlyphArrangementCache.getText_miss L self font text area justificationType
    useEllipsesIfTooBig hmiss]
  refine ⟨rfl, rfl, Cache.stores_added _ _ _ _ _, ?_⟩
  intro area1 justificationType1 useEllipsesIfTooBig1 hkey
  simp only [TextKey.mk.injEq, RectangleAndJustification.mk.injEq] at hkey
  rw [hkey.1.1, hkey.1.2, hkey.2]

/-- C19, for the stub layout on the freshly created cache. -/
theorem C19_getText_composes_curtail_and_justify_witness :
    (GlyphArrangementCache.create.getText stubOps 1 "Hello"
        { x := CFloat.finite 0, y := CFloat.finite 0, w := CFloat.finite 100,
          h := CFloat.finite 20 } { flags := 1 } true).layoutCalls = 1 :=
  (C19_getText_composes_curtail_and_justify stubOps GlyphArrangementCache.create 1 "Hello"
    { x := CFloat.finite 0, y := CFloat.finite 0, w := CFloat.finite 100,
      h := CFloat.finite 20 } { flags := 1 } true rfl).2.1

/-- C20: no empty bucket leaks. In every reachable state, in each of the four
tables, every Font bucket has a text bucket and every innermost
(Font, text) bucket holds at least one entry; so neither the number of Font
buckets nor the number of (Font, text) buckets of a table exceeds the entry
count of the table. -/
theorem C20_no_empty_buckets {Font G : Type} [DecidableEq Font]
    (L : GlyphArrangementOps Font G) (self : GlyphArrangementCache Font G)
    (h : Reachable L self) :
    (Cache.NoEmptyBuckets self.singleLineTexts
      ∧ Cache.fontBuckets self.singleLineTexts ≤ getCacheSize self.singleLineTexts
      ∧ Cache.textBuckets self.singleLineTexts ≤ getCacheSize self.singleLineTexts)
    ∧ (Cache.NoEmptyBuckets self.multiLineTexts
      ∧ Cache.fontBuckets self.multiLineTexts ≤ getCacheSize self.multiLineTexts
      ∧ Cache.textBuckets self.multiLineTexts ≤ getCacheSize self.multiLineTexts)
    ∧ (Cache.NoEmptyBuckets self.texts
      ∧ Cache.fontBuckets self.texts ≤ getCacheSize self.texts
      ∧ Cache.textBuckets self.texts ≤ getCacheSize self.texts)
    ∧ (Cache.NoEmptyBuckets self.fittedTexts
      ∧ Cache.fontBuckets self.fittedTexts ≤ getCacheSize self.fittedTexts
      ∧ Cache.textBuckets self.fittedTexts ≤ getCacheSize self.fittedTexts) := by
  obtain ⟨ops, rfl⟩ := h
  have hinv := run_invariant L
    (fun s => Cache.NoEmptyBuckets s.singleLineTexts ∧ Cache.NoEmptyBuckets s.multiLineTexts
      ∧ Cache.NoEmptyBuckets s.texts ∧ Cache.NoEmptyBuckets s.fittedTexts)
    (fun s op hs => Op.exec_tables L Cache.NoEmptyBuckets Cache.NoEmptyBuckets
      Cache.NoEmptyBuckets Cache.NoEmptyBuckets
      (fun p1 hp1 => by simp at hp1) (fun p1 hp1 => by simp at hp1)
      (fun p1 hp1 => by simp at hp1) (fun p1 hp1 => by simp at hp1)
      (fun tbl font text key arr h0 => Cache.noEmptyBuckets_added tbl font text key arr h0)
      (fun tbl font text key arr _ h0 => Cache.noEmptyBuckets_added tbl font text key arr h0)
      (fun tbl font text key arr h0 => Cache.noEmptyBuckets_added tbl font text key arr h0)
      (fun tbl font text key arr h0 => Cache.noEmptyBuckets_added tbl font text key arr h0)
      s op hs)
    ops GlyphArrangementCache.create
    ⟨fun p1 hp1 => by simp [GlyphArrangementCache.create] at hp1,
      fun p1 hp1 => by simp [GlyphArrangementCache.create] at hp1,
      fun p1 hp1 => by simp [GlyphArrangementCache.create] at hp1,
      fun p1 hp1 => by simp [GlyphArrangementCache.create] at hp1⟩
  have b1 := Cache.buckets_le _ hinv.1
  have b2 := Cache.buckets_le _ hinv.2.1
  have b3 := Cache.buckets_le _ hinv.2.2.1
  have b4 := Cache.buckets_le _ hinv.2.2.2
  exact ⟨⟨hinv.1, le_trans b1.1 b1.2, b1.2⟩, ⟨hinv.2.1, le_trans b2.1 b2.2, b2.2⟩,
    ⟨hinv.2.2.1, le_trans b3.1 b3.2, b3.2⟩, ⟨hinv.2.2.2, le_trans b4.1 b4.2, b4.2⟩⟩

/-- C20, for the stub layout after three single-line queries (two fonts, two
texts) and a repeat. -/
theorem C20_no_empty_buckets_witness :
    Cache.fontBuckets
        (run stubOps
          [Op.getSingleLineText 1 "Hello" 0 10, Op.getSingleLineText 2 "Hello" 0 10,
            Op.getSingleLineText 1 "World" 0 10, Op.getSingleLineText 1 "Hello" 0 10]
          GlyphArrangementCache.create).singleLineTexts ≤
      getCacheSize
        (run stubOps
          [Op.getSingleLineText 1 "Hello" 0 10, Op.getSingleLineText 2 "Hello" 0 10,
            Op.getSingleLineText 1 "World" 0 10, Op.getSingleLineText 1 "Hello" 0 10]
          GlyphArrangementCache.create).singleLineTexts :=
  (C20_no_empty_buckets stubOps _ ⟨_, rfl⟩).1.2.1

/-! ## The hash of a Font -/

theorem hash_combine_eq (a b : Nat) (ha : a < 2 ^ 64) (hb : b < 2 ^ 64) :
    hash_combine a b = a ^^^ ((b + 0x9e3779b9 + a <<< 6 + a >>> 2) % 2 ^ 64) := by
  unfold hash_combine
  rw [Nat.mod_eq_of_lt ha, Nat.mod_eq_of_lt hb]

theorem hash_combine_wrapped (a b : Nat) :
    (b + 0x9e3779b9 + a <<< 6 + a >>> 2) % 2 ^ 64 =
      (((b + 0x9e3779b9) % 2 ^ 64 + (a <<< 6) % 2 ^ 64) % 2 ^ 64 + a >>> 2) % 2 ^ 64 := by
  simp only [Nat.shiftLeft_eq, Nat.shiftRight_eq_div_pow]
  omega

theorem hash_combine_lt (a b : Nat) : hash_combine a b < 2 ^ 64 := by
  unfold hash_combine
  exact Nat.xor_lt_two_pow (Nat.mod_lt _ (by decide)) (Nat.mod_lt _ (by decide))

/-- C21: `FontHash` is a function of the approximate identity only. Two fonts
whose typeface names have equal length, whose heights compare equal and whose
style flags are equal have the same `FontHash`; the hash of a font is
`hash_combine (h (nameLength), hash_combine (h (height), h (styleFlags)))`;
and on `size_t` values `hash_combine (a, b)` is
`a xor (b + 0x9e3779b9 + (a << 6) + (a >> 2))` with the sum taken modulo
`2 ^ 64`, which is the same whether only the sum or each addition and the
shift are reduced, and is again a `size_t` value. -/
theorem C21_FontHash_of_approximate_identity (hashInt : Int → Nat)
    (hashFloat : CFloat → Nat) (f1 f2 : FontState)
    (hlen : f1.getTypefaceName.length = f2.getTypefaceName.length)
    (hheight : CFloat.opEq f1.getHeight f2.getHeight = true)
    (hflags : f1.getStyleFlags = f2.getStyleFlags) :
    FontHash hashInt hashFloat f1 = FontHash hashInt hashFloat f2
    ∧ FontHash hashInt hashFloat f1 =
        hash_combine (hashInt (f1.getTypefaceName.length : Nat))
          (hash_combine (hashFloat f1.getHeight) (hashInt f1.getStyleFlags))
    ∧ (∀ a b : Nat, a < 2 ^ 64 → b < 2 ^ 64 →
        hash_combine a b = a ^^^ ((b + 0x9e3779b9 + a <<< 6 + a >>> 2) % 2 ^ 64)
        ∧ hash_combine a b =
            a ^^^ ((((b + 0x9e3779b9) % 2 ^ 64 + (a <<< 6) % 2 ^ 64) % 2 ^ 64 + a >>> 2)
              % 2 ^ 64)
        ∧ hash_combine a b < 2 ^ 64) := by
  refine ⟨?_, rfl, ?_⟩
  · simp only [FontHash, hlen, CFloat.float_eq_of_opEq hheight, hflags]
  · intro a b ha hb
    refine ⟨hash_combine_eq a b ha hb, ?_, hash_combine_lt a b⟩
    rw [hash_combine_eq a b ha hb, hash_combine_wrapped a b]

/-- C21, for the fonts "Arial" and "Times" of height 12 without style flags,
with the integer hash that converts to `size_t` and a float hash that is 0:
both have the hash 5308871862. -/
theorem C21_FontHash_of_approximate_identity_witness :
    FontHash (fun i => (i % 2 ^ 64).toNat) (fun _ => 0)
        { typefaceName := "Arial", height := CFloat.finite 12, styleFlags := 0 } =
      FontHash (fun i => (i % 2 ^ 64).toNat) (fun _ => 0)
        { typefaceName := "Times", height := CFloat.finite 12, styleFlags := 0 }
    ∧ FontHash (fun i => (i % 2 ^ 64).toNat) (fun _ => 0)
        { typefaceName := "Times", height := CFloat.finite 12, styleFlags := 0 } =
      5308871862
    ∧ hash_combine (2 ^ 63) 7 = 11529215048722905536 :=
  ⟨(C21_FontHash_of_approximate_identity (fun i => (i % 2 ^ 64).toNat) (fun _ => 0)
      { typefaceName := "Arial", height := CFloat.finite 12, styleFlags := 0 }
      { typefaceName := "Times", height := CFloat.finite 12, styleFlags := 0 }
      rfl (by decide) rfl).1,
    by decide, by decide⟩

end juce
